import Mathlib

/-!
# uConfig: the KiCad legacy library codec (`src/kicad/parser/kicadlibparser.cpp`)

A shallow embedding of `KicadLibParser` (`loadLib`, `saveLib`, `writeLib`, `writeComponent`,
`writePin`, `readComponent`, `readPin`) over a functional model of the part of
`QTextStream` the parser uses.

Conventions.
* A `QString` is the list of its characters.
* The text stream is the list of characters not yet read plus the sticky status word.
* A C++ `int` is an `Int`; results of arithmetic are wrapped to 32 bits with `toInt32`.
* Writing to the stream is modelled by returning the text written.
* A loop of the source is a function with a fuel argument; the entry points start it
  with more fuel than the stream has characters.
-/

namespace KicadLib

/-! ## QString and QChar -/

abbrev QString := List Char

/-- The predicate `QChar::isSpace`: U+0020, U+0009..U+000D, U+0085, U+00A0 and the
characters of the Unicode separator categories Zs, Zl, Zp. -/
def isSpace (c : Char) : Bool :=
  let n := c.toNat
  n == 0x20 || (0x09 ≤ n && n ≤ 0x0d) || n == 0x85 || n == 0xa0 || n == 0x1680 ||
    (0x2000 ≤ n && n ≤ 0x200a) || n == 0x2028 || n == 0x2029 || n == 0x202f ||
    n == 0x205f || n == 0x3000

/-- The test `QChar::isDigit`, on the ASCII digits. -/
def isDigit (c : Char) : Bool := 48 ≤ c.toNat && c.toNat ≤ 57

/-- The value `QChar::digitValue` of an ASCII digit. -/
def digitValue (c : Char) : Nat := c.toNat - 48

/-- The conversion `QChar::toLatin1`: code points above 0xff become 0. -/
def toLatin1 (c : Char) : Char := if c.toNat ≤ 0xff then c else Char.ofNat 0

/-- The method `QString::trimmed`: whitespace removed at both ends. -/
def trimmed (s : QString) : QString :=
  ((s.dropWhile isSpace).reverse.dropWhile isSpace).reverse

/-- The call `QString::split(sep, QString::SkipEmptyParts)`. -/
def splitSkipEmpty (sep : Char) (s : QString) : List QString :=
  (s.splitOn sep).filter (fun frag => !frag.isEmpty)

/-- The call `QStringList::join(sep)`. -/
def joinWith (sep : QString) (l : List QString) : QString := sep.intercalate l

/-! ## C++ `int` -/

/-- Wrap an integer to the range of a 32 bit two's complement `int`. -/
def toInt32 (n : Int) : Int := (n + 2147483648) % 4294967296 - 2147483648

/-- The values an `int` can hold. -/
def IsInt32 (n : Int) : Prop := -2147483648 ≤ n ∧ n < 2147483648

instance (n : Int) : Decidable (IsInt32 n) := by unfold IsInt32; infer_instance

/-- Unary minus on `int`. -/
def neg32 (n : Int) : Int := toInt32 (-n)

/-- The character of a decimal digit. -/
def digitChar (d : Nat) : Char := Char.ofNat (48 + d)

/-- Decimal digits of a natural number, most significant first. -/
def natDigits : Nat → Nat → QString
  | 0, _ => []
  | fuel + 1, n => if n < 10 then [digitChar n] else natDigits fuel (n / 10) ++ [digitChar (n % 10)]

/-- The text `QTextStream` writes for `operator<<(int)` (base 10, no padding). -/
def writeInt (n : Int) : QString :=
  if n < 0 then '-' :: natDigits (n.natAbs + 1) n.natAbs else natDigits (n.natAbs + 1) n.natAbs

/-! ## QRect -/

/-- The class `QRect`: the inclusive corner coordinates `x1, y1, x2, y2`. -/
structure QRect where
  x1 : Int
  y1 : Int
  x2 : Int
  y2 : Int
  deriving DecidableEq, Repr

namespace QRect

/-- The default constructed (null) rectangle. -/
def null : QRect := ⟨0, 0, -1, -1⟩

def left (r : QRect) : Int := r.x1
def top (r : QRect) : Int := r.y1
def right (r : QRect) : Int := r.x2
def bottom (r : QRect) : Int := r.y2
def setX (r : QRect) (n : Int) : QRect := { r with x1 := n }
def setY (r : QRect) (n : Int) : QRect := { r with y1 := n }
def setRight (r : QRect) (n : Int) : QRect := { r with x2 := n }
def setBottom (r : QRect) (n : Int) : QRect := { r with y2 := n }

/-- The test `QRect::isValid`. -/
def isValid (r : QRect) : Bool := decide (r.x1 ≤ r.x2) && decide (r.y1 ≤ r.y2)

/-- The method `QRect::normalized` of Qt 5: the corners are swapped along an axis when the
extent along it is negative. -/
def normalized (r : QRect) : QRect :=
  let x := if r.x2 < toInt32 (r.x1 - 1) then (r.x2, r.x1) else (r.x1, r.x2)
  let y := if r.y2 < toInt32 (r.y1 - 1) then (r.y2, r.y1) else (r.y1, r.y2)
  ⟨x.1, y.1, x.2, y.2⟩

end QRect

/-! ## QTextStream (read side) -/

/-- The enumeration `QTextStream::Status`, read side. -/
inductive Status where
  | Ok
  | ReadPastEnd
  | ReadCorruptData
  deriving DecidableEq, Repr

/-- The read state of the `QTextStream`: unread characters and status. -/
structure TextStream where
  buf : QString
  status : Status
  deriving DecidableEq, Repr

namespace TextStream

/-- The method `QTextStream::setStatus`: ignored unless the status is `Ok`. -/
def setStatus (s : TextStream) (st : Status) : TextStream :=
  if s.status = Status.Ok then { s with status := st } else s

/-- The method `QTextStream::atEnd`. -/
def atEnd (s : TextStream) : Bool := s.buf.isEmpty

/-- The method `QTextStream::skipWhiteSpace`. -/
def skipWhiteSpace (s : TextStream) : TextStream := { s with buf := s.buf.dropWhile isSpace }

/-- The operator `>>` into a `QString`: skip whitespace, then take the characters up to
the next whitespace (left unread). With nothing left the word is empty and the status
becomes `ReadPastEnd`. -/
def readToken (s : TextStream) : QString × TextStream :=
  let b := s.buf.dropWhile isSpace
  match b with
  | [] => ([], ({ s with buf := [] }).setStatus Status.ReadPastEnd)
  | _ :: _ => (b.takeWhile (fun c => !isSpace c), { s with buf := b.dropWhile (fun c => !isSpace c) })

/-- Remove one carriage return at the end of a line. -/
def dropCR (l : QString) : QString :=
  if l.getLast? = some '\r' then l.dropLast else l

/-- The method `QTextStream::readLine`: the characters up to the next line feed, which is
consumed and not returned. The status is not touched. -/
def readLine (s : TextStream) : QString × TextStream :=
  (dropCR (s.buf.takeWhile (fun c => c != '\n')),
   { s with buf := (s.buf.dropWhile (fun c => c != '\n')).drop 1 })

/-- The operator `>>` into a `char`, as called after `skipWhiteSpace`: the next character,
converted with `toLatin1`; at the end of the stream the character is 0 and the status
becomes `ReadPastEnd`. -/
def readChar (s : TextStream) : Char × TextStream :=
  match s.buf with
  | [] => (Char.ofNat 0, s.setStatus Status.ReadPastEnd)
  | c :: r => (toLatin1 c, { s with buf := r })

/-- Accumulate the digits of base `base` at the head of `b` as `QTextStreamPrivate::getNumber`
does, in a 64 bit unsigned accumulator. Returns the value, the digit count and the rest. -/
def scanDigits (base : Nat) (digitOf : Char → Option Nat) : QString → Nat → Nat → Nat × Nat × QString
  | [], val, n => (val, n, [])
  | c :: r, val, n =>
    match digitOf c with
    | some d => scanDigits base digitOf r ((val * base + d) % 18446744073709551616) (n + 1)
    | none => (val, n, c :: r)

def decDigit (c : Char) : Option Nat := if isDigit c then some (digitValue c) else none

def octDigit (c : Char) : Option Nat :=
  if 48 ≤ c.toNat && c.toNat ≤ 55 then some (c.toNat - 48) else none

def binDigit (c : Char) : Option Nat :=
  if c.toNat == 48 || c.toNat == 49 then some (c.toNat - 48) else none

def hexDigit (c : Char) : Option Nat :=
  if 48 ≤ c.toNat && c.toNat ≤ 57 then some (c.toNat - 48)
  else if 97 ≤ c.toNat && c.toNat ≤ 102 then some (c.toNat - 87)
  else if 65 ≤ c.toNat && c.toNat ≤ 70 then some (c.toNat - 55)
  else none

/-- The function `QTextStreamPrivate::getNumber` with `integerBase` 0 and the C locale, on a buffer
whose leading whitespace is already skipped: the base is detected from the prefix
(`0x` 16, `0b` 2, `0` and an octal digit 8, else 10; the character after a leading `0`
is put back in lower case). `none` is a parse failure. The value is the 64 bit unsigned
accumulator. -/
def getNumber (b : QString) : Option Nat × QString :=
  match b with
  | [] => (none, [])
  | c :: r =>
    if c = '0' then
      match r with
      | [] => (some 0, [])
      | c2 :: r2 =>
        if c2 = 'x' ∨ c2 = 'X' then
          let d := scanDigits 16 hexDigit r2 0 0
          if d.2.1 = 0 then (none, d.2.2) else (some d.1, d.2.2)
        else if c2 = 'b' ∨ c2 = 'B' then
          let d := scanDigits 2 binDigit r2 0 0
          if d.2.1 = 0 then (none, '0' :: 'b' :: r2) else (some d.1, d.2.2)
        else if (octDigit c2).isSome then
          let d := scanDigits 8 octDigit (c2 :: r2) 0 0
          (some d.1, d.2.2)
        else
          let d := scanDigits 10 decDigit (c2.toLower :: r2) 0 1
          (some d.1, d.2.2)
    else if c = '-' then
      let d := scanDigits 10 decDigit r 0 0
      if d.2.1 = 0 then (none, d.2.2)
      else
        let iv : Int :=
          if d.1 < 9223372036854775808 then (d.1 : Int) else (d.1 : Int) - 18446744073709551616
        (some (Int.toNat ((if iv > 0 then -iv else iv) % 18446744073709551616)), d.2.2)
    else if c = '+' then
      let d := scanDigits 10 decDigit r 0 0
      if d.2.1 = 0 then (none, d.2.2) else (some d.1, d.2.2)
    else if isDigit c then
      let d := scanDigits 10 decDigit r (digitValue c) 1
      (some d.1, d.2.2)
    else (none, c :: r)

/-- The operator `>>` into an `int`: skip whitespace, parse with `getNumber`, keep the low
32 bits. On failure the value is 0 and the status becomes `ReadPastEnd` at the end of
the stream and `ReadCorruptData` otherwise. -/
def readInt (s : TextStream) : Int × TextStream :=
  match getNumber (s.buf.dropWhile isSpace) with
  | (some v, r) => (toInt32 v, { s with buf := r })
  | (none, r) =>
    (0, ({ s with buf := r }).setStatus (if r.isEmpty then Status.ReadPastEnd else Status.ReadCorruptData))

end TextStream

/-! ## Data model -/

/-- The class `Pin`, as the parser sees it through its setters and getters. `D`, `E`, `T` are
the enumerations `Pin::Direction`, `Pin::ElectricalType`, `Pin::PinType`. -/
structure Pin (D E T : Type) where
  name : QString
  padName : QString
  pos : Int × Int
  length : Int
  direction : D
  layer : Int
  electricalType : E
  pinType : T
  deriving DecidableEq, Repr

/-- The class `Component`, as the parser sees it through its setters and getters. -/
structure Component (D E T : Type) where
  name : QString
  prefix_ : QString
  showPadName : Bool
  showPinName : Bool
  rect : QRect
  footPrints : List QString
  aliases : List QString
  pins : List (Pin D E T)
  deriving DecidableEq, Repr

/-- The class `Lib`: a name and the components in insertion order. -/
structure Lib (D E T : Type) where
  name : QString
  components : List (Component D E T)
  deriving DecidableEq, Repr

/-- What the parser uses of `Pin` and `Component` and is declared outside the parser: the
character and word tables of the three pin enumerations, the enumerator `Pin::Normal`,
and the scalar fields of a default constructed `Component`. -/
structure Model (D E T : Type) where
  /-- The setter `Pin::setDirection(char)` on a new pin. -/
  setDirection : Char → D
  /-- The getter `Pin::directionString()`. -/
  directionString : D → QString
  /-- The setter `Pin::setElectricalType(char)` on a new pin. -/
  setElectricalType : Char → E
  /-- The getter `Pin::electricalTypeString()`. -/
  electricalTypeString : E → QString
  /-- The setter `Pin::setPinType(const QString &)` on a new pin. -/
  setPinType : QString → T
  /-- The getter `Pin::pinTypeString()`. -/
  pinTypeString : T → QString
  /-- The enumerator `Pin::Normal`. -/
  normal : T
  newName : QString
  newPrefix : QString
  newShowPadName : Bool
  newShowPinName : Bool
  newRect : QRect

/-- The object `new Component()`: the collections are empty. -/
def Model.newComponent {D E T : Type} (k : Model D E T) : Component D E T :=
  { name := k.newName, prefix_ := k.newPrefix, showPadName := k.newShowPadName,
    showPinName := k.newShowPinName, rect := k.newRect, footPrints := [], aliases := [], pins := [] }

/-- Result of running a function of the parser. -/
inductive Res (α : Type) where
  /-- The function returned. -/
  | ok (a : α)
  /-- The call `start.at(0)` was made on an empty string. -/
  | indexOutOfRange
  /-- The fuel of the model ran out. -/
  | outOfFuel
  deriving DecidableEq, Repr

section Codec

variable {D E T : Type}

/-! ## Encode -/

/-- The method `KicadLibParser::writePin`: the text appended to the stream, piece by piece. -/
def writePin [DecidableEq T] (k : Model D E T) (pin : Pin D E T) : QString :=
  List.flatten
    ["X ".toList, (if pin.name.isEmpty then "~".toList else pin.name), " ".toList,
     pin.padName, " ".toList,
     writeInt pin.pos.1, " ".toList, writeInt (neg32 pin.pos.2), " ".toList,
     writeInt pin.length, " ".toList,
     k.directionString pin.direction, " ".toList,
     "50".toList, " ".toList,
     "50".toList, " ".toList,
     writeInt pin.layer, " ".toList,
     "1".toList, " ".toList,
     k.electricalTypeString pin.electricalType,
     (if pin.pinType ≠ k.normal then " ".toList ++ k.pinTypeString pin.pinType else [])]

/-- The method `KicadLibParser::writeComponent`: the text appended to the stream, piece by piece. -/
def writeComponent [DecidableEq T] (k : Model D E T) (component : Component D E T) : QString :=
  List.flatten
    ["#\n# ".toList, component.name, "\n#\n".toList,
     "DEF ".toList, component.name, " ".toList, component.prefix_, " 0 40 ".toList,
     (if component.showPadName then "Y ".toList else "N ".toList),
     (if component.showPinName then "Y ".toList else "N ".toList),
     "1 F N\n".toList,
     "F0 \"".toList, component.prefix_, "\" ".toList,
     writeInt (toInt32 (component.rect.right - 50)), " ".toList,
     writeInt (toInt32 (neg32 component.rect.bottom - 50)),
     " 50 H V C CNN\n".toList,
     "F1 \"".toList, component.name, "\" 0 0 50 H V C CNN\n".toList,
     "F2 \"~\" 0 0 50 H I C CNN\n".toList,
     "F3 \"~\" 0 0 50 H I C CNN\n".toList,
     (if !component.footPrints.isEmpty then
        List.flatten
          ["$FPLIST\n".toList,
           (component.footPrints.map
             (fun footPrint => List.flatten [" ".toList, footPrint, "\n".toList])).flatten,
           "$ENDFPLIST\n".toList]
      else []),
     (if !component.aliases.isEmpty then
        List.flatten ["ALIAS ".toList, joinWith " ".toList component.aliases, "\n".toList]
      else []),
     "DRAW\n".toList,
     (component.pins.map (fun pin => writePin k pin ++ "\n".toList)).flatten,
     (if component.rect.isValid then
        List.flatten
          ["S ".toList, writeInt component.rect.left, " ".toList,
           writeInt component.rect.top, " ".toList,
           writeInt component.rect.right, " ".toList,
           writeInt component.rect.bottom, " ".toList,
           "0 1 10 f\n".toList]
      else []),
     "ENDDRAW\n".toList,
     "ENDDEF".toList]

/-- The method `KicadLibParser::writeLib`: the text appended to the stream. `date` is the text of
`QDateTime::currentDateTime().toString("dd/MM/yyyy hh:mm:ss")`. -/
def writeLib [DecidableEq T] (k : Model D E T) (date : QString) (lib : Lib D E T) : QString :=
  List.flatten
    ["EESchema-LIBRARY Version 2.3  Date: ".toList, date, "\n".toList,
     "#encoding utf-8\n".toList,
     "#created with uConfig by Sebastien CAUX (sebcaux)\n".toList,
     "#https://github.com/Robotips/uConfig\n".toList,
     (lib.components.map (fun component => writeComponent k component ++ "\n".toList)).flatten,
     "#\n".toList,
     "#End Library".toList]

/-! ## Decode -/

/-- The method `KicadLibParser::readPin`: the pin returned (`none` for `Q_NULLPTR`) and the stream
afterwards. -/
def readPin (k : Model D E T) (s : TextStream) : Option (Pin D E T) × TextStream :=
  let rName := s.readToken
  let name : QString := if rName.1 = "~".toList then [] else rName.1
  if rName.2.status ≠ Status.Ok then (none, rName.2) else
  let rPad := rName.2.readToken
  if rPad.2.status ≠ Status.Ok then (none, rPad.2) else
  let rX := rPad.2.readInt
  let rY := rX.2.readInt
  if rY.2.status ≠ Status.Ok then (none, rY.2) else
  let rLen := rY.2.readInt
  if rLen.2.status ≠ Status.Ok then (none, rLen.2) else
  let rDir := rLen.2.skipWhiteSpace.readChar
  let rDummy1 := rDir.2.readToken
  let rDummy2 := rDummy1.2.readToken
  let rLayer := rDummy2.2.readInt
  if rLayer.2.status ≠ Status.Ok then (none, rLayer.2) else
  let rDummy3 := rLayer.2.skipWhiteSpace.readToken
  let rElec := rDummy3.2.skipWhiteSpace.readChar
  let rType := rElec.2.readLine
  (some { name := name, padName := rPad.1, pos := (rX.1, neg32 rY.1), length := rLen.1,
          direction := k.setDirection rDir.1, layer := rLayer.1,
          electricalType := k.setElectricalType rElec.1,
          pinType := k.setPinType (trimmed rType.1) }, rType.2)

/-- The `$FPLIST` loop of `readComponent`: `while (!_stream.atEnd())`, a word is read and,
unless it is `$ENDFPLIST`, added as a footprint. `none`: out of fuel. -/
def readFootPrints : Nat → Component D E T → TextStream → Option (Component D E T × TextStream)
  | 0, _, _ => none
  | fuel + 1, component, s =>
    if s.atEnd then some (component, s)
    else
      let r := s.readToken
      if r.1 = "$ENDFPLIST".toList then some (component, r.2)
      else readFootPrints fuel { component with footPrints := component.footPrints ++ [r.1] } r.2

/-- How one pass through the body of the `do ... while` loop of `readComponent` ends. -/
inductive Step (D E T : Type) where
  /-- The end of the body is reached: the loop condition is evaluated next. -/
  | next (component : Component D E T) (draw : Bool) (s : TextStream)
  /-- The statement `return component` of the `ENDDEF` branch. -/
  | ret (component : Component D E T) (s : TextStream)
  /-- The call `start.at(0)` on an empty `start`. -/
  | fault
  /-- The fuel of the `$FPLIST` loop ran out. -/
  | noFuel

/-- The body of the `do ... while` loop of `KicadLibParser::readComponent`. -/
def readComponentBody (k : Model D E T) (component : Component D E T) (draw : Bool)
    (s0 : TextStream) : Step D E T :=
  let start := s0.readToken.1
  let s := s0.readToken.2
  match start with
  | [] => Step.fault
  | ch0 :: _ =>
    if ch0 = '#' then Step.next component draw s.readLine.2
    else if start = "DEF".toList then
      let rName := s.readToken
      let rPrefix := rName.2.readToken
      let rDummy1 := rPrefix.2.readToken
      let rDummy2 := rDummy1.2.readToken
      let rOpt1 := rDummy2.2.readToken
      let rOpt2 := rOpt1.2.readToken
      Step.next { component with name := rName.1, prefix_ := rPrefix.1,
                                 showPadName := decide (rOpt1.1 = "Y".toList),
                                 showPinName := decide (rOpt2.1 = "Y".toList) }
        draw rOpt2.2.readLine.2
    else if ch0 = 'F' then Step.next component draw s.readLine.2
    else if start = "$FPLIST".toList then
      match readFootPrints (s.buf.length + 1) component s with
      | some (component, s) => Step.next component draw s
      | none => Step.noFuel
    else if "DRAW".toList.isPrefixOf start then Step.next component true s.readLine.2
    else if "ALIAS".toList.isPrefixOf start then
      let rLine := s.readLine
      Step.next { component with aliases := component.aliases ++ splitSkipEmpty ' ' rLine.1 }
        draw rLine.2
    else if "ENDDRAW".toList.isPrefixOf start then Step.next component false s.readLine.2
    else if "ENDDEF".toList.isPrefixOf start then Step.ret component s.readLine.2
    else if draw then
      if ch0 = 'X' then
        match readPin k s with
        | (some pin, s) => Step.next { component with pins := component.pins ++ [pin] } draw s
        | (none, s) => Step.next component draw s.readLine.2
      else if "S".toList.isPrefixOf start then
        let r1 := s.readInt
        let r2 := r1.2.readInt
        let r3 := r2.2.readInt
        let r4 := r3.2.readInt
        let rect := (((QRect.null.setX r1.1).setY (neg32 r2.1)).setRight r3.1).setBottom (neg32 r4.1)
        Step.next { component with rect := rect.normalized } draw r4.2
      else Step.next component draw s
    else Step.next component draw s

/-- The `do ... while (!_stream.atEnd())` loop of `readComponent`. -/
def readComponentLoop (k : Model D E T) :
    Nat → Component D E T → Bool → TextStream → Res (Option (Component D E T) × TextStream)
  | 0, _, _, _ => Res.outOfFuel
  | fuel + 1, component, draw, s =>
    match readComponentBody k component draw s with
    | Step.next component draw s =>
      if s.atEnd then Res.ok (some component, s) else readComponentLoop k fuel component draw s
    | Step.ret component s => Res.ok (some component, s)
    | Step.fault => Res.indexOutOfRange
    | Step.noFuel => Res.outOfFuel

/-- The method `KicadLibParser::readComponent`: the component returned (`none` for a null pointer)
and the stream afterwards. -/
def readComponent (k : Model D E T) (s : TextStream) :
    Res (Option (Component D E T) × TextStream) :=
  readComponentLoop k (s.buf.length + 1) k.newComponent false s

/-- The loop of `readComponent` entered with a component and a drawing flag, on a stream, with
more fuel than the stream has characters. -/
def readComponentFrom (k : Model D E T) (component : Component D E T) (draw : Bool)
    (s : TextStream) : Res (Option (Component D E T) × TextStream) :=
  readComponentLoop k (s.buf.length + 1) component draw s

/-- Where one pass of the loop body of `readComponent` leaves the stream. -/
def Step.stream? : Step D E T → Option TextStream
  | Step.next _ _ s => some s
  | Step.ret _ s => some s
  | Step.fault => none
  | Step.noFuel => none

/-- The `do ... while (!_stream.atEnd())` loop of `loadLib`. -/
def loadLibLoop (k : Model D E T) :
    Nat → List (Component D E T) → TextStream → Res (List (Component D E T) × TextStream)
  | 0, _, _ => Res.outOfFuel
  | fuel + 1, components, s =>
    match readComponent k s with
    | Res.ok (some component, s) =>
      if s.atEnd then Res.ok (components ++ [component], s)
      else loadLibLoop k fuel (components ++ [component]) s
    | Res.ok (none, s) =>
      if s.readLine.2.atEnd then Res.ok (components, s.readLine.2)
      else loadLibLoop k fuel components s.readLine.2
    | Res.indexOutOfRange => Res.indexOutOfRange
    | Res.outOfFuel => Res.outOfFuel

/-- The method `KicadLibParser::loadLib`. `baseName` is `QFileInfo(fileName).baseName()`; `file` is the
text of the file, `none` when it cannot be opened; `lib` is the object the caller passes,
`none` for a null pointer. The result is the object returned (`none` for `Q_NULLPTR`)
paired with the caller's object after the call. -/
def loadLib (k : Model D E T) (baseName : QString) (file : Option QString)
    (lib : Option (Lib D E T)) : Res (Option (Lib D E T) × Option (Lib D E T)) :=
  match file with
  | none => Res.ok (none, lib)
  | some text =>
    let s : TextStream := (TextStream.readLine ⟨text, Status.Ok⟩).2
    match loadLibLoop k (s.buf.length + 1) [] s with
    | Res.ok (components, _) =>
      let result : Lib D E T := { name := baseName, components := components }
      Res.ok (some result, lib.map (fun _ => result))
    | Res.indexOutOfRange => Res.indexOutOfRange
    | Res.outOfFuel => Res.outOfFuel

/-- The method `KicadLibParser::saveLib`. `canOpen` tells whether the file can be opened for writing.
The result is the value returned, the caller's library after the call, and the text
written to the file (`none` when nothing is written). -/
def saveLib [DecidableEq T] (k : Model D E T) (date baseName : QString) (canOpen : Bool)
    (lib : Lib D E T) : Bool × Lib D E T × Option QString :=
  if canOpen then (true, { lib with name := baseName }, some (writeLib k date lib))
  else (false, lib, none)

/-! ## Values expressible in the grammar -/

/-- A non-empty word without whitespace: what `operator>>` reads back as one word. -/
def isToken (t : QString) : Bool := !t.isEmpty && t.all (fun c => !isSpace c)

/-- A word of exactly one character that is not whitespace. -/
def isCharCode (w : QString) : Bool :=
  match w with
  | [c] => !isSpace c
  | _ => false

/-- The text of an X record, after the comment in `writePin`:
`X PIN_NAME PAD_NAME X_POS Y_POS LINE_WIDTH DIRECTION NAME_TEXT_SIZE LABEL_TEXT_SIZE LAYER ?1?
ELECTRICAL_TYPE`, the fields separated by one blank, followed by `tail` (nothing, or a
blank and the pin type word). -/
def xRecord (name padName : QString) (x y length : Int) (direction : Char)
    (nameSize padSize : QString) (layer : Int) (one : QString) (electricalType : Char)
    (tail : QString) : QString :=
  List.flatten
    ["X ".toList, name, " ".toList, padName, " ".toList,
     writeInt x, " ".toList, writeInt y, " ".toList,
     writeInt length, " ".toList,
     [direction], " ".toList,
     nameSize, " ".toList,
     padSize, " ".toList,
     writeInt layer, " ".toList,
     one, " ".toList,
     [electricalType],
     tail]

/-- The fields of a pin fit the X record: the name is empty or a word, the pad name is a
word, the numbers are `int`s, direction and electrical type are written as one
character, and the pin type word has no line feed. -/
def Pin.inGrammar (k : Model D E T) (pin : Pin D E T) : Bool :=
  (pin.name.isEmpty || isToken pin.name) && isToken pin.padName
    && decide (IsInt32 pin.pos.1) && decide (IsInt32 pin.pos.2)
    && decide (IsInt32 pin.length) && decide (IsInt32 pin.layer)
    && isCharCode (k.directionString pin.direction)
    && isCharCode (k.electricalTypeString pin.electricalType)
    && (k.pinTypeString pin.pinType).all (fun c => c != '\n')

/-- The pin `readPin` builds from the X record that `writePin` writes for a pin in the
grammar. -/
def Pin.decoded [DecidableEq T] (k : Model D E T) (pin : Pin D E T) : Pin D E T :=
  { pin with
    name := if pin.name = "~".toList then [] else pin.name
    pos := (pin.pos.1, neg32 (neg32 pin.pos.2))
    direction := k.setDirection (toLatin1 ((k.directionString pin.direction).headD ' '))
    electricalType := k.setElectricalType (toLatin1 ((k.electricalTypeString pin.electricalType).headD ' '))
    pinType := k.setPinType
      (trimmed (if pin.pinType ≠ k.normal then " ".toList ++ k.pinTypeString pin.pinType else [])) }

/-- The fields of a component fit the component record: name and prefix are words, the
footprints are words other than `$ENDFPLIST`, the aliases are words, the pins are in the
grammar and the corners of the rectangle are `int`s. -/
def Component.inGrammar (k : Model D E T) (component : Component D E T) : Bool :=
  isToken component.name && isToken component.prefix_
    && component.footPrints.all (fun fp => isToken fp && decide (fp ≠ "$ENDFPLIST".toList))
    && component.aliases.all isToken
    && component.pins.all (fun pin => pin.inGrammar k)
    && decide (IsInt32 component.rect.x1) && decide (IsInt32 component.rect.y1)
    && decide (IsInt32 component.rect.x2) && decide (IsInt32 component.rect.y2)

/-- The rectangle `readComponent` builds from the S record that `writeComponent` writes for a
rectangle. -/
def QRect.decoded (r : QRect) : QRect :=
  ((((QRect.null.setX r.left).setY (neg32 r.top)).setRight r.right).setBottom
    (neg32 r.bottom)).normalized

/-- The component `readComponent` builds from the record that `writeComponent` writes for a
component in the grammar. -/
def Component.decoded [DecidableEq T] (k : Model D E T) (component : Component D E T) :
    Component D E T :=
  { component with
    rect := if component.rect.isValid then component.rect.decoded else k.newRect
    pins := component.pins.map (fun pin => pin.decoded k) }

/-- The decoders of the three pin enumerations map what is written for the pin back to the
pin: the direction and electrical type characters, and the pin type word (the empty word
when the type is `Normal`). -/
def Pin.codesInvert [DecidableEq T] (k : Model D E T) (pin : Pin D E T) : Prop :=
  k.setDirection (toLatin1 ((k.directionString pin.direction).headD ' ')) = pin.direction
    ∧ k.setElectricalType (toLatin1 ((k.electricalTypeString pin.electricalType).headD ' '))
        = pin.electricalType
    ∧ k.setPinType (if pin.pinType = k.normal then [] else trimmed (k.pinTypeString pin.pinType))
        = pin.pinType

instance [DecidableEq D] [DecidableEq E] [DecidableEq T] (k : Model D E T) (pin : Pin D E T) :
    Decidable (pin.codesInvert k) := by
  unfold Pin.codesInvert; infer_instance

end Codec

/-! ## A model instance and concrete inputs -/

inductive Direction where
  | Down | Left | Up | Right
  deriving DecidableEq, Repr

inductive ElectricalType where
  | Input | Output | Bidir | Tristate | Passive | Unspecified | PowerIn | PowerOut
  | OpenCollector | OpenEmitter | NotConnected
  deriving DecidableEq, Repr

inductive PinType where
  | Normal | NotVisible | Invert | Clock
  deriving DecidableEq, Repr

/-- Modelled from the spec: the tables of class `Pin` and the constructor of `Component` are
declared outside the parser. This instance uses the characters of the legacy KiCad
format (direction `U D L R`, electrical type `I O B T P U W w C E N`, pin type words
`N I C`), with `Right`, `Unspecified` and `Normal` as fallbacks, and builds a new
component with empty name and prefix, both flags set and a null rectangle. -/
def kicadModel : Model Direction ElectricalType PinType where
  setDirection c :=
    if c = 'D' then Direction.Down else if c = 'L' then Direction.Left
    else if c = 'U' then Direction.Up else Direction.Right
  directionString d :=
    match d with
    | Direction.Down => ['D']
    | Direction.Left => ['L']
    | Direction.Up => ['U']
    | Direction.Right => ['R']
  setElectricalType c :=
    if c = 'I' then ElectricalType.Input else if c = 'O' then ElectricalType.Output
    else if c = 'B' then ElectricalType.Bidir else if c = 'T' then ElectricalType.Tristate
    else if c = 'P' then ElectricalType.Passive else if c = 'W' then ElectricalType.PowerIn
    else if c = 'w' then ElectricalType.PowerOut else if c = 'C' then ElectricalType.OpenCollector
    else if c = 'E' then ElectricalType.OpenEmitter
    else if c = 'N' then ElectricalType.NotConnected else ElectricalType.Unspecified
  electricalTypeString e :=
    match e with
    | ElectricalType.Input => ['I']
    | ElectricalType.Output => ['O']
    | ElectricalType.Bidir => ['B']
    | ElectricalType.Tristate => ['T']
    | ElectricalType.Passive => ['P']
    | ElectricalType.Unspecified => ['U']
    | ElectricalType.PowerIn => ['W']
    | ElectricalType.PowerOut => ['w']
    | ElectricalType.OpenCollector => ['C']
    | ElectricalType.OpenEmitter => ['E']
    | ElectricalType.NotConnected => ['N']
  setPinType w :=
    if w = ['N'] then PinType.NotVisible else if w = ['I'] then PinType.Invert
    else if w = ['C'] then PinType.Clock else PinType.Normal
  pinTypeString t :=
    match t with
    | PinType.Normal => []
    | PinType.NotVisible => ['N']
    | PinType.Invert => ['I']
    | PinType.Clock => ['C']
  normal := PinType.Normal
  newName := []
  newPrefix := []
  newShowPadName := true
  newShowPinName := true
  newRect := QRect.null

/-- The banner line used in the concrete inputs. -/
def banner : QString := "EESchema-LIBRARY Version 2.3".toList

/-- A date as `writeLib` formats it. -/
def sampleDate : QString := "01/01/2020 00:00:00".toList

/-- The worked example of the specification. -/
def exampleStream : QString :=
  banner ++ "\nDEF U1 U 0 40 Y Y 1 F N\nDRAW\nX VCC 1 0 100 200 U 50 50 0 1 W\nENDDRAW\nENDDEF".toList

/-- A component whose second pin line has a word where the x coordinate belongs. -/
def malformedPinStream : QString :=
  banner ++ ("\nDEF U1 U 0 40 Y Y 1 F N\nDRAW\nX A 1 foo 100 200 U 50 50 0 1 W\n".toList
    ++ "X B 2 0 100 200 U 50 50 0 1 W\nENDDRAW\nENDDEF\n".toList)

/-- A banner followed by one line of words the grammar does not know. -/
def unknownWordsStream : QString := banner ++ "\nfoo bar".toList

/-- A file cut at the end of the line of the S record, inside the DRAW section. -/
def truncatedStream : QString :=
  banner ++ ("\nDEF U1 U 0 40 Y Y 1 F N\nDRAW\nX VCC 1 0 100 200 U 50 50 0 1 W\n".toList
    ++ "S 0 0 10 20 0 1 10 f\n".toList)

/-- A file cut at the end of a pin line, inside the DRAW section. -/
def truncatedAfterPinStream : QString :=
  banner ++ "\nDEF U1 U 0 40 Y Y 1 F N\nDRAW\nX VCC 1 0 100 200 U 50 50 0 1 W\n".toList

/-- A file cut at the end of a well-formed pin line that follows a malformed one (a word where
the x coordinate belongs), inside the DRAW section. -/
def truncatedAfterMalformedPinStream : QString :=
  banner ++ ("\nDEF U1 U 0 40 Y Y 1 F N\nDRAW\nX A 1 foo 100 200 U 50 50 0 1 W\n".toList
    ++ "X B 2 0 100 200 U 50 50 0 1 W\n".toList)

/-- A pin in the grammar: power input `VCC` on pad 1, drawn as a clock pin. -/
def vccPin : Pin Direction ElectricalType PinType :=
  { name := "VCC".toList, padName := "1".toList, pos := (0, -100), length := 200,
    direction := Direction.Up, layer := 0, electricalType := ElectricalType.PowerIn,
    pinType := PinType.Clock }

/-- A pin whose name holds a blank. -/
def spacedNamePin : Pin Direction ElectricalType PinType :=
  { name := "A 1".toList, padName := "2".toList, pos := (3, 4), length := 5,
    direction := Direction.Up, layer := 0, electricalType := ElectricalType.PowerIn,
    pinType := PinType.Normal }

/-- A clock pin whose name holds a blank. -/
def spacedNameClockPin : Pin Direction ElectricalType PinType :=
  { name := "A B".toList, padName := "1".toList, pos := (3, 4), length := 200,
    direction := Direction.Up, layer := 0, electricalType := ElectricalType.PowerIn,
    pinType := PinType.Clock }

/-- A component whose only pin carries the placeholder `~` as its name. -/
def tildePinComponent : Component Direction ElectricalType PinType :=
  { name := "U1".toList, prefix_ := "U".toList, showPadName := true, showPinName := true,
    rect := QRect.null, footPrints := [], aliases := [],
    pins := [{ name := "~".toList, padName := "1".toList, pos := (0, -100), length := 200,
               direction := Direction.Up, layer := 0,
               electricalType := ElectricalType.PowerIn, pinType := PinType.Normal }] }

/-- A component in the grammar with footprints, aliases, two pins and a rectangle. -/
def sampleComponent : Component Direction ElectricalType PinType :=
  { name := "U1".toList, prefix_ := "U".toList, showPadName := true, showPinName := false,
    rect := ⟨-100, -50, 100, 50⟩, footPrints := ["DIP*".toList, "SO8".toList],
    aliases := ["LM1".toList, "LM2".toList],
    pins := [vccPin,
             { name := [], padName := "2".toList, pos := (-300, 100), length := 200,
               direction := Direction.Right, layer := 1,
               electricalType := ElectricalType.Input, pinType := PinType.Normal }] }

/-- A component whose only footprint is the word that closes the footprint list. -/
def endWordComponent : Component Direction ElectricalType PinType :=
  { name := "U1".toList, prefix_ := "U".toList, showPadName := true, showPinName := true,
    rect := QRect.null, footPrints := ["$ENDFPLIST".toList], aliases := [], pins := [] }

/-- A component with a valid, normalized rectangle and nothing else to draw. -/
def boxComponent (D E T : Type) : Component D E T :=
  { name := "U1".toList, prefix_ := "U".toList, showPadName := true, showPinName := true,
    rect := ⟨0, 10, 20, 30⟩, footPrints := [], aliases := [], pins := [] }

/-- A file cut right after the word `DEF`. -/
def defOnlyStream : QString := banner ++ "\nDEF".toList

/-- A component whose S record has its right corner one unit left of its left corner. -/
def narrowRectStream : QString :=
  banner ++ "\nDEF U1 U 0 40 Y Y 1 F N\nDRAW\nS 5 0 4 0 0 1 10 f\nENDDRAW\nENDDEF\n".toList

/-- A component whose ALIAS line separates its two words with a tab. -/
def tabAliasStream : QString :=
  banner ++ "\nDEF U1 U 0 40 Y Y 1 F N\nALIAS A\tB\nDRAW\nENDDRAW\nENDDEF\n".toList

/-- A complete component record followed by one empty line. -/
def blankLineStream : QString :=
  banner ++ "\nDEF U1 U 0 40 Y Y 1 F N\nDRAW\nENDDRAW\nENDDEF\n\n".toList

/-- An ALIAS line with two blanks between its two words, followed by the DRAW line. -/
def aliasLineStream : TextStream := ⟨"ALIAS LM1  LM2\nDRAW\n".toList, Status.Ok⟩

/-- The lines of a text: the pieces between its line feeds. -/
def lines (s : QString) : List QString := s.splitOn '\n'

/-- Modelled from the spec: "split on whitespace (empty fragments discarded)", the pieces of a
text between its whitespace characters, the empty ones left out. These are the words that
`operator>>` reads one after the other. -/
def splitWhitespace (s : QString) : List QString :=
  (s.splitOnP isSpace).filter (fun frag => !frag.isEmpty)


/-! ## Lemmas on words and whitespace -/

theorem isSpace_blank : isSpace ' ' = true := by decide

theorem isSpace_lf : isSpace '\n' = true := by decide

theorem isToken_ne_nil {t : QString} (h : isToken t = true) : t ≠ [] := by
  intro h0; subst h0; simp [isToken] at h

theorem isToken_not_space {t : QString} (h : isToken t = true) :
    ∀ c ∈ t, isSpace c = false := by
  intro c hc
  simp [isToken] at h
  exact h.2 c hc

theorem dropWhile_word (t : QString) (c : Char) (r : QString)
    (ht : ∀ x ∈ t, isSpace x = false) (hc : isSpace c = true) :
    (t ++ c :: r).dropWhile (fun x => !isSpace x) = c :: r := by
  induction t with
  | nil => simp [List.dropWhile, hc]
  | cons a t ih =>
    have ha : isSpace a = false := ht a (by simp)
    simp only [List.cons_append, List.dropWhile_cons, ha, Bool.not_false, if_true]
    exact ih (fun x hx => ht x (by simp [hx]))

theorem takeWhile_word (t : QString) (c : Char) (r : QString)
    (ht : ∀ x ∈ t, isSpace x = false) (hc : isSpace c = true) :
    (t ++ c :: r).takeWhile (fun x => !isSpace x) = t := by
  induction t with
  | nil => simp [List.takeWhile, hc]
  | cons a t ih =>
    have ha : isSpace a = false := ht a (by simp)
    simp only [List.cons_append, List.takeWhile_cons, ha, Bool.not_false, if_true]
    rw [ih (fun x hx => ht x (by simp [hx]))]

theorem dropWhile_word_end (t : QString) (ht : ∀ x ∈ t, isSpace x = false) :
    t.dropWhile (fun x => !isSpace x) = [] := by
  induction t with
  | nil => rfl
  | cons a t ih =>
    have ha : isSpace a = false := ht a (by simp)
    simp only [List.dropWhile_cons, ha, Bool.not_false, if_true]
    exact ih (fun x hx => ht x (by simp [hx]))

theorem takeWhile_word_end (t : QString) (ht : ∀ x ∈ t, isSpace x = false) :
    t.takeWhile (fun x => !isSpace x) = t := by
  induction t with
  | nil => rfl
  | cons a t ih =>
    have ha : isSpace a = false := ht a (by simp)
    simp only [List.takeWhile_cons, ha, Bool.not_false, if_true]
    rw [ih (fun x hx => ht x (by simp [hx]))]

namespace TextStream

/-- Leading whitespace does not change what `>>` reads. -/
theorem readToken_space (c : Char) (b : QString) (st : Status) (hc : isSpace c = true) :
    readToken ⟨c :: b, st⟩ = readToken ⟨b, st⟩ := by
  simp [readToken, List.dropWhile, hc]

/-- A word followed by whitespace is read whole, and the whitespace is left. -/
theorem readToken_word (t : QString) (c : Char) (r : QString) (st : Status)
    (ht : isToken t = true) (hc : isSpace c = true) :
    readToken ⟨t ++ c :: r, st⟩ = (t, ⟨c :: r, st⟩) := by
  have hne := isToken_ne_nil ht
  have hns := isToken_not_space ht
  obtain ⟨a, t', rfl⟩ := List.exists_cons_of_ne_nil hne
  have ha : isSpace a = false := hns a (by simp)
  have e1 : ((a :: t') ++ c :: r).dropWhile isSpace = (a :: t') ++ c :: r := by
    simp [List.dropWhile, ha]
  simp only [readToken, e1]
  simp only [List.cons_append]
  rw [← List.cons_append, takeWhile_word _ _ _ hns hc, dropWhile_word _ _ _ hns hc]

/-- A word at the end of the stream is read whole. -/
theorem readToken_word_end (t : QString) (st : Status) (ht : isToken t = true) :
    readToken ⟨t, st⟩ = (t, ⟨[], st⟩) := by
  have hne := isToken_ne_nil ht
  have hns := isToken_not_space ht
  obtain ⟨a, t', rfl⟩ := List.exists_cons_of_ne_nil hne
  have ha : isSpace a = false := hns a (by simp)
  have e1 : (a :: t').dropWhile isSpace = a :: t' := by
    simp [List.dropWhile, ha]
  simp only [readToken, e1]
  rw [takeWhile_word_end _ hns, dropWhile_word_end _ hns]

end TextStream


/-! ## Lemmas on numbers -/

theorem decDigit_digitChar (d : Nat) (h : d < 10) :
    TextStream.decDigit (digitChar d) = some d := by
  interval_cases d <;> rfl

theorem natDigits_length_pos (f m : Nat) (h : m < f) : 0 < (natDigits f m).length := by
  cases f with
  | zero => omega
  | succ f =>
    unfold natDigits
    split <;> simp

theorem scanDigits_natDigits (f : Nat) : ∀ (m : Nat), m < f → m < 18446744073709551616 →
    ∀ (cnt : Nat) (rest : QString),
    TextStream.scanDigits 10 TextStream.decDigit (natDigits f m ++ rest) 0 cnt =
      TextStream.scanDigits 10 TextStream.decDigit rest m (cnt + (natDigits f m).length) := by
  induction f with
  | zero => intro m h; omega
  | succ f ih =>
    intro m hf hm cnt rest
    unfold natDigits
    by_cases h10 : m < 10
    · simp only [h10, if_true, List.singleton_append, List.length_singleton]
      rw [TextStream.scanDigits, decDigit_digitChar m h10]
      simp only
      congr 1
      omega
    · simp only [h10, if_false, List.append_assoc, List.singleton_append, List.length_append,
        List.length_singleton]
      rw [ih (m / 10) (by omega) (by omega)]
      rw [TextStream.scanDigits, decDigit_digitChar (m % 10) (by omega)]
      simp only
      congr 1
      · omega

theorem natDigits_head (f : Nat) : ∀ (m : Nat), m < f → 1 ≤ m →
    ∃ c t, natDigits f m = c :: t ∧ isDigit c = true ∧ c ≠ '0' ∧ c ≠ '-' ∧ c ≠ '+' := by
  induction f with
  | zero => intro m h; omega
  | succ f ih =>
    intro m hf hm
    unfold natDigits
    by_cases h10 : m < 10
    · simp only [h10, if_true]
      refine ⟨digitChar m, [], rfl, ?_⟩
      interval_cases m <;> decide
    · simp only [h10, if_false]
      obtain ⟨c, t, e, hc⟩ := ih (m / 10) (by omega) (by omega)
      exact ⟨c, t ++ [digitChar (m % 10)], by rw [e]; rfl, hc⟩

theorem isDigit_not_space (c : Char) (h : isDigit c = true) : isSpace c = false := by
  simp only [isDigit, Bool.and_eq_true, decide_eq_true_eq] at h
  simp only [isSpace, Bool.or_eq_false_iff, Bool.and_eq_false_iff, beq_eq_false_iff_ne, ne_eq,
    decide_eq_false_iff_not]
  omega

/-- A positive number written in base 10 and followed by a blank is parsed back. -/
theorem getNumber_natDigits_pos (f m : Nat) (r : QString) (hf : m < f) (hm : 1 ≤ m)
    (hb : m < 18446744073709551616) :
    TextStream.getNumber (natDigits f m ++ ' ' :: r) = (some m, ' ' :: r) := by
  obtain ⟨c, t, e, hd, h0, hm', hp⟩ := natDigits_head f m hf hm
  have key := scanDigits_natDigits f m hf hb 0 (' ' :: r)
  rw [e] at key ⊢
  have hdec : TextStream.decDigit c = some (digitValue c) := by simp [TextStream.decDigit, hd]
  have hdv : digitValue c < 10 := by
    simp only [isDigit, Bool.and_eq_true, decide_eq_true_eq] at hd
    simp only [digitValue]; omega
  rw [List.cons_append, TextStream.scanDigits, hdec] at key
  simp only [Nat.zero_mul, Nat.zero_add] at key
  rw [Nat.mod_eq_of_lt (by omega)] at key
  have hsp : TextStream.scanDigits 10 TextStream.decDigit (' ' :: r) m ((c :: t).length) =
      (m, (c :: t).length, ' ' :: r) := by
    rw [TextStream.scanDigits]; rfl
  rw [hsp] at key
  simp only [TextStream.getNumber, List.cons_append, h0, hm', hp, hd, if_false, if_true, key]

theorem getNumber_zero (r : QString) :
    TextStream.getNumber ('0' :: ' ' :: r) = (some 0, ' ' :: r) := by
  rfl

theorem natDigits_zero (f : Nat) : natDigits (f + 1) 0 = ['0'] := by
  rfl


theorem getNumber_neg (f m : Nat) (r : QString) (hf : m < f) (hm : 1 ≤ m)
    (hb : m ≤ 2147483648) :
    TextStream.getNumber ('-' :: (natDigits f m ++ ' ' :: r)) =
      (some (18446744073709551616 - m), ' ' :: r) := by
  have key := scanDigits_natDigits f m hf (by omega) 0 (' ' :: r)
  have hsp : ∀ n, TextStream.scanDigits 10 TextStream.decDigit (' ' :: r) m n =
      (m, n, ' ' :: r) := by
    intro n; rw [TextStream.scanDigits]; rfl
  rw [hsp] at key
  have hl := natDigits_length_pos f m hf
  have hne : ¬ (0 + (natDigits f m).length = 0) := by omega
  have hlt : m < 9223372036854775808 := by omega
  simp only [TextStream.getNumber, key, hne, if_false, hlt, if_true]
  have h1 : ((m : Int) > 0) := by omega
  simp only [h1, if_true, show ¬ ('-' = '0') by decide]
  rw [if_neg (by simp)]
  congr 1
  congr 1
  omega


/-- An `int` written by `operator<<` and followed by a blank is read back by `operator>>`. -/
theorem readInt_writeInt (n : Int) (r : QString) (st : Status) (hn : IsInt32 n) :
    TextStream.readInt ⟨writeInt n ++ ' ' :: r, st⟩ = (n, ⟨' ' :: r, st⟩) := by
  obtain ⟨hlo, hhi⟩ := hn
  by_cases hneg : n < 0
  · have e : writeInt n = '-' :: natDigits (n.natAbs + 1) n.natAbs := by simp [writeInt, hneg]
    have hg := getNumber_neg (n.natAbs + 1) n.natAbs r (by omega) (by omega) (by omega)
    rw [e]
    have hd : (('-' :: natDigits (n.natAbs + 1) n.natAbs) ++ ' ' :: r).dropWhile isSpace =
        '-' :: (natDigits (n.natAbs + 1) n.natAbs ++ ' ' :: r) := by
      rw [List.cons_append, List.dropWhile_cons]; rfl
    have hv : toInt32 ((18446744073709551616 - n.natAbs : Nat) : Int) = n := by
      simp only [toInt32]
      have h : ((18446744073709551616 - n.natAbs : Nat) : Int) = 18446744073709551616 + n := by
        omega
      rw [h]
      omega
    simp only [TextStream.readInt, hd, hg, hv]
  · have e : writeInt n = natDigits (n.natAbs + 1) n.natAbs := by simp [writeInt, hneg]
    rw [e]
    by_cases hz : n = 0
    · subst hz
      have hd0 : (natDigits ((0 : Int).natAbs + 1) (0 : Int).natAbs ++ ' ' :: r).dropWhile isSpace
          = '0' :: ' ' :: r := rfl
      have hv : toInt32 ((0 : Nat) : Int) = 0 := by decide
      simp only [TextStream.readInt, hd0, getNumber_zero, hv]
    · have hg := getNumber_natDigits_pos (n.natAbs + 1) n.natAbs r (by omega) (by omega) (by omega)
      obtain ⟨c, t, e2, hd, _⟩ := natDigits_head (n.natAbs + 1) n.natAbs (by omega) (by omega)
      have hd' : (natDigits (n.natAbs + 1) n.natAbs ++ ' ' :: r).dropWhile isSpace =
          natDigits (n.natAbs + 1) n.natAbs ++ ' ' :: r := by
        rw [e2, List.cons_append, List.dropWhile_cons, isDigit_not_space c hd]; rfl
      have hv : toInt32 ((n.natAbs : Nat) : Int) = n := by
        simp only [toInt32]
        have h : ((n.natAbs : Nat) : Int) = n := by omega
        rw [h]
        omega
      simp only [TextStream.readInt, hd', hg, hv]

/-- Whitespace before a number does not change what `operator>>` reads. -/
theorem readInt_space (c : Char) (b : QString) (st : Status) (hc : isSpace c = true) :
    TextStream.readInt ⟨c :: b, st⟩ = TextStream.readInt ⟨b, st⟩ := by
  simp [TextStream.readInt, List.dropWhile_cons, hc]

theorem neg32_neg32 (n : Int) (hn : IsInt32 n) : neg32 (neg32 n) = n := by
  obtain ⟨hlo, hhi⟩ := hn
  simp only [neg32, toInt32]
  omega

theorem neg32_isInt32 (n : Int) : IsInt32 (neg32 n) := by
  simp only [neg32, toInt32, IsInt32]
  omega

theorem neg32_eq_neg (n : Int) (hn : IsInt32 n) (h : n ≠ -2147483648) : neg32 n = -n := by
  obtain ⟨hlo, hhi⟩ := hn
  simp only [neg32, toInt32]
  omega


/-! ## Lemmas on lines -/

theorem all_ne_lf {w : QString} (h : w.all (fun c => c != '\n') = true) :
    ∀ x ∈ w, (x != '\n') = true := by
  simpa [List.all_eq_true] using h

theorem dropCR_of_not_mem (l : QString) (h : '\r' ∉ l) : TextStream.dropCR l = l := by
  unfold TextStream.dropCR
  split
  · rename_i h1
    exact absurd (List.mem_of_getLast?_eq_some h1) h
  · rfl

theorem trimmed_concat_space (l : QString) (c : Char) (hc : isSpace c = true) :
    trimmed (l ++ [c]) = trimmed l := by
  have e : ∀ s : QString, trimmed s = (s.dropWhile isSpace).rdropWhile isSpace := fun s => rfl
  rw [e, e, List.dropWhile_append]
  split
  · rename_i h
    rw [List.isEmpty_iff] at h
    simp [h, List.dropWhile_cons, hc, List.rdropWhile]
  · rw [List.rdropWhile_concat_pos _ _ _ hc]

theorem trimmed_dropCR (l : QString) : trimmed (TextStream.dropCR l) = trimmed l := by
  unfold TextStream.dropCR
  split
  · rename_i h1
    have e := List.dropLast_append_getLast? _ h1
    conv_rhs => rw [← e]
    rw [trimmed_concat_space _ _ (by decide)]
  · rfl

theorem trimmed_cons_space (l : QString) (c : Char) (hc : isSpace c = true) :
    trimmed (c :: l) = trimmed l := by
  simp [trimmed, List.dropWhile_cons, hc]

namespace TextStream

/-- A line is read up to its line feed, or up to the end of the stream. -/
theorem readLine_line (w rest : QString) (st : Status)
    (hw : w.all (fun c => c != '\n') = true) (hr : ∀ c ∈ rest.head?, c = '\n') :
    readLine ⟨w ++ rest, st⟩ = (dropCR w, ⟨rest.tail, st⟩) := by
  have hw' := all_ne_lf hw
  cases rest with
  | nil =>
    simp only [readLine, List.append_nil, List.tail_nil]
    rw [List.takeWhile_eq_self_iff.mpr hw', List.dropWhile_eq_nil_iff.mpr hw']
    rfl
  | cons c r =>
    have hc : c = '\n' := hr c (by simp)
    subst hc
    simp only [readLine, List.tail_cons]
    rw [List.takeWhile_append_of_pos hw', List.dropWhile_append_of_pos hw']
    simp [List.takeWhile_cons, List.dropWhile_cons]

end TextStream


namespace TextStream

theorem readToken_blank (b : QString) (st : Status) :
    readToken ⟨' ' :: b, st⟩ = readToken ⟨b, st⟩ := readToken_space ' ' b st (by decide)

theorem readToken_lf (b : QString) (st : Status) :
    readToken ⟨'\n' :: b, st⟩ = readToken ⟨b, st⟩ := readToken_space '\n' b st (by decide)

theorem readToken_word_blank (t r : QString) (st : Status) (ht : isToken t = true) :
    readToken ⟨t ++ ' ' :: r, st⟩ = (t, ⟨' ' :: r, st⟩) := readToken_word t ' ' r st ht (by decide)

theorem readToken_word_lf (t r : QString) (st : Status) (ht : isToken t = true) :
    readToken ⟨t ++ '\n' :: r, st⟩ = (t, ⟨'\n' :: r, st⟩) := readToken_word t '\n' r st ht (by decide)

theorem readInt_blank (b : QString) (st : Status) :
    readInt ⟨' ' :: b, st⟩ = readInt ⟨b, st⟩ := readInt_space ' ' b st (by decide)

theorem readToken_skipWhiteSpace (s : TextStream) : readToken s.skipWhiteSpace = readToken s := by
  have e : (s.buf.dropWhile isSpace).dropWhile isSpace = s.buf.dropWhile isSpace := by
    induction s.buf with
    | nil => rfl
    | cons a t ih =>
      by_cases h : isSpace a = true
      · simp only [List.dropWhile_cons, h, if_true, ih]
      · simp only [List.dropWhile_cons, h, if_false]; simp [h]
  simp only [readToken, skipWhiteSpace, e]

theorem skipWhiteSpace_blank_char (c : Char) (r : QString) (st : Status)
    (hc : isSpace c = false) :
    skipWhiteSpace ⟨' ' :: c :: r, st⟩ = ⟨c :: r, st⟩ := by
  simp only [skipWhiteSpace, List.dropWhile_cons, hc, isSpace_blank, if_true]
  simp

theorem readChar_cons (c : Char) (r : QString) (st : Status) :
    readChar ⟨c :: r, st⟩ = (toLatin1 c, ⟨r, st⟩) := rfl

end TextStream

open TextStream in
/-- The X record of the grammar is decoded field by field. -/
theorem readPin_xRecord {D E T : Type} (k : Model D E T) (name padName : QString)
    (x y length : Int) (direction : Char) (nameSize padSize : QString) (layer : Int)
    (one : QString) (electricalType : Char) (tail rest : QString)
    (hname : isToken name = true) (hpad : isToken padName = true)
    (hx : IsInt32 x) (hy : IsInt32 y) (hlen : IsInt32 length)
    (hdir : isSpace direction = false)
    (hs1 : isToken nameSize = true) (hs2 : isToken padSize = true)
    (hlayer : IsInt32 layer) (hone : isToken one = true)
    (helec : isSpace electricalType = false)
    (htail : tail.all (fun c => c != '\n') = true)
    (hrest : ∀ c ∈ rest.head?, c = '\n') :
    readPin k (readToken ⟨xRecord name padName x y length direction nameSize padSize layer one
        electricalType tail ++ rest, Status.Ok⟩).2 =
      (some { name := if name = "~".toList then [] else name, padName := padName,
              pos := (x, neg32 y), length := length,
              direction := k.setDirection (toLatin1 direction), layer := layer,
              electricalType := k.setElectricalType (toLatin1 electricalType),
              pinType := k.setPinType (trimmed tail) },
       ⟨rest.tail, Status.Ok⟩) := by
  have hX : isToken ['X'] = true := by decide
  obtain ⟨R9, hR9⟩ : ∃ R, R = electricalType :: (tail ++ rest) := ⟨_, rfl⟩
  obtain ⟨R8, hR8⟩ : ∃ R, R = one ++ ' ' :: R9 := ⟨_, rfl⟩
  obtain ⟨R7, hR7⟩ : ∃ R, R = writeInt layer ++ ' ' :: R8 := ⟨_, rfl⟩
  obtain ⟨R6, hR6⟩ : ∃ R, R = padSize ++ ' ' :: R7 := ⟨_, rfl⟩
  obtain ⟨R5, hR5⟩ : ∃ R, R = nameSize ++ ' ' :: R6 := ⟨_, rfl⟩
  obtain ⟨R4, hR4⟩ : ∃ R, R = direction :: ' ' :: R5 := ⟨_, rfl⟩
  obtain ⟨R3, hR3⟩ : ∃ R, R = writeInt length ++ ' ' :: R4 := ⟨_, rfl⟩
  obtain ⟨R2, hR2⟩ : ∃ R, R = writeInt y ++ ' ' :: R3 := ⟨_, rfl⟩
  obtain ⟨R1, hR1⟩ : ∃ R, R = writeInt x ++ ' ' :: R2 := ⟨_, rfl⟩
  obtain ⟨R0, hR0⟩ : ∃ R, R = padName ++ ' ' :: R1 := ⟨_, rfl⟩
  obtain ⟨Rn, hRn⟩ : ∃ R, R = name ++ ' ' :: R0 := ⟨_, rfl⟩
  have e0 : xRecord name padName x y length direction nameSize padSize layer one
        electricalType tail ++ rest = ['X'] ++ ' ' :: Rn := by
    simp [xRecord, hRn, hR0, hR1, hR2, hR3, hR4, hR5, hR6, hR7, hR8, hR9]
  have a0 : readToken ⟨['X'] ++ ' ' :: Rn, Status.Ok⟩ = (['X'], ⟨' ' :: Rn, Status.Ok⟩) :=
    readToken_word_blank _ _ _ hX
  have a1 : readToken ⟨' ' :: Rn, Status.Ok⟩ = (name, ⟨' ' :: R0, Status.Ok⟩) := by
    rw [readToken_blank, hRn, readToken_word_blank _ _ _ hname]
  have a2 : readToken ⟨' ' :: R0, Status.Ok⟩ = (padName, ⟨' ' :: R1, Status.Ok⟩) := by
    rw [readToken_blank, hR0, readToken_word_blank _ _ _ hpad]
  have a3 : readInt ⟨' ' :: R1, Status.Ok⟩ = (x, ⟨' ' :: R2, Status.Ok⟩) := by
    rw [readInt_blank, hR1, readInt_writeInt _ _ _ hx]
  have a4 : readInt ⟨' ' :: R2, Status.Ok⟩ = (y, ⟨' ' :: R3, Status.Ok⟩) := by
    rw [readInt_blank, hR2, readInt_writeInt _ _ _ hy]
  have a5 : readInt ⟨' ' :: R3, Status.Ok⟩ = (length, ⟨' ' :: R4, Status.Ok⟩) := by
    rw [readInt_blank, hR3, readInt_writeInt _ _ _ hlen]
  have a6 : readChar (skipWhiteSpace ⟨' ' :: R4, Status.Ok⟩) =
      (toLatin1 direction, ⟨' ' :: R5, Status.Ok⟩) := by
    rw [hR4, skipWhiteSpace_blank_char _ _ _ hdir, readChar_cons]
  have a7 : readToken ⟨' ' :: R5, Status.Ok⟩ = (nameSize, ⟨' ' :: R6, Status.Ok⟩) := by
    rw [readToken_blank, hR5, readToken_word_blank _ _ _ hs1]
  have a8 : readToken ⟨' ' :: R6, Status.Ok⟩ = (padSize, ⟨' ' :: R7, Status.Ok⟩) := by
    rw [readToken_blank, hR6, readToken_word_blank _ _ _ hs2]
  have a9 : readInt ⟨' ' :: R7, Status.Ok⟩ = (layer, ⟨' ' :: R8, Status.Ok⟩) := by
    rw [readInt_blank, hR7, readInt_writeInt _ _ _ hlayer]
  have a10 : readToken (skipWhiteSpace ⟨' ' :: R8, Status.Ok⟩) =
      (one, ⟨' ' :: R9, Status.Ok⟩) := by
    rw [readToken_skipWhiteSpace, readToken_blank, hR8, readToken_word_blank _ _ _ hone]
  have a11 : readChar (skipWhiteSpace ⟨' ' :: R9, Status.Ok⟩) =
      (toLatin1 electricalType, ⟨tail ++ rest, Status.Ok⟩) := by
    rw [hR9, skipWhiteSpace_blank_char _ _ _ helec, readChar_cons]
  have a12 := readLine_line tail rest Status.Ok htail hrest
  have hok : ¬ (Status.Ok ≠ Status.Ok) := fun h => h rfl
  rw [e0, a0]
  unfold readPin
  dsimp only
  rw [a1]
  dsimp only
  rw [if_neg hok, a2]
  dsimp only
  rw [if_neg hok, a3]
  dsimp only
  rw [a4]
  dsimp only
  rw [if_neg hok, a5]
  dsimp only
  rw [if_neg hok, a6]
  dsimp only
  rw [a7]
  dsimp only
  rw [a8]
  dsimp only
  rw [a9]
  dsimp only
  rw [if_neg hok, a10]
  dsimp only
  rw [a11]
  dsimp only
  rw [a12]
  dsimp only
  rw [trimmed_dropCR]


section PinLine

variable {D E T : Type} [DecidableEq T]

theorem isCharCode_eq {w : QString} (h : isCharCode w = true) :
    ∃ c, w = [c] ∧ isSpace c = false := by
  match w, h with
  | [c], h => exact ⟨c, rfl, by simpa [isCharCode] using h⟩

/-- The line written for a pin in the grammar is an X record. -/
theorem writePin_eq_xRecord (k : Model D E T) (pin : Pin D E T) (d e : Char)
    (hd : k.directionString pin.direction = [d])
    (he : k.electricalTypeString pin.electricalType = [e]) :
    writePin k pin =
      xRecord (if pin.name.isEmpty then "~".toList else pin.name) pin.padName pin.pos.1
        (neg32 pin.pos.2) pin.length d "50".toList "50".toList pin.layer "1".toList e
        (if pin.pinType ≠ k.normal then " ".toList ++ k.pinTypeString pin.pinType else []) := by
  simp only [writePin, xRecord, hd, he]

omit [DecidableEq T] in
theorem pin_inGrammar_iff (k : Model D E T) (pin : Pin D E T) :
    pin.inGrammar k = true ↔
      ((pin.name.isEmpty = true ∨ isToken pin.name = true) ∧ isToken pin.padName = true
        ∧ IsInt32 pin.pos.1 ∧ IsInt32 pin.pos.2 ∧ IsInt32 pin.length ∧ IsInt32 pin.layer
        ∧ isCharCode (k.directionString pin.direction) = true
        ∧ isCharCode (k.electricalTypeString pin.electricalType) = true
        ∧ (k.pinTypeString pin.pinType).all (fun c => c != '\n') = true) := by
  simp only [Pin.inGrammar, Bool.and_eq_true, Bool.or_eq_true, decide_eq_true_eq, and_assoc]

/-- The X record written by `writePin` for a pin in the grammar is decoded by `readPin`,
which leaves the stream after the line. -/
theorem readPin_writePin (k : Model D E T) (pin : Pin D E T) (rest : QString)
    (h : pin.inGrammar k = true) (hrest : ∀ c ∈ rest.head?, c = '\n') :
    readPin k (TextStream.readToken ⟨writePin k pin ++ rest, Status.Ok⟩).2 =
      (some (pin.decoded k), ⟨rest.tail, Status.Ok⟩) := by
  obtain ⟨hname, hpad, hx, hy, hlen, hlayer, hdir, helec, htype⟩ := (pin_inGrammar_iff k pin).mp h
  obtain ⟨d, hd, hds⟩ := isCharCode_eq hdir
  obtain ⟨e, he, hes⟩ := isCharCode_eq helec
  have hn : isToken (if pin.name.isEmpty then "~".toList else pin.name) = true := by
    rcases hname with h1 | h1
    · rw [if_pos h1]; decide
    · have : pin.name.isEmpty = false := by
        have := isToken_ne_nil h1
        cases hp : pin.name with
        | nil => exact absurd hp this
        | cons a t => rfl
      rw [this]; simpa using h1
  have htail : (if pin.pinType ≠ k.normal then " ".toList ++ k.pinTypeString pin.pinType
      else []).all (fun c => c != '\n') = true := by
    split
    · simp only [List.all_append, htype, Bool.and_true]; decide
    · rfl
  rw [writePin_eq_xRecord k pin d e hd he,
    readPin_xRecord k _ _ _ _ _ _ _ _ _ _ _ _ rest hn hpad hx (neg32_isInt32 _) hlen hds
      (by decide) (by decide) hlayer (by decide) hes htail hrest]
  have hnm : (if (if pin.name.isEmpty then "~".toList else pin.name) = "~".toList then []
      else (if pin.name.isEmpty then "~".toList else pin.name)) =
      (if pin.name = "~".toList then [] else pin.name) := by
    cases hp : pin.name with
    | nil => rfl
    | cons a t => simp
  rw [hnm]
  simp only [Pin.decoded, hd, he, List.headD_cons]

end PinLine


section PinClaims

variable {D E T : Type} [DecidableEq T]

/-- C8 (as amended). For every pin in the grammar, `writePin` writes an X record whose two
position fields are `x` and the negated `y` (the `int` negation, which is `-y` unless `y`
is the least `int`), and `readPin` applied to that written line returns a pin whose
position is again `(x, y)`. -/
theorem writePin_readPin_pos (k : Model D E T) (pin : Pin D E T) (rest : QString)
    (h : pin.inGrammar k = true) (hrest : ∀ c ∈ rest.head?, c = '\n') :
    (∃ d e, writePin k pin =
        xRecord (if pin.name.isEmpty then "~".toList else pin.name) pin.padName pin.pos.1
          (neg32 pin.pos.2) pin.length d "50".toList "50".toList pin.layer "1".toList e
          (if pin.pinType ≠ k.normal then " ".toList ++ k.pinTypeString pin.pinType else []))
      ∧ (pin.pos.2 ≠ -2147483648 → neg32 pin.pos.2 = -pin.pos.2)
      ∧ (readPin k (TextStream.readToken ⟨writePin k pin ++ rest, Status.Ok⟩).2).1.map
          (fun p => p.pos) = some pin.pos := by
  obtain ⟨_, _, _, hy, _, _, hdir, helec, _⟩ := (pin_inGrammar_iff k pin).mp h
  obtain ⟨d, hd, _⟩ := isCharCode_eq hdir
  obtain ⟨e, he, _⟩ := isCharCode_eq helec
  refine ⟨⟨d, e, writePin_eq_xRecord k pin d e hd he⟩, neg32_eq_neg _ hy, ?_⟩
  rw [readPin_writePin k pin rest h hrest]
  simp only [Option.map_some', Pin.decoded, neg32_neg32 _ hy]

/-- C9. On an X record of the grammar whose name word is `~`, read with the stream in order,
`readPin` returns a pin whose name is empty; on any stream whose next word is `~`, a pin
that `readPin` returns has the empty name; and `writePin` writes `~` as the name word of
a pin whose name is empty, and the name itself otherwise. -/
theorem readPin_tilde_name (k : Model D E T) (padName : QString) (x y length : Int)
    (direction : Char) (nameSize padSize : QString) (layer : Int) (one : QString)
    (electricalType : Char) (tail rest : QString) (pin : Pin D E T)
    (hpad : isToken padName = true)
    (hx : IsInt32 x) (hy : IsInt32 y) (hlen : IsInt32 length)
    (hdir : isSpace direction = false)
    (hs1 : isToken nameSize = true) (hs2 : isToken padSize = true)
    (hlayer : IsInt32 layer) (hone : isToken one = true)
    (helec : isSpace electricalType = false)
    (htail : tail.all (fun c => c != '\n') = true)
    (hrest : ∀ c ∈ rest.head?, c = '\n') :
    (∃ p, (readPin k (TextStream.readToken ⟨xRecord "~".toList padName x y length direction
          nameSize padSize layer one electricalType tail ++ rest, Status.Ok⟩).2).1 = some p
        ∧ p.name = [])
      ∧ (∀ (s s' : TextStream) (p : Pin D E T), readPin k s = (some p, s') →
          (TextStream.readToken s).1 = "~".toList → p.name = [])
      ∧ (∃ fields, writePin k pin =
          "X ".toList ++ (if pin.name.isEmpty then "~".toList else pin.name) ++ ' ' :: fields) := by
  refine ⟨?_, ?_, ?_⟩
  · rw [readPin_xRecord k "~".toList padName x y length direction nameSize padSize layer one
      electricalType tail rest (by decide) hpad hx hy hlen hdir hs1 hs2 hlayer hone helec htail
      hrest]
    exact ⟨_, rfl, rfl⟩
  · intro s s' p hp htok
    unfold readPin at hp
    dsimp only at hp
    split_ifs at hp <;> first
      | (cases hp; done)
      | (cases hp; rfl)
  · exact ⟨_, by simp only [writePin, List.append_assoc, List.singleton_append,
      show " ".toList = [' '] from rfl, List.cons_append, List.nil_append]; rfl⟩

/-- C10 (as amended). For every pin in the grammar, the line written by `writePin` ends with the
field `1` and the electrical type character when the pin type is `Normal`, and with these
followed by a blank and the pin type word otherwise; decoding that line, `readPin`
passes exactly the trimmed word (the empty word for `Normal`) to the pin type decoder,
so the type is reproduced whenever the decoder maps the trimmed word back to it. -/
theorem writePin_readPin_pinType (k : Model D E T) (pin : Pin D E T) (rest : QString)
    (h : pin.inGrammar k = true) (hrest : ∀ c ∈ rest.head?, c = '\n') :
    ((if pin.pinType = k.normal then " 1 ".toList ++ k.electricalTypeString pin.electricalType
        else " 1 ".toList ++ k.electricalTypeString pin.electricalType ++ " ".toList
          ++ k.pinTypeString pin.pinType) <:+ writePin k pin)
      ∧ (readPin k (TextStream.readToken ⟨writePin k pin ++ rest, Status.Ok⟩).2).1.map
          (fun p => p.pinType) =
        some (k.setPinType (if pin.pinType = k.normal then []
          else trimmed (k.pinTypeString pin.pinType)))
      ∧ (pin.pinType ≠ k.normal →
          k.setPinType (trimmed (k.pinTypeString pin.pinType)) = pin.pinType →
          (readPin k (TextStream.readToken ⟨writePin k pin ++ rest, Status.Ok⟩).2).1.map
            (fun p => p.pinType) = some pin.pinType) := by
  have hread : (readPin k (TextStream.readToken ⟨writePin k pin ++ rest, Status.Ok⟩).2).1.map
      (fun p => p.pinType) =
      some (k.setPinType (if pin.pinType = k.normal then []
        else trimmed (k.pinTypeString pin.pinType))) := by
    rw [readPin_writePin k pin rest h hrest]
    simp only [Option.map_some', Pin.decoded]
    by_cases hn : pin.pinType = k.normal
    · simp only [hn, ne_eq, not_true_eq_false, if_false, if_true]
      rfl
    · simp only [hn, ne_eq, not_false_eq_true, if_true, if_false]
      rw [show " ".toList ++ k.pinTypeString pin.pinType = ' ' :: k.pinTypeString pin.pinType
        from rfl, trimmed_cons_space _ _ (by decide)]
  refine ⟨?_, hread, ?_⟩
  · refine ⟨"X ".toList ++ (if pin.name.isEmpty then "~".toList else pin.name) ++ " ".toList
      ++ pin.padName ++ " ".toList ++ writeInt pin.pos.1 ++ " ".toList
      ++ writeInt (neg32 pin.pos.2) ++ " ".toList ++ writeInt pin.length ++ " ".toList
      ++ k.directionString pin.direction ++ " ".toList ++ "50".toList ++ " ".toList
      ++ "50".toList ++ " ".toList ++ writeInt pin.layer, ?_⟩
    by_cases hn : pin.pinType = k.normal
    · simp [hn, writePin]
    · simp [hn, writePin]
  · intro hn hinv
    rw [hread, if_neg hn, hinv]

end PinClaims


/-! ## The reader only moves forward -/

namespace TextStream

theorem dropWhile_length_le (p : Char → Bool) (l : QString) :
    (l.dropWhile p).length ≤ l.length := by
  induction l with
  | nil => simp
  | cons a t ih =>
    rw [List.dropWhile_cons]
    split
    · simp only [List.length_cons]; omega
    · exact Nat.le_refl _

theorem takeWhile_dropWhile_length (p : Char → Bool) (l : QString) :
    (l.takeWhile p).length + (l.dropWhile p).length = l.length := by
  rw [← List.length_append, List.takeWhile_append_dropWhile]

theorem setStatus_buf (s : TextStream) (st : Status) : (s.setStatus st).buf = s.buf := by
  unfold setStatus; split <;> rfl

theorem skipWhiteSpace_length_le (s : TextStream) :
    s.skipWhiteSpace.buf.length ≤ s.buf.length :=
  dropWhile_length_le _ _

/-- Reading a word consumes at least the characters of the word. -/
theorem readToken_length (s : TextStream) :
    (readToken s).1.length + (readToken s).2.buf.length ≤ s.buf.length := by
  have h := dropWhile_length_le isSpace s.buf
  unfold readToken
  dsimp only
  split
  · rename_i e
    simp only [setStatus_buf, List.length_nil]; omega
  · rename_i a t e
    dsimp only
    rw [takeWhile_dropWhile_length]
    exact h

theorem readToken_length_le (s : TextStream) :
    (readToken s).2.buf.length ≤ s.buf.length := by
  have := readToken_length s; omega

theorem readToken_length_lt (s : TextStream) (h : (readToken s).1 ≠ []) :
    (readToken s).2.buf.length < s.buf.length := by
  have h1 := readToken_length s
  have h2 : 0 < (readToken s).1.length := List.length_pos.mpr h
  omega

theorem readLine_length_le (s : TextStream) :
    (readLine s).2.buf.length ≤ s.buf.length := by
  unfold readLine
  simp only [List.length_drop]
  have := dropWhile_length_le (fun c => c != '\n') s.buf
  omega

theorem readChar_length_le (s : TextStream) :
    (readChar s).2.buf.length ≤ s.buf.length := by
  unfold readChar
  split
  · simp [setStatus_buf]
  · rename_i c r e
    simp [e]

theorem scanDigits_length_le (base : Nat) (digitOf : Char → Option Nat) (l : QString) :
    ∀ (v n : Nat), (scanDigits base digitOf l v n).2.2.length ≤ l.length := by
  induction l with
  | nil => intro v n; simp [scanDigits]
  | cons a t ih =>
    intro v n
    unfold scanDigits
    split
    · simp only [List.length_cons]
      exact Nat.le_succ_of_le (ih _ _)
    · simp

theorem getNumber_length_le (b : QString) : (getNumber b).2.length ≤ b.length := by
  unfold getNumber
  split
  · simp
  · rename_i c r
    have h16 := fun l => scanDigits_length_le 16 hexDigit l 0 0
    have h2 := fun l => scanDigits_length_le 2 binDigit l 0 0
    have h8 := fun l => scanDigits_length_le 8 octDigit l 0 0
    have h10 := fun l v n => scanDigits_length_le 10 decDigit l v n
    by_cases h0 : c = '0'
    · rw [if_pos h0]
      cases r with
      | nil => simp
      | cons c2 r2 =>
        dsimp only
        have a1 := h16 r2
        have a2 := h2 r2
        have a3 := h8 (c2 :: r2)
        have a4 := h10 (c2.toLower :: r2) 0 1
        simp only [List.length_cons] at a3 a4 ⊢
        split_ifs <;> simp only [List.length_cons] <;> omega
    · rw [if_neg h0]
      dsimp only
      have a := h10 r 0 0
      have a' := h10 r (digitValue c) 1
      split_ifs <;> simp only [List.length_cons] <;> omega

theorem readInt_length_le (s : TextStream) :
    (readInt s).2.buf.length ≤ s.buf.length := by
  have h1 := dropWhile_length_le isSpace s.buf
  have h2 := getNumber_length_le (s.buf.dropWhile isSpace)
  unfold readInt
  split
  · rename_i v r e
    rw [e] at h2
    simp only at h2 ⊢
    omega
  · rename_i r e
    rw [e] at h2
    simp only [setStatus_buf] at h2 ⊢
    omega

end TextStream


section Progress

variable {D E T : Type}

open TextStream

theorem readPin_length_le (k : Model D E T) (s : TextStream) :
    (readPin k s).2.buf.length ≤ s.buf.length := by
  have t1 := readToken_length_le s
  have t2 := readToken_length_le (readToken s).2
  have t3 := readInt_length_le (readToken (readToken s).2).2
  have t4 := readInt_length_le (readInt (readToken (readToken s).2).2).2
  have t5 := readInt_length_le (readInt (readInt (readToken (readToken s).2).2).2).2
  obtain ⟨s5, hs5⟩ : ∃ x, x = (readInt (readInt (readInt (readToken (readToken s).2).2).2).2).2 :=
    ⟨_, rfl⟩
  have t6 := skipWhiteSpace_length_le s5
  have t7 := readChar_length_le s5.skipWhiteSpace
  have t8 := readToken_length_le (readChar s5.skipWhiteSpace).2
  have t9 := readToken_length_le (readToken (readChar s5.skipWhiteSpace).2).2
  have t10 := readInt_length_le (readToken (readToken (readChar s5.skipWhiteSpace).2).2).2
  obtain ⟨s10, hs10⟩ : ∃ x, x = (readInt (readToken (readToken (readChar s5.skipWhiteSpace).2).2).2).2 :=
    ⟨_, rfl⟩
  have t11 := skipWhiteSpace_length_le s10
  have t12 := readToken_length_le s10.skipWhiteSpace
  have t13 := skipWhiteSpace_length_le (readToken s10.skipWhiteSpace).2
  have t14 := readChar_length_le (readToken s10.skipWhiteSpace).2.skipWhiteSpace
  have t15 := readLine_length_le (readChar (readToken s10.skipWhiteSpace).2.skipWhiteSpace).2
  rw [← hs10] at t10
  rw [← hs5] at t5
  unfold readPin
  dsimp only
  rw [← hs5, ← hs10]
  split_ifs <;> dsimp only <;> omega

/-- On a stream that is not at its end, reading a word consumes at least one character. -/
theorem readToken_length_lt_of_ne_nil (s : TextStream) (h : s.buf ≠ []) :
    (readToken s).2.buf.length < s.buf.length := by
  have hpos : 0 < s.buf.length := List.length_pos.mpr h
  have hd := dropWhile_length_le isSpace s.buf
  unfold readToken
  dsimp only
  split
  · simpa [setStatus_buf] using hpos
  · rename_i a t e
    dsimp only
    have ha : isSpace a = false := by
      have := List.head_dropWhile_not isSpace s.buf (by rw [e]; simp)
      simpa [e] using this
    have h1 : (a :: t).dropWhile (fun c => !isSpace c) = t.dropWhile (fun c => !isSpace c) := by
      simp [List.dropWhile_cons, ha]
    have h2 := dropWhile_length_le (fun c => !isSpace c) t
    rw [e, h1]
    rw [e] at hd
    simp only [List.length_cons] at hd
    omega

/-- The word that starts an iteration is empty only if nothing is consumed from a stream
that holds whitespace only; otherwise at least one character is consumed. -/
theorem readToken_ne_nil_length_lt (s : TextStream) (h : (readToken s).1 ≠ []) :
    (readToken s).2.buf.length < s.buf.length :=
  readToken_length_lt s h

/-- The `$FPLIST` loop only moves forward. -/
theorem readFootPrints_length_le (fuel : Nat) :
    ∀ (c c' : Component D E T) (s s' : TextStream),
      readFootPrints fuel c s = some (c', s') → s'.buf.length ≤ s.buf.length := by
  induction fuel with
  | zero => intro c c' s s' h; simp [readFootPrints] at h
  | succ n ih =>
    intro c c' s s' h
    unfold readFootPrints at h
    dsimp only at h
    have t := readToken_length_le s
    split_ifs at h
    · cases h; exact Nat.le_refl _
    · cases h; exact t
    · exact Nat.le_trans (ih _ _ _ _ h) t

/-- With more fuel than characters the `$FPLIST` loop ends. -/
theorem readFootPrints_isSome (fuel : Nat) :
    ∀ (c : Component D E T) (s : TextStream), s.buf.length < fuel →
      ∃ r, readFootPrints fuel c s = some r := by
  induction fuel with
  | zero => intro c s h; omega
  | succ n ih =>
    intro c s h
    unfold readFootPrints
    by_cases he : s.atEnd = true
    · exact ⟨_, by rw [if_pos he]⟩
    · rw [if_neg he]
      dsimp only
      have hne : s.buf ≠ [] := by
        intro h0; apply he; simp [TextStream.atEnd, h0]
      have hlt := readToken_length_lt_of_ne_nil s hne
      split_ifs
      · exact ⟨_, rfl⟩
      · exact ih _ _ (by omega)

/-- The `$FPLIST` loop does not depend on the fuel, once there is more of it than
characters. -/
theorem readFootPrints_fuel (f1 : Nat) :
    ∀ (f2 : Nat) (c : Component D E T) (s : TextStream), s.buf.length < f1 → s.buf.length < f2 →
      readFootPrints f1 c s = readFootPrints f2 c s := by
  induction f1 with
  | zero => intro f2 c s h; omega
  | succ n ih =>
    intro f2 c s h1 h2
    cases f2 with
    | zero => omega
    | succ m =>
      unfold readFootPrints
      by_cases he : s.atEnd = true
      · rw [if_pos he, if_pos he]
      · rw [if_neg he, if_neg he]
        dsimp only
        have hne : s.buf ≠ [] := by
          intro h0; apply he; simp [TextStream.atEnd, h0]
        have hlt := readToken_length_lt_of_ne_nil s hne
        split_ifs
        · rfl
        · exact ih _ _ _ (by omega) (by omega)

end Progress


section Progress

variable {D E T : Type}

open TextStream

theorem Step.progress_next (c : Component D E T) (d : Bool) (s : TextStream) (n : Nat)
    (h : s.buf.length < n) :
    Step.next c d s ≠ Step.noFuel ∧ ∀ s' ∈ (Step.next c d s).stream?, s'.buf.length < n := by
  refine ⟨by simp, ?_⟩
  intro s' hs'
  simp only [Step.stream?, Option.mem_def, Option.some.injEq] at hs'
  subst hs'
  exact h

theorem Step.progress_ret (c : Component D E T) (s : TextStream) (n : Nat)
    (h : s.buf.length < n) :
    Step.ret c s ≠ Step.noFuel ∧ ∀ s' ∈ (Step.ret c s).stream?, s'.buf.length < n := by
  refine ⟨by simp, ?_⟩
  intro s' hs'
  simp only [Step.stream?, Option.mem_def, Option.some.injEq] at hs'
  subst hs'
  exact h

/-- One pass of the loop body of `readComponent` consumes at least one character, and the
`$FPLIST` loop inside it does not run out of fuel. -/
theorem readComponentBody_progress (k : Model D E T) (c : Component D E T) (draw : Bool)
    (s0 : TextStream) :
    readComponentBody k c draw s0 ≠ Step.noFuel
      ∧ ∀ s' ∈ (readComponentBody k c draw s0).stream?, s'.buf.length < s0.buf.length := by
  unfold readComponentBody
  dsimp only
  cases hst : (readToken s0).1 with
  | nil => simp [Step.stream?]
  | cons ch0 rest =>
    have hlt := readToken_length_lt s0 (by rw [hst]; simp)
    obtain ⟨S, hS⟩ : ∃ S, S = (readToken s0).2 := ⟨_, rfl⟩
    rw [← hS] at hlt ⊢
    have l1 := readLine_length_le S
    have d1 := readToken_length_le S
    have d2 := readToken_length_le (readToken S).2
    have d3 := readToken_length_le (readToken (readToken S).2).2
    have d4 := readToken_length_le (readToken (readToken (readToken S).2).2).2
    have d5 := readToken_length_le (readToken (readToken (readToken (readToken S).2).2).2).2
    have d6 := readToken_length_le
      (readToken (readToken (readToken (readToken (readToken S).2).2).2).2).2
    have d7 := readLine_length_le
      (readToken (readToken (readToken (readToken (readToken (readToken S).2).2).2).2).2).2
    have p1 := readPin_length_le k S
    have p2 := readLine_length_le (readPin k S).2
    have i1 := readInt_length_le S
    have i2 := readInt_length_le (readInt S).2
    have i3 := readInt_length_le (readInt (readInt S).2).2
    have i4 := readInt_length_le (readInt (readInt (readInt S).2).2).2
    have f1 := readFootPrints_isSome (S.buf.length + 1) c S (by omega)
    have f2 := readFootPrints_length_le (S.buf.length + 1) c
    dsimp only
    by_cases h1 : ch0 = '#'
    · rw [if_pos h1]; exact Step.progress_next _ _ _ _ (by omega)
    rw [if_neg h1]
    by_cases h2 : ch0 :: rest = "DEF".toList
    · rw [if_pos h2]; exact Step.progress_next _ _ _ _ (by omega)
    rw [if_neg h2]
    by_cases h3 : ch0 = 'F'
    · rw [if_pos h3]; exact Step.progress_next _ _ _ _ (by omega)
    rw [if_neg h3]
    by_cases h4 : ch0 :: rest = "$FPLIST".toList
    · rw [if_pos h4]
      obtain ⟨⟨c', s'⟩, hr⟩ := f1
      rw [hr]
      have := f2 c' S s' hr
      exact Step.progress_next _ _ _ _ (by omega)
    rw [if_neg h4]
    by_cases h5 : "DRAW".toList.isPrefixOf (ch0 :: rest) = true
    · rw [if_pos h5]; exact Step.progress_next _ _ _ _ (by omega)
    rw [if_neg h5]
    by_cases h6 : "ALIAS".toList.isPrefixOf (ch0 :: rest) = true
    · rw [if_pos h6]; exact Step.progress_next _ _ _ _ (by omega)
    rw [if_neg h6]
    by_cases h7 : "ENDDRAW".toList.isPrefixOf (ch0 :: rest) = true
    · rw [if_pos h7]; exact Step.progress_next _ _ _ _ (by omega)
    rw [if_neg h7]
    by_cases h8 : "ENDDEF".toList.isPrefixOf (ch0 :: rest) = true
    · rw [if_pos h8]; exact Step.progress_ret _ _ _ (by omega)
    rw [if_neg h8]
    by_cases h9 : draw = true
    · rw [if_pos h9]
      by_cases h10 : ch0 = 'X'
      · rw [if_pos h10]
        cases hp : readPin k S with
        | mk op s' =>
          rw [hp] at p1 p2
          cases op with
          | none => exact Step.progress_next _ _ _ _ (by simp only at p1 p2; omega)
          | some pin => exact Step.progress_next _ _ _ _ (by simp only at p1; omega)
      rw [if_neg h10]
      by_cases h11 : "S".toList.isPrefixOf (ch0 :: rest) = true
      · rw [if_pos h11]; exact Step.progress_next _ _ _ _ (by omega)
      rw [if_neg h11]; exact Step.progress_next _ _ _ _ (by omega)
    rw [if_neg h9]; exact Step.progress_next _ _ _ _ (by omega)

end Progress


section Fuel

variable {D E T : Type}

open TextStream

/-- The loop of `readComponent` does not depend on the fuel, once there is more of it than
characters in the stream. -/
theorem readComponentLoop_fuel (k : Model D E T) (f1 : Nat) :
    ∀ (f2 : Nat) (c : Component D E T) (d : Bool) (s : TextStream),
      s.buf.length < f1 → s.buf.length < f2 →
      readComponentLoop k f1 c d s = readComponentLoop k f2 c d s := by
  induction f1 with
  | zero => intro f2 c d s h; omega
  | succ n ih =>
    intro f2 c d s h1 h2
    cases f2 with
    | zero => omega
    | succ m =>
      unfold readComponentLoop
      have hp := (readComponentBody_progress k c d s).2
      cases hb : readComponentBody k c d s with
      | next c' d' s' =>
        rw [hb] at hp
        have hlt := hp s' rfl
        dsimp only
        split
        · rfl
        · exact ih _ _ _ _ (by omega) (by omega)
      | ret c' s' => rfl
      | fault => rfl
      | noFuel => rfl

/-- One turn of the loop of `readComponent`, started with enough fuel. -/
theorem readComponentLoop_unfold (k : Model D E T) (c : Component D E T) (d : Bool)
    (s : TextStream) :
    readComponentLoop k (s.buf.length + 1) c d s =
      match readComponentBody k c d s with
      | Step.next c' d' s' =>
        if s'.atEnd then Res.ok (some c', s')
        else readComponentLoop k (s'.buf.length + 1) c' d' s'
      | Step.ret c' s' => Res.ok (some c', s')
      | Step.fault => Res.indexOutOfRange
      | Step.noFuel => Res.outOfFuel := by
  conv_lhs => unfold readComponentLoop
  have hp := (readComponentBody_progress k c d s).2
  cases hb : readComponentBody k c d s with
  | next c' d' s' =>
    rw [hb] at hp
    have hlt := hp s' rfl
    dsimp only
    split
    · rfl
    · exact readComponentLoop_fuel k _ _ _ _ _ (by omega) (by omega)
  | ret c' s' => rfl
  | fault => rfl
  | noFuel => rfl

/-- With enough fuel the loop of `readComponent` ends: it returns a component, never a null
pointer, having consumed at least one character, or it stops at `start.at(0)`. -/
theorem readComponentLoop_result (k : Model D E T) (f : Nat) :
    ∀ (c : Component D E T) (d : Bool) (s : TextStream), s.buf.length < f →
      readComponentLoop k f c d s = Res.indexOutOfRange
        ∨ ∃ c' s', readComponentLoop k f c d s = Res.ok (some c', s')
            ∧ s'.buf.length < s.buf.length := by
  induction f with
  | zero => intro c d s h; omega
  | succ n ih =>
    intro c d s h
    unfold readComponentLoop
    have hp := readComponentBody_progress k c d s
    cases hb : readComponentBody k c d s with
    | next c' d' s' =>
      rw [hb] at hp
      have hlt := hp.2 s' rfl
      dsimp only
      split
      · exact Or.inr ⟨c', s', rfl, hlt⟩
      · rcases ih c' d' s' (by omega) with h1 | ⟨c'', s'', h1, h2⟩
        · exact Or.inl h1
        · exact Or.inr ⟨c'', s'', h1, by omega⟩
    | ret c' s' =>
      rw [hb] at hp
      exact Or.inr ⟨c', s', rfl, hp.2 s' rfl⟩
    | fault => exact Or.inl rfl
    | noFuel => rw [hb] at hp; exact absurd rfl hp.1

/-- The method `readComponent` never returns a null pointer: it returns a component, having
consumed at least one character, or it stops at `start.at(0)`. -/
theorem readComponent_result (k : Model D E T) (s : TextStream) :
    readComponent k s = Res.indexOutOfRange
      ∨ ∃ c' s', readComponent k s = Res.ok (some c', s') ∧ s'.buf.length < s.buf.length :=
  readComponentLoop_result k _ _ _ s (Nat.lt_succ_self _)

/-- The loop of `loadLib` does not depend on the fuel, once there is more of it than
characters in the stream. -/
theorem loadLibLoop_fuel (k : Model D E T) (f1 : Nat) :
    ∀ (f2 : Nat) (l : List (Component D E T)) (s : TextStream),
      s.buf.length < f1 → s.buf.length < f2 →
      loadLibLoop k f1 l s = loadLibLoop k f2 l s := by
  induction f1 with
  | zero => intro f2 l s h; omega
  | succ n ih =>
    intro f2 l s h1 h2
    cases f2 with
    | zero => omega
    | succ m =>
      unfold loadLibLoop
      rcases readComponent_result k s with hr | ⟨c', s', hr, hlt⟩
      · rw [hr]
      · rw [hr]
        dsimp only
        split
        · rfl
        · exact ih _ _ _ (by omega) (by omega)

/-- One turn of the loop of `loadLib`, started with enough fuel, when `readComponent` returns a
component. -/
theorem loadLibLoop_unfold (k : Model D E T) (l : List (Component D E T)) (s s' : TextStream)
    (c : Component D E T) (h : readComponent k s = Res.ok (some c, s')) :
    loadLibLoop k (s.buf.length + 1) l s =
      if s'.atEnd then Res.ok (l ++ [c], s')
      else loadLibLoop k (s'.buf.length + 1) (l ++ [c]) s' := by
  conv_lhs => unfold loadLibLoop
  rcases readComponent_result k s with hr | ⟨c', s'', hr, hlt⟩
  · rw [hr] at h; cases h
  · rw [hr] at h
    cases h
    rw [hr]
    dsimp only
    split
    · rfl
    · exact loadLibLoop_fuel k _ _ _ _ (by omega) (by omega)

end Fuel


section Steps

variable {D E T : Type}

open TextStream

theorem readComponentFrom_next (k : Model D E T) (c c' : Component D E T) (d d' : Bool)
    (s s' : TextStream) (hb : readComponentBody k c d s = Step.next c' d' s')
    (hne : s'.buf ≠ []) :
    readComponentFrom k c d s = readComponentFrom k c' d' s' := by
  unfold readComponentFrom
  rw [readComponentLoop_unfold, hb]
  dsimp only
  rw [if_neg]
  cases hs : s'.buf with
  | nil => exact absurd hs hne
  | cons a t => simp [TextStream.atEnd, hs]

theorem readComponentFrom_last (k : Model D E T) (c c' : Component D E T) (d d' : Bool)
    (s s' : TextStream) (hb : readComponentBody k c d s = Step.next c' d' s')
    (he : s'.buf = []) :
    readComponentFrom k c d s = Res.ok (some c', s') := by
  unfold readComponentFrom
  rw [readComponentLoop_unfold, hb]
  dsimp only
  rw [if_pos]
  simp [TextStream.atEnd, he]

theorem readComponentFrom_ret (k : Model D E T) (c c' : Component D E T) (d : Bool)
    (s s' : TextStream) (hb : readComponentBody k c d s = Step.ret c' s') :
    readComponentFrom k c d s = Res.ok (some c', s') := by
  unfold readComponentFrom
  rw [readComponentLoop_unfold, hb]

theorem readComponentBody_space (k : Model D E T) (c : Component D E T) (d : Bool)
    (a : Char) (b : QString) (st : Status) (ha : isSpace a = true) :
    readComponentBody k c d ⟨a :: b, st⟩ = readComponentBody k c d ⟨b, st⟩ := by
  unfold readComponentBody
  rw [readToken_space a b st ha]

/-- Whitespace before the first word of an iteration is skipped. -/
theorem readComponentFrom_space (k : Model D E T) (c : Component D E T) (d : Bool)
    (a : Char) (b : QString) (st : Status) (ha : isSpace a = true) :
    readComponentFrom k c d ⟨a :: b, st⟩ = readComponentFrom k c d ⟨b, st⟩ := by
  unfold readComponentFrom
  rw [readComponentLoop_unfold, readComponentLoop_unfold, readComponentBody_space k c d a b st ha]

theorem skipLine (w R : QString) (hw : w.all (fun c => c != '\n') = true) :
    (((w ++ '\n' :: R).dropWhile (fun c => !isSpace c)).dropWhile (fun c => c != '\n')).drop 1
      = R := by
  induction w with
  | nil => simp [List.dropWhile_cons, isSpace_lf]
  | cons a w ih =>
    have hw' : w.all (fun c => c != '\n') = true := by
      simp only [List.all_cons, Bool.and_eq_true] at hw; exact hw.2
    have ha : (a != '\n') = true := by
      simp only [List.all_cons, Bool.and_eq_true] at hw; exact hw.1
    by_cases hs : isSpace a = true
    · have e1 : ((a :: w) ++ '\n' :: R).dropWhile (fun c => !isSpace c) = a :: (w ++ '\n' :: R) := by
        simp [List.dropWhile_cons, hs]
      rw [e1, List.dropWhile_cons, if_pos ha, List.dropWhile_append_of_pos (all_ne_lf hw')]
      simp [List.dropWhile_cons]
    · have e1 : ((a :: w) ++ '\n' :: R).dropWhile (fun c => !isSpace c) =
          (w ++ '\n' :: R).dropWhile (fun c => !isSpace c) := by
        simp [List.dropWhile_cons, hs]
      rw [e1, ih hw']

/-- A word is read from the start of a line and the rest of the line is discarded. -/
theorem readToken_readLine (ch : Char) (w R : QString) (st : Status)
    (hch : isSpace ch = false) (hw : w.all (fun c => c != '\n') = true) :
    (readToken ⟨ch :: (w ++ '\n' :: R), st⟩).1 =
        ch :: (w ++ '\n' :: R).takeWhile (fun c => !isSpace c)
      ∧ (readLine (readToken ⟨ch :: (w ++ '\n' :: R), st⟩).2).2 = ⟨R, st⟩ := by
  have e1 : (ch :: (w ++ '\n' :: R)).dropWhile isSpace = ch :: (w ++ '\n' :: R) := by
    simp [List.dropWhile_cons, hch]
  unfold readToken
  dsimp only
  rw [e1]
  dsimp only
  constructor
  · simp [List.takeWhile_cons, hch]
  · unfold readLine
    dsimp only
    have e2 : (ch :: (w ++ '\n' :: R)).dropWhile (fun c => !isSpace c) =
        (w ++ '\n' :: R).dropWhile (fun c => !isSpace c) := by
      simp [List.dropWhile_cons, hch]
    rw [e2, skipLine w R hw]

/-- A comment line is discarded. -/
theorem readComponentBody_comment (k : Model D E T) (c : Component D E T) (d : Bool)
    (w R : QString) (st : Status) (hw : w.all (fun c => c != '\n') = true) :
    readComponentBody k c d ⟨'#' :: (w ++ '\n' :: R), st⟩ = Step.next c d ⟨R, st⟩ := by
  obtain ⟨h1, h2⟩ := readToken_readLine '#' w R st (by decide) hw
  unfold readComponentBody
  dsimp only
  rw [h1]
  dsimp only
  rw [if_pos rfl, h2]

/-- A field line (`F0` to `F3`) is discarded. -/
theorem readComponentBody_field (k : Model D E T) (c : Component D E T) (d : Bool)
    (w R : QString) (st : Status) (hw : w.all (fun c => c != '\n') = true) :
    readComponentBody k c d ⟨'F' :: (w ++ '\n' :: R), st⟩ = Step.next c d ⟨R, st⟩ := by
  obtain ⟨h1, h2⟩ := readToken_readLine 'F' w R st (by decide) hw
  unfold readComponentBody
  dsimp only
  rw [h1]
  dsimp only
  rw [if_neg (by decide), if_neg (by simp), if_pos rfl, h2]

theorem readComponentBody_DRAW (k : Model D E T) (c : Component D E T) (d : Bool)
    (R : QString) (st : Status) :
    readComponentBody k c d ⟨"DRAW\n".toList ++ R, st⟩ = Step.next c true ⟨R, st⟩ := by
  rfl

theorem readComponentBody_ENDDRAW (k : Model D E T) (c : Component D E T) (d : Bool)
    (R : QString) (st : Status) :
    readComponentBody k c d ⟨"ENDDRAW\n".toList ++ R, st⟩ = Step.next c false ⟨R, st⟩ := by
  rfl

theorem readComponentBody_ENDDEF (k : Model D E T) (c : Component D E T) (d : Bool)
    (st : Status) :
    readComponentBody k c d ⟨"ENDDEF".toList, st⟩ = Step.ret c ⟨[], st⟩ := by
  rfl

end Steps


section Steps

variable {D E T : Type}

open TextStream

theorem isToken_all_ne_lf {t : QString} (h : isToken t = true) :
    t.all (fun c => c != '\n') = true := by
  rw [List.all_eq_true]
  intro c hc
  have := isToken_not_space h c hc
  simp only [bne_iff_ne, ne_eq]
  intro h0; subst h0
  simp [isSpace_lf] at this

/-- The DEF line sets name, prefix and the two flags; the rest of the line is discarded. -/
theorem readComponentBody_DEF (k : Model D E T) (c : Component D E T) (d : Bool)
    (name pfx t1 t2 o1 o2 w R : QString) (st : Status)
    (hname : isToken name = true) (hpfx : isToken pfx = true) (ht1 : isToken t1 = true)
    (ht2 : isToken t2 = true) (ho1 : isToken o1 = true) (ho2 : isToken o2 = true)
    (hw : w.all (fun c => c != '\n') = true) :
    readComponentBody k c d
        ⟨['D', 'E', 'F'] ++ ' ' :: (name ++ ' ' :: (pfx ++ ' ' :: (t1 ++ ' ' :: (t2 ++ ' ' ::
          (o1 ++ ' ' :: (o2 ++ ' ' :: (w ++ '\n' :: R))))))), st⟩ =
      Step.next { c with name := name, prefix_ := pfx,
                         showPadName := decide (o1 = "Y".toList),
                         showPinName := decide (o2 = "Y".toList) } d ⟨R, st⟩ := by
  obtain ⟨R6, hR6⟩ : ∃ x, x = w ++ '\n' :: R := ⟨_, rfl⟩
  obtain ⟨R5, hR5⟩ : ∃ x, x = o2 ++ ' ' :: R6 := ⟨_, rfl⟩
  obtain ⟨R4, hR4⟩ : ∃ x, x = o1 ++ ' ' :: R5 := ⟨_, rfl⟩
  obtain ⟨R3, hR3⟩ : ∃ x, x = t2 ++ ' ' :: R4 := ⟨_, rfl⟩
  obtain ⟨R2, hR2⟩ : ∃ x, x = t1 ++ ' ' :: R3 := ⟨_, rfl⟩
  obtain ⟨R1, hR1⟩ : ∃ x, x = pfx ++ ' ' :: R2 := ⟨_, rfl⟩
  obtain ⟨R0, hR0⟩ : ∃ x, x = name ++ ' ' :: R1 := ⟨_, rfl⟩
  rw [← hR6, ← hR5, ← hR4, ← hR3, ← hR2, ← hR1, ← hR0]
  have a0 : readToken ⟨['D', 'E', 'F'] ++ ' ' :: R0, st⟩ = (['D', 'E', 'F'], ⟨' ' :: R0, st⟩) :=
    readToken_word_blank _ _ _ (by decide)
  have a1 : readToken ⟨' ' :: R0, st⟩ = (name, ⟨' ' :: R1, st⟩) := by
    rw [readToken_blank, hR0, readToken_word_blank _ _ _ hname]
  have a2 : readToken ⟨' ' :: R1, st⟩ = (pfx, ⟨' ' :: R2, st⟩) := by
    rw [readToken_blank, hR1, readToken_word_blank _ _ _ hpfx]
  have a3 : readToken ⟨' ' :: R2, st⟩ = (t1, ⟨' ' :: R3, st⟩) := by
    rw [readToken_blank, hR2, readToken_word_blank _ _ _ ht1]
  have a4 : readToken ⟨' ' :: R3, st⟩ = (t2, ⟨' ' :: R4, st⟩) := by
    rw [readToken_blank, hR3, readToken_word_blank _ _ _ ht2]
  have a5 : readToken ⟨' ' :: R4, st⟩ = (o1, ⟨' ' :: R5, st⟩) := by
    rw [readToken_blank, hR4, readToken_word_blank _ _ _ ho1]
  have a6 : readToken ⟨' ' :: R5, st⟩ = (o2, ⟨' ' :: R6, st⟩) := by
    rw [readToken_blank, hR5, readToken_word_blank _ _ _ ho2]
  have a7 : (readLine ⟨' ' :: R6, st⟩).2 = ⟨R, st⟩ := by
    have hw' : (' ' :: w).all (fun c => c != '\n') = true := by
      rw [List.all_cons, hw]; decide
    have := readLine_line (' ' :: w) ('\n' :: R) st hw' (by intro x hx; cases hx; rfl)
    rw [hR6]
    rw [show ' ' :: (w ++ '\n' :: R) = (' ' :: w) ++ '\n' :: R from rfl, this]
    rfl
  unfold readComponentBody
  dsimp only
  rw [a0]
  dsimp only
  rw [if_neg (by decide), if_pos (show ['D', 'E', 'F'] = "DEF".toList from rfl), a1]
  dsimp only
  rw [a2]
  dsimp only
  rw [a3]
  dsimp only
  rw [a4]
  dsimp only
  rw [a5]
  dsimp only
  rw [a6]
  dsimp only
  rw [a7]

end Steps


section Steps

variable {D E T : Type}

open TextStream

/-- An X record written by `writePin` for a pin in the grammar adds the decoded pin. -/
theorem readComponentBody_pin [DecidableEq T] (k : Model D E T) (c : Component D E T)
    (pin : Pin D E T) (R : QString) (h : pin.inGrammar k = true) :
    readComponentBody k c true ⟨writePin k pin ++ '\n' :: R, Status.Ok⟩ =
      Step.next { c with pins := c.pins ++ [pin.decoded k] } true ⟨R, Status.Ok⟩ := by
  have hp := readPin_writePin k pin ('\n' :: R) h (by intro x hx; cases hx; rfl)
  obtain ⟨Z, hZ⟩ : ∃ Z, writePin k pin = ['X'] ++ ' ' :: Z := ⟨_, rfl⟩
  have h1 : (readToken ⟨writePin k pin ++ '\n' :: R, Status.Ok⟩).1 = ['X'] := by
    rw [hZ]
    show (readToken ⟨['X'] ++ ' ' :: (Z ++ '\n' :: R), Status.Ok⟩).1 = ['X']
    rw [readToken_word_blank ['X'] _ _ (by decide)]
  unfold readComponentBody
  dsimp only
  rw [h1]
  dsimp only
  rw [if_neg (by decide), if_neg (by decide), if_neg (by decide), if_neg (by decide),
    if_neg (by decide), if_neg (by decide), if_neg (by decide), if_neg (by decide),
    if_pos rfl, if_pos rfl, hp]
  rfl

/-- An S record read in drawing mode sets the rectangle; the rest of the line stays. -/
theorem readComponentBody_rect (k : Model D E T) (c : Component D E T)
    (l t r b : Int) (R : QString) (st : Status)
    (hl : IsInt32 l) (ht : IsInt32 t) (hr : IsInt32 r) (hb : IsInt32 b) :
    readComponentBody k c true
        ⟨['S'] ++ ' ' :: (writeInt l ++ ' ' :: (writeInt t ++ ' ' :: (writeInt r ++ ' ' ::
          (writeInt b ++ ' ' :: R)))), st⟩ =
      Step.next { c with rect := ((((QRect.null.setX l).setY (neg32 t)).setRight r).setBottom
        (neg32 b)).normalized } true ⟨' ' :: R, st⟩ := by
  obtain ⟨R3, hR3⟩ : ∃ x, x = writeInt b ++ ' ' :: R := ⟨_, rfl⟩
  obtain ⟨R2, hR2⟩ : ∃ x, x = writeInt r ++ ' ' :: R3 := ⟨_, rfl⟩
  obtain ⟨R1, hR1⟩ : ∃ x, x = writeInt t ++ ' ' :: R2 := ⟨_, rfl⟩
  obtain ⟨R0, hR0⟩ : ∃ x, x = writeInt l ++ ' ' :: R1 := ⟨_, rfl⟩
  rw [← hR3, ← hR2, ← hR1, ← hR0]
  have a0 : readToken ⟨['S'] ++ ' ' :: R0, st⟩ = (['S'], ⟨' ' :: R0, st⟩) :=
    readToken_word_blank _ _ _ (by decide)
  have a1 : readInt ⟨' ' :: R0, st⟩ = (l, ⟨' ' :: R1, st⟩) := by
    rw [readInt_blank, hR0, readInt_writeInt _ _ _ hl]
  have a2 : readInt ⟨' ' :: R1, st⟩ = (t, ⟨' ' :: R2, st⟩) := by
    rw [readInt_blank, hR1, readInt_writeInt _ _ _ ht]
  have a3 : readInt ⟨' ' :: R2, st⟩ = (r, ⟨' ' :: R3, st⟩) := by
    rw [readInt_blank, hR2, readInt_writeInt _ _ _ hr]
  have a4 : readInt ⟨' ' :: R3, st⟩ = (b, ⟨' ' :: R, st⟩) := by
    rw [readInt_blank, hR3, readInt_writeInt _ _ _ hb]
  unfold readComponentBody
  dsimp only
  rw [a0]
  dsimp only
  rw [if_neg (by decide), if_neg (by decide), if_neg (by decide), if_neg (by decide),
    if_neg (by decide), if_neg (by decide), if_neg (by decide), if_neg (by decide),
    if_pos rfl, if_neg (by decide), if_pos (by decide), a1]
  dsimp only
  rw [a2]
  dsimp only
  rw [a3]
  dsimp only
  rw [a4]

/-- The words `0 1 10 f` that end an S record are read one by one and change nothing. -/
theorem readComponentFrom_rectTail (k : Model D E T) (c : Component D E T) (R : QString)
    (st : Status) :
    readComponentFrom k c true ⟨' ' :: ("0 1 10 f\n".toList ++ R), st⟩ =
      readComponentFrom k c true ⟨R, st⟩ := by
  have b1 : readComponentBody k c true ⟨' ' :: ("0 1 10 f\n".toList ++ R), st⟩ =
      Step.next c true ⟨" 1 10 f\n".toList ++ R, st⟩ := rfl
  have b2 : readComponentBody k c true ⟨" 1 10 f\n".toList ++ R, st⟩ =
      Step.next c true ⟨" 10 f\n".toList ++ R, st⟩ := rfl
  have b3 : readComponentBody k c true ⟨" 10 f\n".toList ++ R, st⟩ =
      Step.next c true ⟨" f\n".toList ++ R, st⟩ := rfl
  have b4 : readComponentBody k c true ⟨" f\n".toList ++ R, st⟩ =
      Step.next c true ⟨'\n' :: R, st⟩ := rfl
  rw [readComponentFrom_next k c c true true _ _ b1 (by simp),
    readComponentFrom_next k c c true true _ _ b2 (by simp),
    readComponentFrom_next k c c true true _ _ b3 (by simp),
    readComponentFrom_next k c c true true _ _ b4 (by simp),
    readComponentFrom_space k c true '\n' R st (by decide)]

end Steps


section Steps

variable {D E T : Type}

open TextStream

theorem mem_intercalate_blank (l : List QString) (c : Char) :
    c ∈ [' '].intercalate l → c = ' ' ∨ ∃ a ∈ l, c ∈ a := by
  induction l with
  | nil => intro h; simp [List.intercalate] at h
  | cons a t ih =>
    cases t with
    | nil =>
      intro h
      simp [List.intercalate] at h
      exact Or.inr ⟨a, by simp, h⟩
    | cons b t =>
      intro h
      simp only [List.intercalate, List.intersperse_cons_cons, List.flatten_cons, List.mem_append,
        List.mem_singleton] at h
      rcases h with h | h | h
      · exact Or.inr ⟨a, by simp, h⟩
      · exact Or.inl h
      · rcases ih (by simpa [List.intercalate] using h) with h1 | ⟨x, hx, hc⟩
        · exact Or.inl h1
        · exact Or.inr ⟨x, by simp [hx], hc⟩

/-- Splitting the rest of an ALIAS line at the blanks gives back the aliases. -/
theorem splitSkipEmpty_joinWith (aliases : List QString) (hne : aliases ≠ [])
    (h : ∀ a ∈ aliases, isToken a = true) :
    splitSkipEmpty ' ' (dropCR (' ' :: joinWith " ".toList aliases)) = aliases := by
  have hsp : ∀ a ∈ aliases, ' ' ∉ a := by
    intro a ha hc
    have := isToken_not_space (h a ha) ' ' hc
    simp [isSpace_blank] at this
  have hcr : '\r' ∉ ' ' :: joinWith " ".toList aliases := by
    intro hc
    rcases List.mem_cons.mp hc with h0 | h0
    · exact absurd h0 (by decide)
    · rcases mem_intercalate_blank aliases '\r' h0 with h1 | ⟨a, ha, hca⟩
      · exact absurd h1 (by decide)
      · have := isToken_not_space (h a ha) '\r' hca
        exact absurd this (by decide)
  rw [dropCR_of_not_mem _ hcr]
  obtain ⟨a, t, rfl⟩ := List.exists_cons_of_ne_nil hne
  have e : ' ' :: joinWith " ".toList (a :: t) = [' '].intercalate ([] :: a :: t) := by
    simp [joinWith, List.intercalate, List.intersperse_cons_cons]
  rw [e]
  unfold splitSkipEmpty
  rw [List.splitOn_intercalate _ ' ' (by
    intro l hl
    rcases List.mem_cons.mp hl with h0 | h0
    · subst h0; simp
    · exact hsp l h0) (by simp)]
  rw [List.filter_cons]
  simp only [List.isEmpty_nil, Bool.not_true, Bool.false_eq_true, if_false]
  rw [List.filter_eq_self]
  intro x hx
  have := isToken_ne_nil (h x hx)
  cases x with
  | nil => exact absurd rfl this
  | cons y ys => rfl

/-- An ALIAS line adds its words as aliases. -/
theorem readComponentBody_ALIAS (k : Model D E T) (c : Component D E T) (d : Bool)
    (aliases : List QString) (R : QString) (st : Status) (hne : aliases ≠ [])
    (h : ∀ a ∈ aliases, isToken a = true) :
    readComponentBody k c d
        ⟨['A', 'L', 'I', 'A', 'S'] ++ ' ' :: (joinWith " ".toList aliases ++ '\n' :: R), st⟩ =
      Step.next { c with aliases := c.aliases ++ aliases } d ⟨R, st⟩ := by
  have a0 : readToken ⟨['A', 'L', 'I', 'A', 'S'] ++ ' ' ::
      (joinWith " ".toList aliases ++ '\n' :: R), st⟩ =
      (['A', 'L', 'I', 'A', 'S'], ⟨' ' :: (joinWith " ".toList aliases ++ '\n' :: R), st⟩) :=
    readToken_word_blank _ _ _ (by decide)
  have hall : (' ' :: joinWith " ".toList aliases).all (fun c => c != '\n') = true := by
    rw [List.all_eq_true]
    intro x hx
    simp only [bne_iff_ne, ne_eq]
    intro h0; subst h0
    rcases List.mem_cons.mp hx with h0 | h0
    · exact absurd h0 (by decide)
    · rcases mem_intercalate_blank aliases '\n' h0 with h1 | ⟨a, ha, hca⟩
      · exact absurd h1 (by decide)
      · have := isToken_not_space (h a ha) '\n' hca
        exact absurd this (by decide)
  have a1 := readLine_line (' ' :: joinWith " ".toList aliases) ('\n' :: R) st hall
    (by intro x hx; cases hx; rfl)
  unfold readComponentBody
  dsimp only
  rw [a0]
  dsimp only
  rw [if_neg (by decide), if_neg (by decide), if_neg (by decide), if_neg (by decide),
    if_neg (by decide), if_pos (by decide)]
  rw [show ' ' :: (joinWith " ".toList aliases ++ '\n' :: R) =
    (' ' :: joinWith " ".toList aliases) ++ '\n' :: R from rfl, a1]
  dsimp only
  rw [splitSkipEmpty_joinWith aliases hne h]
  rfl

end Steps


section Steps

variable {D E T : Type}

open TextStream

/-- The `$FPLIST` loop reads the footprint lines up to `$ENDFPLIST`. -/
theorem readFootPrints_lines (fps : List QString) :
    ∀ (c : Component D E T) (R : QString) (st : Status) (fuel : Nat),
      (∀ fp ∈ fps, isToken fp = true ∧ fp ≠ "$ENDFPLIST".toList) →
      ('\n' :: ((fps.map (fun fp => List.flatten [" ".toList, fp, "\n".toList])).flatten
          ++ ("$ENDFPLIST\n".toList ++ R))).length < fuel →
      readFootPrints fuel c
          ⟨'\n' :: ((fps.map (fun fp => List.flatten [" ".toList, fp, "\n".toList])).flatten
            ++ ("$ENDFPLIST\n".toList ++ R)), st⟩ =
        some ({ c with footPrints := c.footPrints ++ fps }, ⟨'\n' :: R, st⟩) := by
  induction fps with
  | nil =>
    intro c R st fuel _ hf
    cases fuel with
    | zero => omega
    | succ n =>
      have a0 : readToken ⟨'\n' :: ("$ENDFPLIST".toList ++ '\n' :: R), st⟩ =
          ("$ENDFPLIST".toList, ⟨'\n' :: R, st⟩) := by
        rw [readToken_lf, readToken_word_lf _ _ _ (by decide)]
      unfold readFootPrints
      simp only [List.map_nil, List.flatten_nil, List.nil_append]
      rw [if_neg (by simp [TextStream.atEnd])]
      rw [show '\n' :: ("$ENDFPLIST\n".toList ++ R) = '\n' :: ("$ENDFPLIST".toList ++ '\n' :: R)
        from rfl, a0]
      dsimp only
      rw [if_pos rfl, List.append_nil]
  | cons fp fps ih =>
    intro c R st fuel h hf
    cases fuel with
    | zero => omega
    | succ n =>
      obtain ⟨X, hX⟩ : ∃ X, X = (fps.map (fun fp => List.flatten [" ".toList, fp, "\n".toList])).flatten
          ++ ("$ENDFPLIST\n".toList ++ R) := ⟨_, rfl⟩
      have e : '\n' :: (((fp :: fps).map
          (fun fp => List.flatten [" ".toList, fp, "\n".toList])).flatten
            ++ ("$ENDFPLIST\n".toList ++ R)) = '\n' :: ' ' :: (fp ++ '\n' :: X) := by
        rw [hX]
        simp
      rw [e] at hf ⊢
      have hfp := h fp (by simp)
      have a0 : readToken ⟨'\n' :: ' ' :: (fp ++ '\n' :: X), st⟩ = (fp, ⟨'\n' :: X, st⟩) := by
        rw [readToken_lf, readToken_blank, readToken_word_lf _ _ _ hfp.1]
      unfold readFootPrints
      rw [if_neg (by simp [TextStream.atEnd])]
      dsimp only
      rw [a0]
      dsimp only
      rw [if_neg hfp.2]
      have hlen : ('\n' :: X).length < n := by
        simp only [List.length_cons, List.length_append] at hf ⊢
        omega
      rw [hX] at hlen ⊢
      rw [ih _ R st n (fun x hx => h x (by simp [hx])) hlen]
      simp

/-- A `$FPLIST` block adds its footprints; the line feed after `$ENDFPLIST` stays. -/
theorem readComponentBody_FPLIST (k : Model D E T) (c : Component D E T) (d : Bool)
    (fps : List QString) (R : QString) (st : Status)
    (h : ∀ fp ∈ fps, isToken fp = true ∧ fp ≠ "$ENDFPLIST".toList) :
    readComponentBody k c d
        ⟨['$', 'F', 'P', 'L', 'I', 'S', 'T'] ++ '\n' ::
          ((fps.map (fun fp => List.flatten [" ".toList, fp, "\n".toList])).flatten
            ++ ("$ENDFPLIST\n".toList ++ R)), st⟩ =
      Step.next { c with footPrints := c.footPrints ++ fps } d ⟨'\n' :: R, st⟩ := by
  have a0 := readToken_word_lf ['$', 'F', 'P', 'L', 'I', 'S', 'T']
    ((fps.map (fun fp => List.flatten [" ".toList, fp, "\n".toList])).flatten
      ++ ("$ENDFPLIST\n".toList ++ R)) st (by decide)
  unfold readComponentBody
  dsimp only
  rw [a0]
  dsimp only
  rw [if_neg (by decide), if_neg (by decide), if_neg (by decide),
    if_pos (show ['$', 'F', 'P', 'L', 'I', 'S', 'T'] = "$FPLIST".toList from rfl),
    readFootPrints_lines fps c R st _ h (Nat.lt_succ_self _)]

end Steps


section Blocks

variable {D E T : Type}

open TextStream

/-- The three comment lines and the DEF line that open a component record. -/
theorem readComponentFrom_header (k : Model D E T) (c : Component D E T) (d : Bool)
    (name pfx : QString) (b1 b2 : Bool) (R : QString) (st : Status)
    (hname : isToken name = true) (hpfx : isToken pfx = true) (hR : R ≠ []) :
    readComponentFrom k c d
        ⟨"#\n# ".toList ++ (name ++ ("\n#\n".toList ++ ("DEF ".toList ++ (name ++ (" ".toList ++
          (pfx ++ (" 0 40 ".toList ++ ((if b1 then "Y ".toList else "N ".toList) ++
          ((if b2 then "Y ".toList else "N ".toList) ++ ("1 F N\n".toList ++ R)))))))))), st⟩ =
      readComponentFrom k { c with name := name, prefix_ := pfx, showPadName := b1,
                                   showPinName := b2 } d ⟨R, st⟩ := by
  have hn := isToken_all_ne_lf hname
  obtain ⟨o1, ho1, e1, d1⟩ : ∃ o1, isToken o1 = true
      ∧ (if b1 then "Y ".toList else "N ".toList) = o1 ++ [' ']
      ∧ decide (o1 = "Y".toList) = b1 := by
    cases b1
    · exact ⟨['N'], by decide, rfl, rfl⟩
    · exact ⟨['Y'], by decide, rfl, rfl⟩
  obtain ⟨o2, ho2, e2, d2⟩ : ∃ o2, isToken o2 = true
      ∧ (if b2 then "Y ".toList else "N ".toList) = o2 ++ [' ']
      ∧ decide (o2 = "Y".toList) = b2 := by
    cases b2
    · exact ⟨['N'], by decide, rfl, rfl⟩
    · exact ⟨['Y'], by decide, rfl, rfl⟩
  rw [e1, e2]
  obtain ⟨B3, hB3⟩ : ∃ x, x = ['D', 'E', 'F'] ++ ' ' :: (name ++ ' ' :: (pfx ++ ' ' ::
      (['0'] ++ ' ' :: (['4', '0'] ++ ' ' :: (o1 ++ ' ' :: (o2 ++ ' ' ::
        (['1', ' ', 'F', ' ', 'N'] ++ '\n' :: R))))))) := ⟨_, rfl⟩
  have hB3' : B3 ≠ [] := by rw [hB3]; simp
  have e : "#\n# ".toList ++ (name ++ ("\n#\n".toList ++ ("DEF ".toList ++ (name ++ (" ".toList ++
      (pfx ++ (" 0 40 ".toList ++ ((o1 ++ [' ']) ++ ((o2 ++ [' ']) ++ ("1 F N\n".toList ++ R))))))))))
      = '#' :: ([] ++ '\n' :: ('#' :: ((' ' :: name) ++ '\n' :: ('#' :: ([] ++ '\n' :: B3))))) := by
    rw [hB3]
    simp
  rw [e]
  rw [readComponentFrom_next k c c d d _ _
      (readComponentBody_comment k c d [] _ st rfl) (by simp),
    readComponentFrom_next k c c d d _ _
      (readComponentBody_comment k c d (' ' :: name) _ st
        (by rw [List.all_cons, hn]; decide)) (by simp),
    readComponentFrom_next k c c d d _ _
      (readComponentBody_comment k c d [] _ st rfl) hB3',
    hB3,
    readComponentFrom_next k c _ d d _ _
      (readComponentBody_DEF k c d name pfx ['0'] ['4', '0'] o1 o2 ['1', ' ', 'F', ' ', 'N'] R st
        hname hpfx (by decide) (by decide) ho1 ho2 (by decide)) hR,
    d1, d2]

end Blocks


section Blocks

variable {D E T : Type}

open TextStream

theorem natDigits_all_ne_lf (f : Nat) : ∀ m, (natDigits f m).all (fun c => c != '\n') = true := by
  induction f with
  | zero => intro m; rfl
  | succ n ih =>
    intro m
    unfold natDigits
    have hd : ∀ d, d < 10 → (digitChar d != '\n') = true := by
      intro d hd; interval_cases d <;> decide
    split
    · rename_i h; simp only [List.all_cons, List.all_nil, Bool.and_true]; exact hd m h
    · rw [List.all_append, ih]
      simp only [List.all_cons, List.all_nil, Bool.and_true, Bool.true_and]
      exact hd _ (Nat.mod_lt _ (by decide))

theorem writeInt_all_ne_lf (n : Int) : (writeInt n).all (fun c => c != '\n') = true := by
  unfold writeInt
  split
  · rw [List.all_cons, natDigits_all_ne_lf]; decide
  · exact natDigits_all_ne_lf _ _

/-- The four field lines `F0` to `F3` are discarded. -/
theorem readComponentFrom_fields (k : Model D E T) (c : Component D E T) (d : Bool)
    (name pfx : QString) (a b : Int) (R : QString) (st : Status)
    (hname : isToken name = true) (hpfx : isToken pfx = true) (hR : R ≠ []) :
    readComponentFrom k c d
        ⟨"F0 \"".toList ++ (pfx ++ ("\" ".toList ++ (writeInt a ++ (" ".toList ++ (writeInt b ++
          (" 50 H V C CNN\n".toList ++ ("F1 \"".toList ++ (name ++
          ("\" 0 0 50 H V C CNN\n".toList ++ ("F2 \"~\" 0 0 50 H I C CNN\n".toList ++
          ("F3 \"~\" 0 0 50 H I C CNN\n".toList ++ R))))))))))), st⟩ =
      readComponentFrom k c d ⟨R, st⟩ := by
  have hn := isToken_all_ne_lf hname
  have hp := isToken_all_ne_lf hpfx
  have ha := writeInt_all_ne_lf a
  have hb := writeInt_all_ne_lf b
  obtain ⟨B3, hB3⟩ : ∃ x, x = "F3 \"~\" 0 0 50 H I C CNN\n".toList ++ R := ⟨_, rfl⟩
  obtain ⟨B2, hB2⟩ : ∃ x, x = "F2 \"~\" 0 0 50 H I C CNN\n".toList ++ B3 := ⟨_, rfl⟩
  obtain ⟨B1, hB1⟩ : ∃ x, x = 'F' :: (("1 \"".toList ++ (name ++ "\" 0 0 50 H V C CNN".toList))
      ++ '\n' :: B2) := ⟨_, rfl⟩
  have e : "F0 \"".toList ++ (pfx ++ ("\" ".toList ++ (writeInt a ++ (" ".toList ++ (writeInt b ++
      (" 50 H V C CNN\n".toList ++ ("F1 \"".toList ++ (name ++
      ("\" 0 0 50 H V C CNN\n".toList ++ ("F2 \"~\" 0 0 50 H I C CNN\n".toList ++
      ("F3 \"~\" 0 0 50 H I C CNN\n".toList ++ R))))))))))) =
      'F' :: (("0 \"".toList ++ (pfx ++ ("\" ".toList ++ (writeInt a ++ (" ".toList ++
        (writeInt b ++ " 50 H V C CNN".toList)))))) ++ '\n' :: B1) := by
    rw [hB1, hB2, hB3]
    simp
  have w0 : ("0 \"".toList ++ (pfx ++ ("\" ".toList ++ (writeInt a ++ (" ".toList ++
        (writeInt b ++ " 50 H V C CNN".toList)))))).all (fun c => c != '\n') = true := by
    simp only [List.all_append, hp, ha, hb, Bool.true_and, Bool.and_true]
    decide
  have w1 : ("1 \"".toList ++ (name ++ "\" 0 0 50 H V C CNN".toList)).all
      (fun c => c != '\n') = true := by
    simp only [List.all_append, hn, Bool.true_and, Bool.and_true]
    decide
  have s2 : readComponentBody k c d ⟨B2, st⟩ = Step.next c d ⟨B3, st⟩ := by
    rw [hB2]
    exact readComponentBody_field k c d "2 \"~\" 0 0 50 H I C CNN".toList B3 st (by decide)
  have s3 : readComponentBody k c d ⟨B3, st⟩ = Step.next c d ⟨R, st⟩ := by
    rw [hB3]
    exact readComponentBody_field k c d "3 \"~\" 0 0 50 H I C CNN".toList R st (by decide)
  rw [e,
    readComponentFrom_next k c c d d _ _ (readComponentBody_field k c d _ B1 st w0)
      (by rw [hB1]; simp),
    hB1,
    readComponentFrom_next k c c d d _ _ (readComponentBody_field k c d _ B2 st w1)
      (by rw [hB2]; simp),
    readComponentFrom_next k c c d d _ _ s2 (by rw [hB3]; simp),
    readComponentFrom_next k c c d d _ _ s3 hR]

/-- The optional `$FPLIST` block adds the footprints. -/
theorem readComponentFrom_footPrints (k : Model D E T) (c : Component D E T) (d : Bool)
    (fps : List QString) (R : QString) (st : Status)
    (h : ∀ fp ∈ fps, isToken fp = true ∧ fp ≠ "$ENDFPLIST".toList) :
    readComponentFrom k c d
        ⟨(if !fps.isEmpty then
            List.flatten
              ["$FPLIST\n".toList,
               (fps.map (fun fp => List.flatten [" ".toList, fp, "\n".toList])).flatten,
               "$ENDFPLIST\n".toList]
          else []) ++ R, st⟩ =
      readComponentFrom k { c with footPrints := c.footPrints ++ fps } d ⟨R, st⟩ := by
  cases fps with
  | nil => simp
  | cons fp fps =>
    have e : (if !(fp :: fps).isEmpty then
            List.flatten
              ["$FPLIST\n".toList,
               ((fp :: fps).map (fun fp => List.flatten [" ".toList, fp, "\n".toList])).flatten,
               "$ENDFPLIST\n".toList]
          else []) ++ R =
        ['$', 'F', 'P', 'L', 'I', 'S', 'T'] ++ '\n' ::
          (((fp :: fps).map (fun fp => List.flatten [" ".toList, fp, "\n".toList])).flatten
            ++ ("$ENDFPLIST\n".toList ++ R)) := by
      simp
    rw [e, readComponentFrom_next k c _ d d _ _
        (readComponentBody_FPLIST k c d (fp :: fps) R st h) (by simp),
      readComponentFrom_space k _ d '\n' R st (by decide)]

/-- The optional ALIAS line adds the aliases. -/
theorem readComponentFrom_aliases (k : Model D E T) (c : Component D E T) (d : Bool)
    (aliases : List QString) (R : QString) (st : Status)
    (h : ∀ a ∈ aliases, isToken a = true) (hR : R ≠ []) :
    readComponentFrom k c d
        ⟨(if !aliases.isEmpty then
            List.flatten ["ALIAS ".toList, joinWith " ".toList aliases, "\n".toList]
          else []) ++ R, st⟩ =
      readComponentFrom k { c with aliases := c.aliases ++ aliases } d ⟨R, st⟩ := by
  cases aliases with
  | nil => simp
  | cons a t =>
    have e : (if !(a :: t).isEmpty then
            List.flatten ["ALIAS ".toList, joinWith " ".toList (a :: t), "\n".toList]
          else []) ++ R =
        ['A', 'L', 'I', 'A', 'S'] ++ ' ' :: (joinWith " ".toList (a :: t) ++ '\n' :: R) := by
      simp
    rw [e, readComponentFrom_next k c _ d d _ _
        (readComponentBody_ALIAS k c d (a :: t) R st (by simp) h) hR]

end Blocks


section Blocks

variable {D E T : Type} [DecidableEq T]

open TextStream

/-- The pin lines of the DRAW section add the decoded pins in order. -/
theorem readComponentFrom_pins (k : Model D E T) (pins : List (Pin D E T)) :
    ∀ (c : Component D E T) (R : QString), (∀ pin ∈ pins, pin.inGrammar k = true) → R ≠ [] →
      readComponentFrom k c true
          ⟨(pins.map (fun pin => writePin k pin ++ "\n".toList)).flatten ++ R, Status.Ok⟩ =
        readComponentFrom k { c with pins := c.pins ++ pins.map (fun pin => pin.decoded k) }
          true ⟨R, Status.Ok⟩ := by
  induction pins with
  | nil => intro c R _ _; simp
  | cons pin pins ih =>
    intro c R h hR
    have e : ((pin :: pins).map (fun pin => writePin k pin ++ "\n".toList)).flatten ++ R =
        writePin k pin ++ '\n' ::
          ((pins.map (fun pin => writePin k pin ++ "\n".toList)).flatten ++ R) := by
      simp
    have hne : (pins.map (fun pin => writePin k pin ++ "\n".toList)).flatten ++ R ≠ [] := by
      simp [hR]
    rw [e, readComponentFrom_next k c _ true true _ _
        (readComponentBody_pin k c pin _ (h pin (by simp))) hne,
      ih _ R (fun p hp => h p (by simp [hp])) hR]
    simp

omit [DecidableEq T] in
/-- The optional S record sets the rectangle; its closing words change nothing. -/
theorem readComponentFrom_rect (k : Model D E T) (c : Component D E T) (r : QRect)
    (R : QString) (st : Status)
    (h1 : IsInt32 r.x1) (h2 : IsInt32 r.y1) (h3 : IsInt32 r.x2) (h4 : IsInt32 r.y2) :
    readComponentFrom k c true
        ⟨(if r.isValid then
            List.flatten
              ["S ".toList, writeInt r.left, " ".toList, writeInt r.top, " ".toList,
               writeInt r.right, " ".toList, writeInt r.bottom, " ".toList,
               "0 1 10 f\n".toList]
          else []) ++ R, st⟩ =
      readComponentFrom k { c with rect := if r.isValid then r.decoded else c.rect } true
        ⟨R, st⟩ := by
  by_cases hv : r.isValid = true
  · have e : (if r.isValid then
            List.flatten
              ["S ".toList, writeInt r.left, " ".toList, writeInt r.top, " ".toList,
               writeInt r.right, " ".toList, writeInt r.bottom, " ".toList,
               "0 1 10 f\n".toList]
          else []) ++ R =
        ['S'] ++ ' ' :: (writeInt r.left ++ ' ' :: (writeInt r.top ++ ' ' ::
          (writeInt r.right ++ ' ' :: (writeInt r.bottom ++ ' ' ::
            ("0 1 10 f\n".toList ++ R))))) := by
      simp [hv]
    rw [e, readComponentFrom_next k c _ true true _ _
        (readComponentBody_rect k c r.left r.top r.right r.bottom _ st h1 h2 h3 h4) (by simp),
      readComponentFrom_rectTail]
    simp only [hv, if_true, QRect.decoded]
  · simp [hv]

omit [DecidableEq T] in
/-- The lines `ENDDRAW` and `ENDDEF` end the record: the component is returned, and the stream
is left after the line of `ENDDEF`. -/
theorem readComponentFrom_end (k : Model D E T) (c : Component D E T) (d : Bool) (st : Status)
    (tail : QString) (htail : ∀ x ∈ tail.head?, x = '\n') :
    readComponentFrom k c d ⟨"ENDDRAW\n".toList ++ ("ENDDEF".toList ++ tail), st⟩ =
      Res.ok (some c, ⟨tail.tail, st⟩) := by
  have hb : readComponentBody k c false ⟨"ENDDEF".toList ++ tail, st⟩ =
      Step.ret c ⟨tail.tail, st⟩ := by
    cases tail with
    | nil => rfl
    | cons x r =>
      have hx : x = '\n' := htail x (by simp)
      subst hx
      rfl
  rw [readComponentFrom_next k c c d false _ _
      (readComponentBody_ENDDRAW k c d ("ENDDEF".toList ++ tail) st) (by simp),
    readComponentFrom_ret k c c false _ _ hb]

omit [DecidableEq T] in
theorem component_inGrammar_iff (k : Model D E T) (c : Component D E T) :
    c.inGrammar k = true ↔
      (isToken c.name = true ∧ isToken c.prefix_ = true
        ∧ (∀ fp ∈ c.footPrints, isToken fp = true ∧ fp ≠ "$ENDFPLIST".toList)
        ∧ (∀ a ∈ c.aliases, isToken a = true)
        ∧ (∀ pin ∈ c.pins, pin.inGrammar k = true)
        ∧ IsInt32 c.rect.x1 ∧ IsInt32 c.rect.y1 ∧ IsInt32 c.rect.x2 ∧ IsInt32 c.rect.y2) := by
  simp only [Component.inGrammar, Bool.and_eq_true, List.all_eq_true, decide_eq_true_eq,
    and_assoc]

/-- The record written by `writeComponent` for a component in the grammar, at the end of the
stream or followed by a line feed, is decoded by the loop of `readComponent` up to the
end of its last line: the scalar fields are replaced, the lists are extended. -/
theorem readComponentFrom_writeComponent (k : Model D E T) (c0 c : Component D E T)
    (tail : QString) (h : c.inGrammar k = true) (htail : ∀ x ∈ tail.head?, x = '\n') :
    readComponentFrom k c0 false ⟨writeComponent k c ++ tail, Status.Ok⟩ =
      Res.ok (some { name := c.name, prefix_ := c.prefix_, showPadName := c.showPadName,
                     showPinName := c.showPinName,
                     rect := if c.rect.isValid then c.rect.decoded else c0.rect,
                     footPrints := c0.footPrints ++ c.footPrints,
                     aliases := c0.aliases ++ c.aliases,
                     pins := c0.pins ++ c.pins.map (fun pin => pin.decoded k) },
              ⟨tail.tail, Status.Ok⟩) := by
  obtain ⟨hname, hpfx, hfp, hal, hpins, h1, h2, h3, h4⟩ := (component_inGrammar_iff k c).mp h
  obtain ⟨B7, hB7⟩ : ∃ x, x = "ENDDRAW\n".toList ++ ("ENDDEF".toList ++ tail) := ⟨_, rfl⟩
  have n7 : B7 ≠ [] := by rw [hB7]; simp
  obtain ⟨B6, hB6⟩ : ∃ x, x = (if c.rect.isValid then
            List.flatten
              ["S ".toList, writeInt c.rect.left, " ".toList, writeInt c.rect.top, " ".toList,
               writeInt c.rect.right, " ".toList, writeInt c.rect.bottom, " ".toList,
               "0 1 10 f\n".toList]
          else []) ++ B7 := ⟨_, rfl⟩
  have n6 : B6 ≠ [] := by rw [hB6]; simp [n7]
  obtain ⟨B5, hB5⟩ : ∃ x, x = (c.pins.map (fun pin => writePin k pin ++ "\n".toList)).flatten
      ++ B6 := ⟨_, rfl⟩
  obtain ⟨B4, hB4⟩ : ∃ x, x = "DRAW\n".toList ++ B5 := ⟨_, rfl⟩
  have n4 : B4 ≠ [] := by rw [hB4]; simp
  obtain ⟨B3, hB3⟩ : ∃ x, x = (if !c.aliases.isEmpty then
            List.flatten ["ALIAS ".toList, joinWith " ".toList c.aliases, "\n".toList]
          else []) ++ B4 := ⟨_, rfl⟩
  have n3 : B3 ≠ [] := by rw [hB3]; simp [n4]
  obtain ⟨B2, hB2⟩ : ∃ x, x = (if !c.footPrints.isEmpty then
            List.flatten
              ["$FPLIST\n".toList,
               (c.footPrints.map (fun fp => List.flatten [" ".toList, fp, "\n".toList])).flatten,
               "$ENDFPLIST\n".toList]
          else []) ++ B3 := ⟨_, rfl⟩
  have n2 : B2 ≠ [] := by rw [hB2]; simp [n3]
  obtain ⟨B1, hB1⟩ : ∃ x, x = "F0 \"".toList ++ (c.prefix_ ++ ("\" ".toList ++
      (writeInt (toInt32 (c.rect.right - 50)) ++ (" ".toList ++
      (writeInt (toInt32 (neg32 c.rect.bottom - 50)) ++
      (" 50 H V C CNN\n".toList ++ ("F1 \"".toList ++ (c.name ++
      ("\" 0 0 50 H V C CNN\n".toList ++ ("F2 \"~\" 0 0 50 H I C CNN\n".toList ++
      ("F3 \"~\" 0 0 50 H I C CNN\n".toList ++ B2))))))))))) := ⟨_, rfl⟩
  have n1 : B1 ≠ [] := by rw [hB1]; simp
  have e : writeComponent k c ++ tail =
      "#\n# ".toList ++ (c.name ++ ("\n#\n".toList ++ ("DEF ".toList ++ (c.name ++ (" ".toList ++
        (c.prefix_ ++ (" 0 40 ".toList ++ ((if c.showPadName then "Y ".toList else "N ".toList) ++
        ((if c.showPinName then "Y ".toList else "N ".toList) ++ ("1 F N\n".toList ++ B1)))))))))) := by
    rw [hB1, hB2, hB3, hB4, hB5, hB6, hB7]
    simp only [writeComponent, List.flatten_cons, List.flatten_nil, List.append_nil,
      List.append_assoc]
  rw [e, readComponentFrom_header k _ false c.name c.prefix_ c.showPadName c.showPinName B1 _
      hname hpfx n1,
    hB1, readComponentFrom_fields k _ false c.name c.prefix_ _ _ B2 _ hname hpfx n2,
    hB2, readComponentFrom_footPrints k _ false c.footPrints B3 _ hfp,
    hB3, readComponentFrom_aliases k _ false c.aliases B4 _ hal n4,
    hB4, readComponentFrom_next k _ _ false true _ _
      (readComponentBody_DRAW k _ false B5 Status.Ok) (by rw [hB5]; simp [n6]),
    hB5, readComponentFrom_pins k c.pins _ B6 hpins n6,
    hB6, readComponentFrom_rect k _ c.rect B7 _ h1 h2 h3 h4,
    hB7, readComponentFrom_end k _ true _ tail htail]

/-- The record written by `writeComponent` for a component in the grammar is decoded by
`readComponent` up to its last character, with the status in order. -/
theorem readComponent_writeComponent (k : Model D E T) (c : Component D E T)
    (h : c.inGrammar k = true) :
    readComponent k ⟨writeComponent k c, Status.Ok⟩ =
      Res.ok (some (c.decoded k), ⟨[], Status.Ok⟩) := by
  have := readComponentFrom_writeComponent k k.newComponent c [] h (by simp)
  rw [List.append_nil] at this
  show readComponentFrom k k.newComponent false ⟨writeComponent k c, Status.Ok⟩ = _
  rw [this]
  simp [Component.decoded, Model.newComponent]

end Blocks


section ComponentClaims

variable {D E T : Type} [DecidableEq T]

/-- A pin in the grammar whose name is not the placeholder and whose codes are inverted by
the decoders is decoded to itself. -/
theorem Pin.decoded_eq (k : Model D E T) (pin : Pin D E T) (h : pin.inGrammar k = true)
    (hname : pin.name ≠ "~".toList) (hcodes : pin.codesInvert k) : pin.decoded k = pin := by
  obtain ⟨_, _, _, hy, _, _, _, _, _⟩ := (pin_inGrammar_iff k pin).mp h
  obtain ⟨hd, he, ht⟩ := hcodes
  have hty : k.setPinType (trimmed (if pin.pinType ≠ k.normal
      then " ".toList ++ k.pinTypeString pin.pinType else [])) = pin.pinType := by
    by_cases hn : pin.pinType = k.normal
    · rw [if_pos hn] at ht
      rw [if_neg (by simpa using hn)]
      exact ht
    · rw [if_neg hn] at ht
      rw [if_pos hn, show " ".toList ++ k.pinTypeString pin.pinType =
        ' ' :: k.pinTypeString pin.pinType from rfl, trimmed_cons_space _ _ (by decide)]
      exact ht
  cases pin with
  | mk name padName pos length direction layer electricalType pinType =>
    simp only [Pin.decoded] at *
    rw [if_neg hname, neg32_neg32 _ hy, hd, he, hty]

/-- C2 (as amended). For every component in the grammar (name, prefix, footprints, aliases and pad
names are words, pin names are words or empty, no footprint is the word `$ENDFPLIST`)
whose pins are not named `~` and whose direction, electrical type and pin type codes are
inverted by their decoders, `readComponent` run on the text written by `writeComponent`
returns a component with the same name, prefix, `showPadName`, `showPinName`, the same
footprints in the same order, the same aliases in the same order and the same pins in
the same order. -/
theorem readComponent_writeComponent_fields (k : Model D E T) (c : Component D E T)
    (h : c.inGrammar k = true)
    (hpins : ∀ pin ∈ c.pins, pin.name ≠ "~".toList ∧ pin.codesInvert k) :
    ∃ c' s', readComponent k ⟨writeComponent k c, Status.Ok⟩ = Res.ok (some c', s')
      ∧ c'.name = c.name ∧ c'.prefix_ = c.prefix_
      ∧ c'.showPadName = c.showPadName ∧ c'.showPinName = c.showPinName
      ∧ c'.footPrints = c.footPrints ∧ c'.aliases = c.aliases ∧ c'.pins = c.pins := by
  refine ⟨_, _, readComponent_writeComponent k c h, rfl, rfl, rfl, rfl, rfl, rfl, ?_⟩
  have hg := ((component_inGrammar_iff k c).mp h).2.2.2.2.1
  simp only [Component.decoded]
  conv_rhs => rw [← List.map_id c.pins]
  apply List.map_congr_left
  intro pin hp
  exact Pin.decoded_eq k pin (hg pin hp) (hpins pin hp).1 (hpins pin hp).2

end ComponentClaims

set_option maxRecDepth 20000 in
/-- C2 (as amended), checked on a component with two footprints, two aliases and two pins. -/
theorem readComponent_writeComponent_fields_witness :
    sampleComponent.inGrammar kicadModel = true
      ∧ (∀ pin ∈ sampleComponent.pins, pin.name ≠ "~".toList ∧ pin.codesInvert kicadModel)
      ∧ ∃ c' s', readComponent kicadModel ⟨writeComponent kicadModel sampleComponent, Status.Ok⟩
            = Res.ok (some c', s')
          ∧ c'.name = sampleComponent.name ∧ c'.prefix_ = sampleComponent.prefix_
          ∧ c'.showPadName = sampleComponent.showPadName
          ∧ c'.showPinName = sampleComponent.showPinName
          ∧ c'.footPrints = sampleComponent.footPrints ∧ c'.aliases = sampleComponent.aliases
          ∧ c'.pins = sampleComponent.pins :=
  ⟨by decide, by decide,
    readComponent_writeComponent_fields kicadModel sampleComponent (by decide) (by decide)⟩


section Library

variable {D E T : Type} [DecidableEq T]

open TextStream

omit [DecidableEq T] in
/-- The footer of a library file is read as a component: the new one. -/
theorem readComponent_footer (k : Model D E T) (st : Status) :
    readComponent k ⟨"#\n#End Library".toList, st⟩ = Res.ok (some k.newComponent, ⟨[], st⟩) := by
  rfl

/-- The component records written by `writeLib`, followed by the footer, are decoded by the
loop of `loadLib` to the decoded components followed by one new component. -/
theorem loadLibLoop_records (k : Model D E T) (comps : List (Component D E T)) :
    ∀ (acc : List (Component D E T)), (∀ c ∈ comps, c.inGrammar k = true) →
      loadLibLoop k
          (((comps.map (fun c => writeComponent k c ++ "\n".toList)).flatten
            ++ "#\n#End Library".toList).length + 1) acc
          ⟨(comps.map (fun c => writeComponent k c ++ "\n".toList)).flatten
            ++ "#\n#End Library".toList, Status.Ok⟩ =
        Res.ok (acc ++ comps.map (fun c => c.decoded k) ++ [k.newComponent], ⟨[], Status.Ok⟩) := by
  induction comps with
  | nil =>
    intro acc _
    have := loadLibLoop_unfold k acc ⟨"#\n#End Library".toList, Status.Ok⟩ _ _
      (readComponent_footer k Status.Ok)
    simp only [List.map_nil, List.flatten_nil, List.nil_append, List.append_nil]
    rw [this]
    rfl
  | cons c comps ih =>
    intro acc h
    obtain ⟨X, hX⟩ : ∃ X, X = (comps.map (fun c => writeComponent k c ++ "\n".toList)).flatten
        ++ "#\n#End Library".toList := ⟨_, rfl⟩
    have hXne : X ≠ [] := by rw [hX]; simp
    have e : ((c :: comps).map (fun c => writeComponent k c ++ "\n".toList)).flatten
        ++ "#\n#End Library".toList = writeComponent k c ++ '\n' :: X := by
      rw [hX]; simp
    have hr : readComponent k ⟨writeComponent k c ++ '\n' :: X, Status.Ok⟩ =
        Res.ok (some (c.decoded k), ⟨X, Status.Ok⟩) := by
      have := readComponentFrom_writeComponent k k.newComponent c ('\n' :: X) (h c (by simp))
        (by intro x hx; cases hx; rfl)
      show readComponentFrom k k.newComponent false _ = _
      rw [this]
      simp [Component.decoded, Model.newComponent]
    have hu := loadLibLoop_unfold k acc ⟨writeComponent k c ++ '\n' :: X, Status.Ok⟩ _ _ hr
    rw [e, hu, if_neg (by
      cases hx : X with
      | nil => exact absurd hx hXne
      | cons a t => simp [TextStream.atEnd])]
    have := ih (acc ++ [c.decoded k]) (fun x hx => h x (by simp [hx]))
    rw [← hX] at this
    rw [this]
    simp

/-- The text written by `writeLib` for a library whose components are in the grammar is decoded
by `loadLib` to the decoded components followed by the new component that the last call of
`readComponent` allocates before it reads the footer. -/
theorem loadLib_writeLib_components (k : Model D E T) (date baseName : QString)
    (lib : Lib D E T) (hdate : date.all (fun c => c != '\n') = true)
    (h : ∀ c ∈ lib.components, c.inGrammar k = true) :
    loadLib k baseName (some (writeLib k date lib)) none =
      Res.ok (some { name := baseName,
                     components := lib.components.map (fun c => c.decoded k)
                       ++ [k.newComponent] }, none) := by
  obtain ⟨Y, hY⟩ : ∃ Y, Y = (lib.components.map
      (fun c => writeComponent k c ++ "\n".toList)).flatten ++ "#\n#End Library".toList :=
    ⟨_, rfl⟩
  obtain ⟨X2, hX2⟩ : ∃ X, X = 
      '#' :: ("https://github.com/Robotips/uConfig".toList ++ '\n' :: Y) := ⟨_, rfl⟩
  obtain ⟨X1, hX1⟩ : ∃ X, X =
      '#' :: ("created with uConfig by Sebastien CAUX (sebcaux)".toList ++ '\n' :: X2) :=
    ⟨_, rfl⟩
  obtain ⟨X0, hX0⟩ : ∃ X, X = '#' :: ("encoding utf-8".toList ++ '\n' :: X1) := ⟨_, rfl⟩
  have hYne : Y ≠ [] := by rw [hY]; simp
  have hw : ("EESchema-LIBRARY Version 2.3  Date: ".toList ++ date).all (fun c => c != '\n')
      = true := by
    rw [List.all_append, hdate]; decide
  have e : writeLib k date lib =
      ("EESchema-LIBRARY Version 2.3  Date: ".toList ++ date) ++ '\n' :: X0 := by
    rw [hX0, hX1, hX2, hY]
    simp [writeLib]
  have hl := readLine_line ("EESchema-LIBRARY Version 2.3  Date: ".toList ++ date) ('\n' :: X0)
    Status.Ok hw (by intro x hx; cases hx; rfl)
  -- the first call of `readComponent` also reads the three comment lines of the header
  have hfrom : ∀ c0 : Component D E T, readComponentFrom k c0 false ⟨X0, Status.Ok⟩ =
      readComponentFrom k c0 false ⟨Y, Status.Ok⟩ := by
    intro c0
    rw [hX0, readComponentFrom_next k c0 c0 false false _ _
        (readComponentBody_comment k c0 false _ X1 Status.Ok (by decide)) (by rw [hX1]; simp),
      hX1, readComponentFrom_next k c0 c0 false false _ _
        (readComponentBody_comment k c0 false _ X2 Status.Ok (by decide)) (by rw [hX2]; simp),
      hX2, readComponentFrom_next k c0 c0 false false _ _
        (readComponentBody_comment k c0 false _ Y Status.Ok (by decide)) hYne]
  unfold loadLib
  dsimp only
  rw [e, hl]
  dsimp only [List.tail_cons]
  cases hc : lib.components with
  | nil =>
    rw [hc] at hY
    simp only [List.map_nil, List.flatten_nil, List.nil_append] at hY
    have hr : readComponent k ⟨X0, Status.Ok⟩ = Res.ok (some k.newComponent, ⟨[], Status.Ok⟩) := by
      show readComponentFrom k k.newComponent false _ = _
      rw [hfrom, hY]
      exact readComponent_footer k Status.Ok
    rw [loadLibLoop_unfold k [] _ _ _ hr]
    rfl
  | cons c comps =>
    rw [hc] at hY h
    obtain ⟨Z, hZ⟩ : ∃ Z, Z = (comps.map (fun c => writeComponent k c ++ "\n".toList)).flatten
        ++ "#\n#End Library".toList := ⟨_, rfl⟩
    have hZne : Z ≠ [] := by rw [hZ]; simp
    have eY : Y = writeComponent k c ++ '\n' :: Z := by
      rw [hY, hZ]; simp
    have hr : readComponent k ⟨X0, Status.Ok⟩ = Res.ok (some (c.decoded k), ⟨Z, Status.Ok⟩) := by
      show readComponentFrom k k.newComponent false _ = _
      rw [hfrom, eY, readComponentFrom_writeComponent k k.newComponent c ('\n' :: Z)
        (h c (by simp)) (by intro x hx; cases hx; rfl)]
      simp [Component.decoded, Model.newComponent]
    rw [loadLibLoop_unfold k [] _ _ _ hr, if_neg (by
      cases hz : Z with
      | nil => exact absurd hz hZne
      | cons a t => simp [TextStream.atEnd])]
    have := loadLibLoop_records k comps ([] ++ [c.decoded k]) (fun x hx => h x (by simp [hx]))
    rw [← hZ] at this
    rw [this]
    simp

/-- C1, what the code does: for every library whose components are in the grammar, the text
written by `writeLib` is decoded by `loadLib` to the decoded components followed by one
more component, the new component returned by the call of `readComponent` that reads the
footer. The count grows by one. -/
theorem loadLib_writeLib (k : Model D E T) (date baseName : QString) (lib : Lib D E T)
    (hdate : date.all (fun c => c != '\n') = true)
    (h : ∀ c ∈ lib.components, c.inGrammar k = true) :
    loadLib k baseName (some (writeLib k date lib)) none =
        Res.ok (some { name := baseName,
                       components := lib.components.map (fun c => c.decoded k)
                         ++ [k.newComponent] }, none)
      ∧ (lib.components.map (fun c => c.decoded k) ++ [k.newComponent]).length
          = lib.components.length + 1 :=
  ⟨loadLib_writeLib_components k date baseName lib hdate h, by simp⟩

end Library


section Sticky

variable {D E T : Type}

open TextStream

/-- Reading a word does not set the status back to `Ok`. -/
theorem readToken_status_ne_ok (s : TextStream) (h : s.status ≠ Status.Ok) :
    (readToken s).2.status ≠ Status.Ok := by
  unfold readToken
  dsimp only
  split
  · unfold setStatus
    dsimp only
    rw [if_neg h]
    exact h
  · exact h

/-- Once the status of the stream is not `Ok`, `readPin` returns no pin, whatever the stream
holds: the status is tested after the name is read and nothing sets it back. -/
theorem readPin_status_sticky (k : Model D E T) (s : TextStream) (h : s.status ≠ Status.Ok) :
    (readPin k s).1 = none ∧ (readPin k s).2.status ≠ Status.Ok := by
  have h1 := readToken_status_ne_ok s h
  unfold readPin
  dsimp only
  rw [if_pos h1]
  exact ⟨rfl, h1⟩

end Sticky


section Concrete

variable {D E T : Type}

/-- C4 (as amended). Decoding the worked example yields one component named `U1` with prefix `U`
and exactly one pin, named `VCC`, on pad `1`, at position `(0, -100)`, of length `200`,
with the direction decoded from `U` and the electrical type decoded from `W`. -/
theorem loadLib_exampleStream (k : Model D E T) (baseName : QString) :
    loadLib k baseName (some exampleStream) none =
      Res.ok (some { name := baseName, components :=
        [{ name := "U1".toList, prefix_ := "U".toList, showPadName := true, showPinName := true,
           rect := k.newRect, footPrints := [], aliases := [],
           pins := [{ name := "VCC".toList, padName := "1".toList, pos := (0, -100),
                      length := 200, direction := k.setDirection 'U', layer := 0,
                      electricalType := k.setElectricalType 'W',
                      pinType := k.setPinType [] }] }] }, none) := by
  rfl

/-- C4, the claim as stated fails: the pin decoded from the worked example is at `(0, -100)`,
not at `(0, -200)`. -/
theorem loadLib_exampleStream_pos :
    ∃ c, loadLib kicadModel "lib".toList (some exampleStream) none =
        Res.ok (some { name := "lib".toList, components := [c] }, none)
      ∧ c.pins.map (fun p => p.pos) = [(0, -100)]
      ∧ c.pins.map (fun p => p.pos) ≠ [(0, -200)] :=
  ⟨_, rfl, by decide, by decide⟩

/-- C5, the failing input: after the pin line with the word `foo` for x, the well-formed pin
line of `B` adds no pin; the component is returned without pins. -/
theorem loadLib_malformedPinStream (k : Model D E T) (baseName : QString) :
    loadLib k baseName (some malformedPinStream) none =
      Res.ok (some { name := baseName, components :=
        [{ name := "U1".toList, prefix_ := "U".toList, showPadName := true, showPinName := true,
           rect := k.newRect, footPrints := [], aliases := [], pins := [] }] }, none) := by
  rfl

/-- C6, the failing input: a line of unknown words adds a component, the new one. -/
theorem loadLib_unknownWordsStream (k : Model D E T) (baseName : QString) :
    loadLib k baseName (some unknownWordsStream) none =
      Res.ok (some { name := baseName, components := [k.newComponent] }, none) := by
  rfl

/-- In a file cut after the line of the S record, the loop of `readComponent` is entered again
with only the line feed left, reads an empty word and evaluates `start.at(0)` on it. -/
theorem loadLib_truncatedStream (k : Model D E T) (baseName : QString) :
    loadLib k baseName (some truncatedStream) none = Res.indexOutOfRange := by
  rfl

/-- In a file cut after a pin line inside the DRAW section, the component is added with the
pins read so far. -/
theorem loadLib_truncatedAfterPinStream (k : Model D E T) (baseName : QString) :
    loadLib k baseName (some truncatedAfterPinStream) none =
      Res.ok (some { name := baseName, components :=
        [{ name := "U1".toList, prefix_ := "U".toList, showPadName := true, showPinName := true,
           rect := k.newRect, footPrints := [], aliases := [],
           pins := [{ name := "VCC".toList, padName := "1".toList, pos := (0, -100),
                      length := 200, direction := k.setDirection 'U', layer := 0,
                      electricalType := k.setElectricalType 'W',
                      pinType := k.setPinType [] }] }] }, none) := by
  rfl

/-- C7, the failing input: the file is cut at the end of the well-formed pin line of `B`, which
follows the malformed pin line of `A`. The component `U1` is added, with the name and the
prefix of the DEF line, but without the pin `B`: the failed read of `A` leaves the status
of the stream set, and `readPin` returns no pin for the line of `B`. No empty word is read
on the way. -/
theorem loadLib_truncatedAfterMalformedPinStream (k : Model D E T) (baseName : QString) :
    loadLib k baseName (some truncatedAfterMalformedPinStream) none =
      Res.ok (some { name := baseName, components :=
        [{ name := "U1".toList, prefix_ := "U".toList, showPadName := true, showPinName := true,
           rect := k.newRect, footPrints := [], aliases := [], pins := [] }] }, none) := by
  rfl

variable [DecidableEq T]

set_option maxRecDepth 20000 in
/-- The text `writeComponent` writes for the box component: the S record carries `top` and
`bottom` as they are stored. -/
theorem writeComponent_box (k : Model D E T) :
    writeComponent k (boxComponent D E T) =
      ("#\n# U1\n#\nDEF U1 U 0 40 Y Y 1 F N\nF0 \"U\" -30 -80 50 H V C CNN\n".toList
        ++ ("F1 \"U1\" 0 0 50 H V C CNN\nF2 \"~\" 0 0 50 H I C CNN\n".toList
        ++ "F3 \"~\" 0 0 50 H I C CNN\nDRAW\nS 0 10 20 30 0 1 10 f\nENDDRAW\nENDDEF".toList)) := by
  simp only [writeComponent, boxComponent, List.map_nil, List.flatten_nil, QRect.right,
    QRect.bottom, QRect.left, QRect.top]
  decide

set_option maxRecDepth 20000 in
/-- C3, the failing input: the S record is written with `top` and `bottom` as they are, and
reading it back mirrors the rectangle: `(0, 10, 20, 30)` comes back as `(0, -30, 20, -10)`. -/
theorem readComponent_writeComponent_box (k : Model D E T) :
    readComponent k ⟨writeComponent k (boxComponent D E T), Status.Ok⟩ =
      Res.ok (some { boxComponent D E T with rect := ⟨0, -30, 20, -10⟩ }, ⟨[], Status.Ok⟩) := by
  rw [writeComponent_box]
  rfl

end Concrete

set_option maxRecDepth 20000 in
/-- C2, the claim as stated fails: the component is in the grammar and the codes of its pin are
inverted by the decoders, but its pin named `~` is written as `~` and read back with the
empty name. -/
theorem readComponent_writeComponent_tilde :
    tildePinComponent.inGrammar kicadModel = true
      ∧ (∀ pin ∈ tildePinComponent.pins, pin.codesInvert kicadModel)
      ∧ ∃ c s, readComponent kicadModel ⟨writeComponent kicadModel tildePinComponent, Status.Ok⟩ =
          Res.ok (some c, s)
        ∧ c.pins.map (fun p => p.name) = [[]]
        ∧ c.pins ≠ tildePinComponent.pins := by
  refine ⟨by decide, by decide,
    { tildePinComponent with rect := _, pins := _ }, _, rfl, by decide, by decide⟩

set_option maxRecDepth 20000 in
/-- A footprint that is the word `$ENDFPLIST` ends the footprint list when it is read back:
the component comes back without footprints. -/
theorem readComponent_writeComponent_endWord :
    ∃ c s, readComponent kicadModel ⟨writeComponent kicadModel endWordComponent, Status.Ok⟩ =
        Res.ok (some c, s)
      ∧ c.footPrints = []
      ∧ endWordComponent.footPrints = ["$ENDFPLIST".toList] := by
  refine ⟨{ endWordComponent with footPrints := _ }, _, rfl, by decide, by decide⟩

/-- C8, the claim as stated fails: the pin named `A 1` at `(3, 4)` is read back at
`(2, -3)`. -/
theorem readPin_writePin_spacedName :
    (readPin kicadModel (TextStream.readToken
        ⟨writePin kicadModel spacedNamePin, Status.Ok⟩).2).1.map (fun p => p.pos) = some (2, -3)
      ∧ spacedNamePin.pos = (3, 4) := by
  decide

/-- C10, the claim as stated fails: for the clock pin named `A B` the pin type decoder
receives the words `1 W C`, not `C`, and the pin comes back with type `Normal`. -/
theorem readPin_writePin_spacedNameClock :
    trimmed (TextStream.readLine ⟨"0 1 W C".toList, Status.Ok⟩).1 = "0 1 W C".toList
      ∧ (readPin kicadModel (TextStream.readToken
          ⟨writePin kicadModel spacedNameClockPin, Status.Ok⟩).2).1.map (fun p => p.pinType)
        = some PinType.Normal
      ∧ spacedNameClockPin.pinType = PinType.Clock := by
  decide


set_option maxRecDepth 20000 in
/-- C1, checked on a library with one component: the decoded library has two. -/
theorem loadLib_writeLib_witness :
    sampleDate.all (fun c => c != '\n') = true
      ∧ (∀ c ∈ [sampleComponent], c.inGrammar kicadModel = true)
      ∧ loadLib kicadModel "lib".toList
            (some (writeLib kicadModel sampleDate { name := [], components := [sampleComponent] }))
            none =
          Res.ok (some { name := "lib".toList,
                         components := [sampleComponent].map (fun c => c.decoded kicadModel)
                           ++ [kicadModel.newComponent] }, none)
      ∧ ([sampleComponent].map (fun c => c.decoded kicadModel)
          ++ [kicadModel.newComponent]).length = [sampleComponent].length + 1 :=
  ⟨by decide, by decide,
    loadLib_writeLib kicadModel sampleDate "lib".toList
      { name := [], components := [sampleComponent] } (by decide) (by decide)⟩

/-- C8 (as amended), checked on the pin `VCC` at `(0, -100)`. -/
theorem writePin_readPin_pos_witness :
    vccPin.inGrammar kicadModel = true
      ∧ (readPin kicadModel (TextStream.readToken
          ⟨writePin kicadModel vccPin ++ [], Status.Ok⟩).2).1.map (fun p => p.pos)
        = some vccPin.pos :=
  ⟨by decide, (writePin_readPin_pos kicadModel vccPin [] (by decide) (by simp)).2.2⟩

/-- C9, checked on the X record `X ~ 1 0 100 200 U 50 50 0 1 W`. -/
theorem readPin_tilde_name_witness :
    isToken "1".toList = true ∧ IsInt32 0 ∧ IsInt32 100 ∧ IsInt32 200
      ∧ isSpace 'U' = false ∧ isToken "50".toList = true ∧ isSpace 'W' = false
      ∧ ∃ p, (readPin kicadModel (TextStream.readToken
          ⟨xRecord "~".toList "1".toList 0 100 200 'U' "50".toList "50".toList 0 "1".toList 'W' []
            ++ [], Status.Ok⟩).2).1 = some p ∧ p.name = [] :=
  ⟨by decide, by decide, by decide, by decide, by decide, by decide, by decide,
    (readPin_tilde_name kicadModel "1".toList 0 100 200 'U' "50".toList "50".toList 0 "1".toList
      'W' [] [] vccPin (by decide) (by decide) (by decide) (by decide) (by decide) (by decide)
      (by decide) (by decide) (by decide) (by decide) (by decide) (by simp)).1⟩

/-- C10 (as amended), checked on the clock pin `VCC`. -/
theorem writePin_readPin_pinType_witness :
    vccPin.inGrammar kicadModel = true
      ∧ vccPin.pinType ≠ kicadModel.normal
      ∧ kicadModel.setPinType (trimmed (kicadModel.pinTypeString vccPin.pinType)) = vccPin.pinType
      ∧ (readPin kicadModel (TextStream.readToken
          ⟨writePin kicadModel vccPin ++ [], Status.Ok⟩).2).1.map (fun p => p.pinType)
        = some vccPin.pinType :=
  ⟨by decide, by decide, by decide,
    (writePin_readPin_pinType kicadModel vccPin [] (by decide) (by simp)).2.2
      (by decide) (by decide)⟩

/-! ## Component records in file order -/

section Records

variable {D E T : Type} [DecidableEq T]

open TextStream

/-- A component record written by `writeComponent` for a component in the grammar and ended by
a line feed is decoded by `readComponent`, which leaves the stream right after that line
feed, whatever follows. -/
theorem readComponent_record (k : Model D E T) (c : Component D E T) (rest : QString)
    (h : c.inGrammar k = true) :
    readComponent k ⟨writeComponent k c ++ '\n' :: rest, Status.Ok⟩ =
      Res.ok (some (c.decoded k), ⟨rest, Status.Ok⟩) := by
  have := readComponentFrom_writeComponent k k.newComponent c ('\n' :: rest) h
    (by intro x hx; cases hx; rfl)
  show readComponentFrom k k.newComponent false _ = _
  rw [this]
  simp [Component.decoded, Model.newComponent]

/-- The loop of `loadLib` on component records followed by any text: the decoded components
are appended in order, and the loop goes on with the text after the records. -/
theorem loadLibLoop_records_rest (k : Model D E T) (comps : List (Component D E T))
    (rest : QString) :
    ∀ (acc : List (Component D E T)), comps ≠ [] → (∀ c ∈ comps, c.inGrammar k = true) →
      loadLibLoop k
          (((comps.map (fun c => writeComponent k c ++ "\n".toList)).flatten ++ rest).length + 1)
          acc ⟨(comps.map (fun c => writeComponent k c ++ "\n".toList)).flatten ++ rest,
            Status.Ok⟩ =
        if rest.isEmpty then Res.ok (acc ++ comps.map (fun c => c.decoded k), ⟨rest, Status.Ok⟩)
        else loadLibLoop k (rest.length + 1) (acc ++ comps.map (fun c => c.decoded k))
          ⟨rest, Status.Ok⟩ := by
  induction comps with
  | nil => intro acc h; exact absurd rfl h
  | cons c comps ih =>
    intro acc _ h
    obtain ⟨X, hX⟩ : ∃ X, X = (comps.map (fun c => writeComponent k c ++ "\n".toList)).flatten
        ++ rest := ⟨_, rfl⟩
    have e : ((c :: comps).map (fun c => writeComponent k c ++ "\n".toList)).flatten ++ rest
        = writeComponent k c ++ '\n' :: X := by
      rw [hX]; simp
    have hr := readComponent_record k c X (h c (by simp))
    have hu := loadLibLoop_unfold k acc ⟨writeComponent k c ++ '\n' :: X, Status.Ok⟩ _ _ hr
    rw [e, hu]
    cases comps with
    | nil =>
      simp only [List.map_nil, List.flatten_nil, List.nil_append] at hX
      subst hX
      simp [TextStream.atEnd]
    | cons c2 cs =>
      have hXne : X ≠ [] := by
        rw [hX]
        simp [writeComponent]
      have hat : (⟨X, Status.Ok⟩ : TextStream).atEnd = false := by
        cases hx : X with
        | nil => exact absurd hx hXne
        | cons a t => rfl
      rw [hat]
      have := ih (acc ++ [c.decoded k]) (by simp) (fun x hx => h x (by simp [hx]))
      rw [← hX] at this
      simp only [Bool.false_eq_true, if_false]
      rw [this]
      simp

omit [DecidableEq T] in
/-- The loop of `loadLib` only appends to the components it starts with. -/
theorem loadLibLoop_prefix (k : Model D E T) (f : Nat) :
    ∀ (acc l : List (Component D E T)) (s s' : TextStream),
      loadLibLoop k f acc s = Res.ok (l, s') → ∃ more, l = acc ++ more := by
  induction f with
  | zero => intro acc l s s' h; simp [loadLibLoop] at h
  | succ n ih =>
    intro acc l s s' h
    unfold loadLibLoop at h
    cases hr : readComponent k s with
    | ok r =>
      obtain ⟨oc, s1⟩ := r
      rw [hr] at h
      cases oc with
      | some c =>
        dsimp only at h
        split at h
        · cases h; exact ⟨[c], rfl⟩
        · obtain ⟨more, hm⟩ := ih _ _ _ _ h
          exact ⟨c :: more, by rw [hm]; simp⟩
      | none =>
        dsimp only at h
        split at h
        · cases h; exact ⟨[], by simp⟩
        · exact ih _ _ _ _ h
    | indexOutOfRange => rw [hr] at h; cases h
    | outOfFuel => rw [hr] at h; cases h

/-- A file made of a first line and component records of the grammar decodes to the decoded
components, in order. -/
theorem loadLib_recordsText (k : Model D E T) (baseName line : QString)
    (comps : List (Component D E T)) (hline : line.all (fun c => c != '\n') = true)
    (hne : comps ≠ []) (h : ∀ c ∈ comps, c.inGrammar k = true) :
    loadLib k baseName
        (some (line ++ '\n' :: (comps.map (fun c => writeComponent k c ++ "\n".toList)).flatten))
        none =
      Res.ok (some { name := baseName, components := comps.map (fun c => c.decoded k) }, none) := by
  have hl := readLine_line line
    ('\n' :: (comps.map (fun c => writeComponent k c ++ "\n".toList)).flatten)
    Status.Ok hline (by intro x hx; cases hx; rfl)
  have hr := loadLibLoop_records_rest k comps [] [] hne h
  rw [List.append_nil] at hr
  unfold loadLib
  dsimp only
  rw [hl]
  dsimp only [List.tail_cons]
  rw [hr]
  simp

/-- When text follows the component records, the components decoded from the records come
first in the library, if one is returned. -/
theorem loadLib_recordsText_rest (k : Model D E T) (baseName line : QString)
    (comps : List (Component D E T)) (rest : QString)
    (hline : line.all (fun c => c != '\n') = true)
    (hne : comps ≠ []) (h : ∀ c ∈ comps, c.inGrammar k = true)
    (lib' : Lib D E T) (r : Option (Lib D E T))
    (hload : loadLib k baseName
        (some (line ++ '\n' ::
          ((comps.map (fun c => writeComponent k c ++ "\n".toList)).flatten ++ rest))) none =
      Res.ok (some lib', r)) :
    lib'.components.take comps.length = comps.map (fun c => c.decoded k) := by
  have hl := readLine_line line
    ('\n' :: ((comps.map (fun c => writeComponent k c ++ "\n".toList)).flatten ++ rest))
    Status.Ok hline (by intro x hx; cases hx; rfl)
  have hr := loadLibLoop_records_rest k comps rest [] hne h
  unfold loadLib at hload
  dsimp only at hload
  rw [hl] at hload
  dsimp only [List.tail_cons] at hload
  rw [hr] at hload
  simp only [List.nil_append] at hload
  by_cases he : rest.isEmpty = true
  · rw [if_pos he] at hload
    cases hload
    simp
  · rw [if_neg he] at hload
    cases hloop : loadLibLoop k (rest.length + 1) (comps.map (fun c => c.decoded k))
        ⟨rest, Status.Ok⟩ with
    | ok p =>
      obtain ⟨l, s'⟩ := p
      rw [hloop] at hload
      cases hload
      obtain ⟨more, hm⟩ := loadLibLoop_prefix k _ _ _ _ _ hloop
      dsimp only
      rw [hm]
      simp
    | indexOutOfRange => rw [hloop] at hload; cases hload
    | outOfFuel => rw [hloop] at hload; cases hload

/-- C11. For a file made of a first line and `k` component records written for components in
the grammar, each ended by the line feed after `ENDDEF`: `readComponent` run at the start
of a record returns the component decoded from that record alone and leaves the stream
right after the line of `ENDDEF`, whatever follows; `loadLib` returns the library of the
`k` decoded components, in file order, duplicates included; and when more text follows
the last record, the first `k` components of a library that `loadLib` returns are still
these. -/
theorem loadLib_records_in_order (k : Model D E T) (baseName line : QString)
    (comps : List (Component D E T)) (hline : line.all (fun c => c != '\n') = true)
    (hne : comps ≠ []) (h : ∀ c ∈ comps, c.inGrammar k = true) :
    (∀ c ∈ comps, ∀ rest : QString,
        readComponent k ⟨writeComponent k c ++ '\n' :: rest, Status.Ok⟩ =
          Res.ok (some (c.decoded k), ⟨rest, Status.Ok⟩))
      ∧ loadLib k baseName
            (some (line ++ '\n' ::
              (comps.map (fun c => writeComponent k c ++ "\n".toList)).flatten)) none =
          Res.ok (some { name := baseName, components := comps.map (fun c => c.decoded k) },
            none)
      ∧ (∀ (rest : QString) (lib' : Lib D E T) (r : Option (Lib D E T)),
          loadLib k baseName
              (some (line ++ '\n' ::
                ((comps.map (fun c => writeComponent k c ++ "\n".toList)).flatten ++ rest)))
              none = Res.ok (some lib', r) →
            lib'.components.take comps.length = comps.map (fun c => c.decoded k)) :=
  ⟨fun c hc rest => readComponent_record k c rest (h c hc),
    loadLib_recordsText k baseName line comps hline hne h,
    fun rest lib' r hload => loadLib_recordsText_rest k baseName line comps rest hline hne h
      lib' r hload⟩

end Records

section Names

variable {D E T : Type}

open TextStream

/-- When the status is `Ok` after a word is read, it was `Ok` before and the word is not
empty. -/
theorem readToken_status_ok (s : TextStream) (h : (readToken s).2.status = Status.Ok) :
    s.status = Status.Ok ∧ (readToken s).1 ≠ [] := by
  unfold readToken at h ⊢
  dsimp only at h ⊢
  split at h
  · exfalso
    unfold setStatus at h
    dsimp only at h
    split at h
    · cases h
    · rename_i hs; exact hs h
  · rename_i a t e
    refine ⟨h, ?_⟩
    rw [e]
    have ha : isSpace a = false := by
      have := List.head_dropWhile_not isSpace s.buf (by rw [e]; simp)
      simpa [e] using this
    simp [List.takeWhile_cons, ha]

theorem readLine_status (s : TextStream) : (readLine s).2.status = s.status := rfl

/-- A DEF line after which the status is `Ok` has set a name and a prefix that are not
empty. -/
theorem readComponentBody_DEF_nonempty (k : Model D E T) (c c' : Component D E T) (d d' : Bool)
    (s0 s' : TextStream) (hstart : (readToken s0).1 = "DEF".toList)
    (hb : readComponentBody k c d s0 = Step.next c' d' s') (hok : s'.status = Status.Ok) :
    c'.name ≠ [] ∧ c'.prefix_ ≠ [] := by
  unfold readComponentBody at hb
  dsimp only at hb
  have hstart' : (readToken s0).1 = ['D', 'E', 'F'] := hstart
  rw [hstart'] at hb
  dsimp only at hb
  rw [if_neg (by decide), if_pos (show ['D', 'E', 'F'] = "DEF".toList from rfl)] at hb
  obtain ⟨S, hS⟩ : ∃ S, S = (readToken s0).2 := ⟨_, rfl⟩
  rw [← hS] at hb
  cases hb
  rw [readLine_status] at hok
  have h6 := readToken_status_ok _ hok
  have h5 := readToken_status_ok _ h6.1
  have h4 := readToken_status_ok _ h5.1
  have h3 := readToken_status_ok _ h4.1
  have h2 := readToken_status_ok _ h3.1
  have h1 := readToken_status_ok _ h2.1
  exact ⟨h1.2, h2.2⟩

/-- C12, what the code does. For every library whose components are in the grammar, the last
component that `loadLib` adds from the text written by `writeLib` is the new component
that `readComponent` allocated before it read the footer: no DEF line has given it a name
or a prefix, it has those of `new Component()`. And from a file cut right after the word
`DEF`, `loadLib` adds a component whose name and prefix are the empty words read past the
end of the stream. -/
theorem loadLib_unnamed_component [DecidableEq T] (k : Model D E T) (date baseName : QString)
    (lib : Lib D E T) (hdate : date.all (fun c => c != '\n') = true)
    (h : ∀ c ∈ lib.components, c.inGrammar k = true) :
    (∃ lib', loadLib k baseName (some (writeLib k date lib)) none = Res.ok (some lib', none)
        ∧ lib'.components.getLast? = some k.newComponent
        ∧ k.newComponent.name = k.newName ∧ k.newComponent.prefix_ = k.newPrefix)
      ∧ ∃ c, loadLib k baseName (some defOnlyStream) none =
          Res.ok (some { name := baseName, components := [c] }, none)
        ∧ c.name = [] ∧ c.prefix_ = [] :=
  ⟨⟨_, loadLib_writeLib_components k date baseName lib hdate h, by simp, rfl, rfl⟩,
    ⟨_, rfl, rfl, rfl⟩⟩

end Names

set_option maxRecDepth 20000 in
/-- C11, checked on a file with the same record twice: the library holds the decoded component
twice. -/
theorem loadLib_records_in_order_witness :
    banner.all (fun c => c != '\n') = true
      ∧ [sampleComponent, sampleComponent] ≠ []
      ∧ (∀ c ∈ [sampleComponent, sampleComponent], c.inGrammar kicadModel = true)
      ∧ loadLib kicadModel "lib".toList
            (some (banner ++ '\n' ::
              ([sampleComponent, sampleComponent].map
                (fun c => writeComponent kicadModel c ++ "\n".toList)).flatten)) none =
          Res.ok (some { name := "lib".toList,
                         components := [sampleComponent, sampleComponent].map
                           (fun c => c.decoded kicadModel) }, none) :=
  ⟨by decide, by decide, by decide,
    (loadLib_records_in_order kicadModel "lib".toList banner [sampleComponent, sampleComponent]
      (by decide) (by decide) (by decide)).2.1⟩

set_option maxRecDepth 20000 in
/-- C12, checked on the text written for a library with one component, whose DEF line is
complete: the last component added has the empty name and the empty prefix. -/
theorem loadLib_unnamed_component_witness :
    sampleDate.all (fun c => c != '\n') = true
      ∧ (∀ c ∈ [sampleComponent], c.inGrammar kicadModel = true)
      ∧ ∃ lib', loadLib kicadModel "lib".toList
            (some (writeLib kicadModel sampleDate { name := [], components := [sampleComponent] }))
            none = Res.ok (some lib', none)
        ∧ lib'.components.getLast? = some kicadModel.newComponent
        ∧ kicadModel.newComponent.name = [] ∧ kicadModel.newComponent.prefix_ = [] :=
  ⟨by decide, by decide,
    (loadLib_unnamed_component kicadModel sampleDate "lib".toList
      { name := [], components := [sampleComponent] } (by decide) (by decide)).1⟩


/-! ## The rectangle of an S record -/

section Rect

variable {D E T : Type}

open TextStream

/-- C13 (as amended). For every S record `S x0 y0 x1 y1` read in drawing mode, with `int`s
above the least `int` for `x0`, `y0` and `y1`, the rectangle stored on the component is
`QRect::normalized` of `(x0, -y0, x1, -y1)`: its left and right are `x0` and `x1` in one
order or the other, its top and bottom are `-y0` and `-y1` in one order or the other, and
width and height are not negative, that is `left ≤ right + 1` and `top ≤ bottom + 1`.
The left is at most the right unless `x1 = x0 - 1`, and the top is at most the bottom
unless `y1 = y0 + 1`: an empty extent is not swapped. -/
theorem readComponentBody_rect_normalized (k : Model D E T) (c : Component D E T)
    (x0 y0 x1 y1 : Int) (R : QString) (st : Status)
    (hx0 : IsInt32 x0) (hy0 : IsInt32 y0) (hx1 : IsInt32 x1) (hy1 : IsInt32 y1)
    (hx : x0 ≠ -2147483648) (hy : y0 ≠ -2147483648) (hy' : y1 ≠ -2147483648) :
    ∃ c', readComponentBody k c true
          ⟨List.flatten ["S ".toList, writeInt x0, " ".toList, writeInt y0, " ".toList,
            writeInt x1, " ".toList, writeInt y1] ++ ' ' :: R, st⟩ =
        Step.next c' true ⟨' ' :: R, st⟩
      ∧ c'.rect = QRect.normalized ⟨x0, -y0, x1, -y1⟩
      ∧ ((c'.rect.left = x0 ∧ c'.rect.right = x1) ∨ (c'.rect.left = x1 ∧ c'.rect.right = x0))
      ∧ ((c'.rect.top = -y0 ∧ c'.rect.bottom = -y1) ∨ (c'.rect.top = -y1 ∧ c'.rect.bottom = -y0))
      ∧ c'.rect.left ≤ c'.rect.right + 1 ∧ c'.rect.top ≤ c'.rect.bottom + 1
      ∧ (c'.rect.left ≤ c'.rect.right ↔ x1 ≠ x0 - 1)
      ∧ (c'.rect.top ≤ c'.rect.bottom ↔ y1 ≠ y0 + 1) := by
  have e : List.flatten ["S ".toList, writeInt x0, " ".toList, writeInt y0, " ".toList,
            writeInt x1, " ".toList, writeInt y1] ++ ' ' :: R =
      ['S'] ++ ' ' :: (writeInt x0 ++ ' ' :: (writeInt y0 ++ ' ' :: (writeInt x1 ++ ' ' ::
          (writeInt y1 ++ ' ' :: R)))) := by
    simp
  have hb := readComponentBody_rect k c x0 y0 x1 y1 R st hx0 hy0 hx1 hy1
  have n0 : neg32 y0 = -y0 := neg32_eq_neg y0 hy0 hy
  have n1 : neg32 y1 = -y1 := neg32_eq_neg y1 hy1 hy'
  obtain ⟨a1, a2⟩ := hx0
  obtain ⟨b1, b2⟩ := hy0
  obtain ⟨c1, c2⟩ := hx1
  obtain ⟨d1, d2⟩ := hy1
  have tx : toInt32 (x0 - 1) = x0 - 1 := by simp only [toInt32]; omega
  have ty : toInt32 (-y0 - 1) = -y0 - 1 := by simp only [toInt32]; omega
  rw [e, hb, n0, n1]
  refine ⟨_, rfl, rfl, ?_⟩
  dsimp only [QRect.normalized, QRect.null, QRect.setX, QRect.setY, QRect.setRight,
    QRect.setBottom, QRect.left, QRect.right, QRect.top, QRect.bottom]
  rw [tx, ty]
  by_cases h1 : x1 < x0 - 1 <;> by_cases h2 : -y1 < -y0 - 1 <;>
    simp only [h1, h2, if_true, if_false] <;>
    exact ⟨by simp, by simp, by omega, by omega, ⟨fun _ => by omega, fun _ => by omega⟩,
      ⟨fun _ => by omega, fun _ => by omega⟩⟩

/-- The decode of the file whose S record is `S 5 0 4 0`: the corners are not swapped. -/
theorem loadLib_narrowRectStream_eq (k : Model D E T) (baseName : QString) :
    loadLib k baseName (some narrowRectStream) none =
      Res.ok (some { name := baseName, components :=
        [{ name := "U1".toList, prefix_ := "U".toList, showPadName := true, showPinName := true,
           rect := ⟨5, 0, 4, 0⟩, footPrints := [], aliases := [], pins := [] }] }, none) := by
  rfl

/-- C14. When the file cannot be opened, `loadLib` returns the null pointer and `saveLib` returns
`false` and writes nothing; in both cases the library the caller passed is as it was. -/
theorem loadLib_saveLib_open_failure [DecidableEq T] (k : Model D E T)
    (date baseName : QString) (lib : Lib D E T) :
    loadLib k baseName none (some lib) = Res.ok (none, some lib)
      ∧ loadLib k baseName none (none : Option (Lib D E T)) = Res.ok (none, none)
      ∧ saveLib k date baseName false lib = (false, lib, none) :=
  ⟨rfl, rfl, rfl⟩

end Rect

/-- C13, the claim as stated fails: the S record `S 5 0 4 0` is stored with left `5` and right
`4`; the left is not at most the right. -/
theorem loadLib_narrowRectStream :
    ∃ c, loadLib kicadModel "lib".toList (some narrowRectStream) none =
        Res.ok (some { name := "lib".toList, components := [c] }, none)
      ∧ c.rect = ⟨5, 0, 4, 0⟩
      ∧ ¬ (c.rect.left ≤ c.rect.right) :=
  ⟨_, rfl, rfl, by decide⟩

/-- C13 (as amended), checked on the record `S 0 10 30 20`: the rectangle is `(0, -20, 30, -10)`. -/
theorem readComponentBody_rect_normalized_witness :
    IsInt32 0 ∧ IsInt32 10 ∧ IsInt32 30 ∧ IsInt32 20
      ∧ ∃ c', readComponentBody kicadModel sampleComponent true
          ⟨List.flatten ["S ".toList, writeInt 0, " ".toList, writeInt 10, " ".toList,
            writeInt 30, " ".toList, writeInt 20] ++ ' ' :: "0 1 10 f\n".toList, Status.Ok⟩ =
        Step.next c' true ⟨' ' :: "0 1 10 f\n".toList, Status.Ok⟩
      ∧ c'.rect = QRect.normalized ⟨0, -10, 30, -20⟩
      ∧ ((c'.rect.left = 0 ∧ c'.rect.right = 30) ∨ (c'.rect.left = 30 ∧ c'.rect.right = 0))
      ∧ ((c'.rect.top = -10 ∧ c'.rect.bottom = -20) ∨ (c'.rect.top = -20 ∧ c'.rect.bottom = -10))
      ∧ c'.rect.left ≤ c'.rect.right + 1 ∧ c'.rect.top ≤ c'.rect.bottom + 1
      ∧ (c'.rect.left ≤ c'.rect.right ↔ (30 : Int) ≠ 0 - 1)
      ∧ (c'.rect.top ≤ c'.rect.bottom ↔ (20 : Int) ≠ 10 + 1) :=
  ⟨by decide, by decide, by decide, by decide,
    readComponentBody_rect_normalized kicadModel sampleComponent 0 10 30 20 "0 1 10 f\n".toList
      Status.Ok (by decide) (by decide) (by decide) (by decide) (by decide) (by decide)
      (by decide)⟩


/-! ## Splitting a text -/

/-- A separator inside a text separates the pieces before it from the pieces after it. -/
theorem splitOnP_append_sep (p : Char → Bool) (a : QString) (sp : Char) (b : QString)
    (hsp : p sp = true) :
    (a ++ sp :: b).splitOnP p = a.splitOnP p ++ b.splitOnP p := by
  induction a with
  | nil => rw [List.nil_append, List.splitOnP_cons, if_pos hsp]; rfl
  | cons x a ih =>
    rw [List.cons_append, List.splitOnP_cons, List.splitOnP_cons, ih]
    by_cases hx : p x = true
    · rw [if_pos hx, if_pos hx]; rfl
    · rw [if_neg hx, if_neg hx]
      cases h : a.splitOnP p with
      | nil => exact absurd h (List.splitOnP_ne_nil _ _)
      | cons l ls => rfl

/-- A text without separator is one piece. -/
theorem splitOnP_of_not (p : Char → Bool) (w : QString) (h : ∀ x ∈ w, p x = false) :
    w.splitOnP p = [w] := by
  induction w with
  | nil => rfl
  | cons x w ih =>
    rw [List.splitOnP_cons, if_neg (by rw [h x (by simp)]; simp),
      ih (fun y hy => h y (by simp [hy]))]
    rfl

/-- Splitting depends only on the value of the test on the characters of the text. -/
theorem splitOnP_congr (p q : Char → Bool) (l : QString) (h : ∀ x ∈ l, p x = q x) :
    l.splitOnP p = l.splitOnP q := by
  induction l with
  | nil => rfl
  | cons a t ih =>
    rw [List.splitOnP_cons, List.splitOnP_cons, h a (by simp),
      ih (fun x hx => h x (by simp [hx]))]

/-- A line feed inside a text separates the lines before it from the lines after it. -/
theorem lines_append_lf (a b : QString) : lines (a ++ '\n' :: b) = lines a ++ lines b :=
  splitOnP_append_sep _ a '\n' b (by decide)

/-- A text without line feed is one line. -/
theorem lines_of_all_ne_lf (w : QString) (h : w.all (fun c => c != '\n') = true) :
    lines w = [w] := by
  apply splitOnP_of_not
  intro x hx
  have := all_ne_lf h x hx
  simpa using this

/-- A line ended by its line feed is the first line of a text. -/
theorem lines_line (w rest : QString) (hw : w.all (fun c => c != '\n') = true) :
    lines (w ++ '\n' :: rest) = w :: lines rest := by
  rw [lines_append_lf, lines_of_all_ne_lf w hw]; rfl

/-- The lines of pieces that are each ended by a line feed. -/
theorem lines_flatten_map {α : Type} (f : α → QString) (l : List α) (R : QString) :
    lines ((l.map (fun a => f a ++ "\n".toList)).flatten ++ R) =
      (l.map (fun a => lines (f a))).flatten ++ lines R := by
  induction l with
  | nil => rfl
  | cons a l ih =>
    have e : ((a :: l).map (fun a => f a ++ "\n".toList)).flatten ++ R =
        f a ++ '\n' :: ((l.map (fun a => f a ++ "\n".toList)).flatten ++ R) := by
      simp
    rw [e, lines_append_lf, ih]
    simp

/-- Pieces without line feed are one line each. -/
theorem flatten_map_lines {α : Type} (f : α → QString) (l : List α)
    (h : ∀ a ∈ l, (f a).all (fun c => c != '\n') = true) :
    (l.map (fun a => lines (f a))).flatten = l.map f := by
  induction l with
  | nil => rfl
  | cons a l ih =>
    rw [List.map_cons, List.flatten_cons, lines_of_all_ne_lf _ (h a (by simp)),
      ih (fun x hx => h x (by simp [hx]))]
    rfl

/-- Words joined by blanks hold no line feed. -/
theorem joinWith_all_ne_lf (aliases : List QString) (h : ∀ a ∈ aliases, isToken a = true) :
    (joinWith " ".toList aliases).all (fun c => c != '\n') = true := by
  rw [List.all_eq_true]
  intro x hx
  simp only [bne_iff_ne, ne_eq]
  intro h0; subst h0
  rcases mem_intercalate_blank aliases '\n' hx with h1 | ⟨a, ha, hca⟩
  · exact absurd h1 (by decide)
  · have := isToken_not_space (h a ha) '\n' hca
    exact absurd this (by decide)


/-! ## The lines of the written text -/

section Lines

variable {D E T : Type} [DecidableEq T]

/-- The line written for a pin in the grammar holds no line feed. -/
theorem writePin_all_ne_lf (k : Model D E T) (pin : Pin D E T) (h : pin.inGrammar k = true) :
    (writePin k pin).all (fun c => c != '\n') = true := by
  obtain ⟨hname, hpad, _, _, _, _, hdir, helec, htype⟩ := (pin_inGrammar_iff k pin).mp h
  obtain ⟨d, hd, hds⟩ := isCharCode_eq hdir
  obtain ⟨e, he, hes⟩ := isCharCode_eq helec
  have hn : (if pin.name.isEmpty then "~".toList else pin.name).all (fun c => c != '\n')
      = true := by
    rcases hname with h1 | h1
    · rw [if_pos h1]; decide
    · split
      · decide
      · exact isToken_all_ne_lf h1
  have hp := isToken_all_ne_lf hpad
  have hdl : (d != '\n') = true := by
    simp only [bne_iff_ne, ne_eq]
    intro h0; subst h0; simp [isSpace_lf] at hds
  have hel : (e != '\n') = true := by
    simp only [bne_iff_ne, ne_eq]
    intro h0; subst h0; simp [isSpace_lf] at hes
  have ht : (if pin.pinType ≠ k.normal then " ".toList ++ k.pinTypeString pin.pinType
      else []).all (fun c => c != '\n') = true := by
    split
    · simp only [List.all_append, htype, Bool.and_true]; decide
    · rfl
  simp only [writePin, hd, he, List.flatten_cons, List.flatten_nil, List.all_append, hn, hp, ht,
    writeInt_all_ne_lf, List.all_cons, List.all_nil, hdl, hel, Bool.and_true, Bool.true_and]
  decide


/-- The lines of a component record: the line `#`, the lines up to `F2`, the line `F3`, the
footprint block, the ALIAS line, the line `DRAW`, the pin lines, the S record, the lines
`ENDDRAW` and `ENDDEF`. -/
theorem lines_writeComponent (k : Model D E T) (c : Component D E T) :
    ∃ mid : List QString, lines (writeComponent k c) =
      "#".toList :: (mid ++ ["F3 \"~\" 0 0 50 H I C CNN".toList]
        ++ (if c.footPrints = [] then []
          else ["$FPLIST".toList]
            ++ (c.footPrints.map (fun footPrint => lines (" ".toList ++ footPrint))).flatten
            ++ ["$ENDFPLIST".toList])
        ++ (if c.aliases = [] then []
          else lines ("ALIAS ".toList ++ joinWith " ".toList c.aliases))
        ++ ["DRAW".toList]
        ++ (c.pins.map (fun pin => lines (writePin k pin))).flatten
        ++ (if c.rect.isValid then
            [List.flatten ["S ".toList, writeInt c.rect.left, " ".toList, writeInt c.rect.top,
              " ".toList, writeInt c.rect.right, " ".toList, writeInt c.rect.bottom,
              " 0 1 10 f".toList]]
          else []) ++ ["ENDDRAW".toList, "ENDDEF".toList]) := by
  obtain ⟨B7, hB7⟩ : ∃ x, x = "ENDDRAW".toList ++ '\n' :: "ENDDEF".toList := ⟨_, rfl⟩
  have l7 : lines B7 = ["ENDDRAW".toList, "ENDDEF".toList] := by rw [hB7]; rfl
  obtain ⟨B6, hB6⟩ : ∃ x, x = (if c.rect.isValid then
            List.flatten
              ["S ".toList, writeInt c.rect.left, " ".toList, writeInt c.rect.top, " ".toList,
               writeInt c.rect.right, " ".toList, writeInt c.rect.bottom, " ".toList,
               "0 1 10 f\n".toList]
          else []) ++ B7 := ⟨_, rfl⟩
  have l6 : lines B6 = (if c.rect.isValid then
            [List.flatten ["S ".toList, writeInt c.rect.left, " ".toList, writeInt c.rect.top,
              " ".toList, writeInt c.rect.right, " ".toList, writeInt c.rect.bottom,
              " 0 1 10 f".toList]]
          else []) ++ lines B7 := by
    rw [hB6]
    by_cases hv : c.rect.isValid = true
    · rw [if_pos hv, if_pos hv]
      have e : List.flatten
              ["S ".toList, writeInt c.rect.left, " ".toList, writeInt c.rect.top, " ".toList,
               writeInt c.rect.right, " ".toList, writeInt c.rect.bottom, " ".toList,
               "0 1 10 f\n".toList] ++ B7 =
          List.flatten ["S ".toList, writeInt c.rect.left, " ".toList, writeInt c.rect.top,
              " ".toList, writeInt c.rect.right, " ".toList, writeInt c.rect.bottom,
              " 0 1 10 f".toList] ++ '\n' :: B7 := by
        simp
      rw [e, lines_line]
      · rfl
      · simp only [List.flatten_cons, List.flatten_nil, List.all_append, writeInt_all_ne_lf,
          Bool.and_true, Bool.true_and]
        decide
    · rw [if_neg hv, if_neg hv]
      rfl
  obtain ⟨B5, hB5⟩ : ∃ x, x = (c.pins.map (fun pin => writePin k pin ++ "\n".toList)).flatten
      ++ B6 := ⟨_, rfl⟩
  have l5 : lines B5 = (c.pins.map (fun pin => lines (writePin k pin))).flatten ++ lines B6 := by
    rw [hB5, lines_flatten_map]
  obtain ⟨B4, hB4⟩ : ∃ x, x = "DRAW".toList ++ '\n' :: B5 := ⟨_, rfl⟩
  have l4 : lines B4 = "DRAW".toList :: lines B5 := by
    rw [hB4, lines_line _ _ (by decide)]
  obtain ⟨B3, hB3⟩ : ∃ x, x = (if !c.aliases.isEmpty then
            List.flatten ["ALIAS ".toList, joinWith " ".toList c.aliases, "\n".toList]
          else []) ++ B4 := ⟨_, rfl⟩
  have l3 : lines B3 = (if c.aliases = [] then []
          else lines ("ALIAS ".toList ++ joinWith " ".toList c.aliases)) ++ lines B4 := by
    rw [hB3]
    cases ha : c.aliases with
    | nil => rfl
    | cons a t =>
      have e : (if !(a :: t).isEmpty then
            List.flatten ["ALIAS ".toList, joinWith " ".toList (a :: t), "\n".toList]
          else []) ++ B4 = ("ALIAS ".toList ++ joinWith " ".toList (a :: t)) ++ '\n' :: B4 := by
        simp
      rw [e, lines_append_lf, if_neg (by simp)]
  obtain ⟨B2, hB2⟩ : ∃ x, x = (if !c.footPrints.isEmpty then
            List.flatten
              ["$FPLIST\n".toList,
               (c.footPrints.map (fun fp => List.flatten [" ".toList, fp, "\n".toList])).flatten,
               "$ENDFPLIST\n".toList]
          else []) ++ B3 := ⟨_, rfl⟩
  have l2 : lines B2 = (if c.footPrints = [] then []
          else ["$FPLIST".toList]
            ++ (c.footPrints.map (fun footPrint => lines (" ".toList ++ footPrint))).flatten
            ++ ["$ENDFPLIST".toList]) ++ lines B3 := by
    rw [hB2]
    cases hf : c.footPrints with
    | nil => rfl
    | cons a t =>
      have e : (if !(a :: t).isEmpty then
            List.flatten
              ["$FPLIST\n".toList,
               ((a :: t).map (fun fp => List.flatten [" ".toList, fp, "\n".toList])).flatten,
               "$ENDFPLIST\n".toList]
          else []) ++ B3 =
          "$FPLIST".toList ++ '\n' ::
            (((a :: t).map (fun fp => (" ".toList ++ fp) ++ "\n".toList)).flatten
              ++ ("$ENDFPLIST".toList ++ '\n' :: B3)) := by
        simp
      rw [e, lines_line _ _ (by decide), lines_flatten_map, lines_line _ _ (by decide),
        if_neg (by simp)]
      simp
  obtain ⟨B1, hB1⟩ : ∃ x, x = "F3 \"~\" 0 0 50 H I C CNN".toList ++ '\n' :: B2 := ⟨_, rfl⟩
  have l1 : lines B1 = "F3 \"~\" 0 0 50 H I C CNN".toList :: lines B2 := by
    rw [hB1, lines_line _ _ (by decide)]
  obtain ⟨P, hP⟩ : ∃ x, x = List.flatten ["# ".toList, c.name, "\n#\n".toList,
     "DEF ".toList, c.name, " ".toList, c.prefix_, " 0 40 ".toList,
     (if c.showPadName then "Y ".toList else "N ".toList),
     (if c.showPinName then "Y ".toList else "N ".toList),
     "1 F N\n".toList,
     "F0 \"".toList, c.prefix_, "\" ".toList,
     writeInt (toInt32 (c.rect.right - 50)), " ".toList,
     writeInt (toInt32 (neg32 c.rect.bottom - 50)),
     " 50 H V C CNN\n".toList,
     "F1 \"".toList, c.name, "\" 0 0 50 H V C CNN\n".toList,
     "F2 \"~\" 0 0 50 H I C CNN".toList] := ⟨_, rfl⟩
  have e : writeComponent k c = "#".toList ++ '\n' :: (P ++ '\n' :: B1) := by
    rw [hP, hB1, hB2, hB3, hB4, hB5, hB6, hB7]
    simp [writeComponent]
  refine ⟨lines P, ?_⟩
  rw [e, lines_line _ _ (by decide), lines_append_lf, l1, l2, l3, l4, l5, l6, l7]
  simp

/-- C16. For every component, the lines of the text written by `writeComponent` are: the lines
up to `F2`, the line `F3`; the lines `$FPLIST`, one per footprint (a blank and the
footprint), `$ENDFPLIST`, present exactly when there are footprints; the line `ALIAS`
followed by the aliases joined by single blanks, present exactly when there are aliases;
the line `DRAW`; the pin lines in pin order; the line `S left top right bottom 0 1 10 f`,
present exactly when the rectangle is valid; the lines `ENDDRAW` and `ENDDEF`. For a
component in the grammar each footprint, the aliases and each pin take one line. -/
theorem writeComponent_lines (k : Model D E T) (c : Component D E T) :
    (∃ head : List QString, lines (writeComponent k c) =
        head ++ ["F3 \"~\" 0 0 50 H I C CNN".toList]
          ++ (if c.footPrints = [] then []
              else ["$FPLIST".toList]
                ++ (c.footPrints.map (fun footPrint => lines (" ".toList ++ footPrint))).flatten
                ++ ["$ENDFPLIST".toList])
          ++ (if c.aliases = [] then []
              else lines ("ALIAS ".toList ++ joinWith " ".toList c.aliases))
          ++ ["DRAW".toList]
          ++ (c.pins.map (fun pin => lines (writePin k pin))).flatten
          ++ (if c.rect.isValid then
                [List.flatten ["S ".toList, writeInt c.rect.left, " ".toList, writeInt c.rect.top,
                  " ".toList, writeInt c.rect.right, " ".toList, writeInt c.rect.bottom,
                  " 0 1 10 f".toList]]
              else [])
          ++ ["ENDDRAW".toList, "ENDDEF".toList])
      ∧ (c.inGrammar k = true →
          (c.footPrints.map (fun footPrint => lines (" ".toList ++ footPrint))).flatten
              = c.footPrints.map (fun footPrint => " ".toList ++ footPrint)
            ∧ lines ("ALIAS ".toList ++ joinWith " ".toList c.aliases)
              = ["ALIAS ".toList ++ joinWith " ".toList c.aliases]
            ∧ (c.pins.map (fun pin => lines (writePin k pin))).flatten
              = c.pins.map (fun pin => writePin k pin)) := by
  constructor
  · obtain ⟨mid, h⟩ := lines_writeComponent k c
    refine ⟨"#".toList :: mid, ?_⟩
    rw [h]
    simp
  · intro h
    obtain ⟨_, _, hfp, hal, hpins, _⟩ := (component_inGrammar_iff k c).mp h
    refine ⟨?_, ?_, ?_⟩
    · apply flatten_map_lines
      intro fp hfp'
      rw [List.all_append, isToken_all_ne_lf (hfp fp hfp').1]; rfl
    · apply lines_of_all_ne_lf
      rw [List.all_append, joinWith_all_ne_lf _ hal]; rfl
    · apply flatten_map_lines
      intro pin hp
      exact writePin_all_ne_lf k pin (hpins pin hp)

/-- C15 (as amended). For every library, the lines of the text written by `writeLib` are, in
order: the banner line, the three comment lines, the lines of each component record in
library order, and the two lines `#` and `#End Library`. The lines of a record start with
`#` and end with `ENDDRAW`, `ENDDEF`; the line feed written after a record ends the line
of `ENDDEF`, so the line after it is the `#` that opens the next record or the footer, not
an empty line. -/
theorem writeLib_lines (k : Model D E T) (date : QString) (lib : Lib D E T)
    (hdate : date.all (fun c => c != '\n') = true) :
    lines (writeLib k date lib) =
        ["EESchema-LIBRARY Version 2.3  Date: ".toList ++ date,
         "#encoding utf-8".toList,
         "#created with uConfig by Sebastien CAUX (sebcaux)".toList,
         "#https://github.com/Robotips/uConfig".toList]
          ++ (lib.components.map (fun component => lines (writeComponent k component))).flatten
          ++ ["#".toList, "#End Library".toList]
      ∧ ∀ component ∈ lib.components, ∃ mid : List QString,
          lines (writeComponent k component) =
            "#".toList :: (mid ++ ["ENDDRAW".toList, "ENDDEF".toList]) := by
  constructor
  · have hw : ("EESchema-LIBRARY Version 2.3  Date: ".toList ++ date).all (fun c => c != '\n')
        = true := by
      rw [List.all_append, hdate]; decide
    have e : writeLib k date lib =
        ("EESchema-LIBRARY Version 2.3  Date: ".toList ++ date) ++ '\n' ::
          ("#encoding utf-8".toList ++ '\n' ::
            ("#created with uConfig by Sebastien CAUX (sebcaux)".toList ++ '\n' ::
              ("#https://github.com/Robotips/uConfig".toList ++ '\n' ::
                ((lib.components.map (fun c => writeComponent k c ++ "\n".toList)).flatten
                  ++ ("#".toList ++ '\n' :: "#End Library".toList))))) := by
      simp [writeLib]
    rw [e, lines_line _ _ hw, lines_line _ _ (by decide), lines_line _ _ (by decide),
      lines_line _ _ (by decide), lines_flatten_map, lines_line _ _ (by decide)]
    rw [lines_of_all_ne_lf _ (by decide)]
    simp
  · intro c _
    obtain ⟨mid, h⟩ := lines_writeComponent k c
    exact ⟨_, h⟩

end Lines

set_option maxRecDepth 20000 in
/-- C15, the claim as stated fails: in the text written for a library with one component the
line after `ENDDEF` is the `#` of the footer; the text has no empty line. -/
theorem writeLib_box_lines :
    lines (writeLib kicadModel sampleDate
        { name := [], components := [boxComponent Direction ElectricalType PinType] }) =
      ["EESchema-LIBRARY Version 2.3  Date: 01/01/2020 00:00:00".toList,
       "#encoding utf-8".toList,
       "#created with uConfig by Sebastien CAUX (sebcaux)".toList,
       "#https://github.com/Robotips/uConfig".toList,
       "#".toList, "# U1".toList, "#".toList,
       "DEF U1 U 0 40 Y Y 1 F N".toList,
       "F0 \"U\" -30 -80 50 H V C CNN".toList,
       "F1 \"U1\" 0 0 50 H V C CNN".toList,
       "F2 \"~\" 0 0 50 H I C CNN".toList,
       "F3 \"~\" 0 0 50 H I C CNN".toList,
       "DRAW".toList,
       "S 0 10 20 30 0 1 10 f".toList,
       "ENDDRAW".toList,
       "ENDDEF".toList,
       "#".toList,
       "#End Library".toList]
      ∧ ([] : QString) ∉ lines (writeLib kicadModel sampleDate
          { name := [], components := [boxComponent Direction ElectricalType PinType] }) := by
  have h : lines (writeLib kicadModel sampleDate
        { name := [], components := [boxComponent Direction ElectricalType PinType] }) =
      ["EESchema-LIBRARY Version 2.3  Date: 01/01/2020 00:00:00".toList,
       "#encoding utf-8".toList,
       "#created with uConfig by Sebastien CAUX (sebcaux)".toList,
       "#https://github.com/Robotips/uConfig".toList,
       "#".toList, "# U1".toList, "#".toList,
       "DEF U1 U 0 40 Y Y 1 F N".toList,
       "F0 \"U\" -30 -80 50 H V C CNN".toList,
       "F1 \"U1\" 0 0 50 H V C CNN".toList,
       "F2 \"~\" 0 0 50 H I C CNN".toList,
       "F3 \"~\" 0 0 50 H I C CNN".toList,
       "DRAW".toList,
       "S 0 10 20 30 0 1 10 f".toList,
       "ENDDRAW".toList,
       "ENDDEF".toList,
       "#".toList,
       "#End Library".toList] := by
    simp only [writeLib, List.map_cons, List.map_nil, writeComponent_box]
    decide
  refine ⟨h, ?_⟩
  rw [h]
  decide

set_option maxRecDepth 20000 in
/-- C15 (as amended), checked on a library with one component. -/
theorem writeLib_lines_witness :
    sampleDate.all (fun c => c != '\n') = true
      ∧ lines (writeLib kicadModel sampleDate { name := [], components := [sampleComponent] }) =
        ["EESchema-LIBRARY Version 2.3  Date: ".toList ++ sampleDate,
         "#encoding utf-8".toList,
         "#created with uConfig by Sebastien CAUX (sebcaux)".toList,
         "#https://github.com/Robotips/uConfig".toList]
          ++ ([sampleComponent].map
              (fun component => lines (writeComponent kicadModel component))).flatten
          ++ ["#".toList, "#End Library".toList] :=
  ⟨by decide,
    (writeLib_lines kicadModel sampleDate { name := [], components := [sampleComponent] }
      (by decide)).1⟩


/-! ## The ALIAS line -/

section Alias

variable {D E T : Type}

open TextStream

/-- On a text whose only whitespace is the blank, splitting at the blanks is splitting at
whitespace. -/
theorem splitSkipEmpty_eq_splitWhitespace (line : QString)
    (h : ∀ ch ∈ line, isSpace ch = true → ch = ' ') :
    splitSkipEmpty ' ' line = splitWhitespace line := by
  unfold splitSkipEmpty splitWhitespace List.splitOn
  rw [splitOnP_congr (fun x => x == ' ') isSpace line]
  intro x hx
  by_cases hs : isSpace x = true
  · rw [hs, h x hx hs]; rfl
  · have hne : x ≠ ' ' := by
      intro h0; subst h0; exact hs isSpace_blank
    simp [hs, hne]

/-- C17 (as amended). For every ALIAS record (a leading word that starts with `ALIAS`),
`readComponent` reads the rest of the line, splits it at the blank character only, leaves
out the empty fragments, and appends the fragments, in order, as aliases; a tab or other
whitespace is not a separator and stays inside a fragment. When the blank is the only
whitespace on the rest of the line, the fragments are the whitespace-separated words of
the line. -/
theorem readComponentBody_ALIAS_split (k : Model D E T) (c : Component D E T) (d : Bool)
    (s0 : TextStream) (w : QString) (hstart : (readToken s0).1 = "ALIAS".toList ++ w) :
    readComponentBody k c d s0 =
        Step.next { c with aliases := c.aliases
                      ++ ((readLine (readToken s0).2).1.splitOn ' ').filter (fun frag => frag ≠ []) }
          d (readLine (readToken s0).2).2
      ∧ ((∀ ch ∈ (readLine (readToken s0).2).1, isSpace ch = true → ch = ' ') →
          ((readLine (readToken s0).2).1.splitOn ' ').filter (fun frag => frag ≠ [])
            = splitWhitespace (readLine (readToken s0).2).1) := by
  have hf : ∀ l : List QString, l.filter (fun frag => decide (frag ≠ [])) =
      l.filter (fun frag => !frag.isEmpty) := by
    intro l
    apply List.filter_congr
    intro x _
    cases x <;> simp
  constructor
  · have hstart' : (readToken s0).1 = 'A' :: 'L' :: 'I' :: 'A' :: 'S' :: w := hstart
    unfold readComponentBody
    dsimp only
    rw [hstart']
    dsimp only
    rw [if_neg (by decide), if_neg (by simp), if_neg (by decide), if_neg (by simp),
      if_neg (by simp [List.isPrefixOf]), if_pos (by simp [List.isPrefixOf]), hf]
    rfl
  · intro h
    rw [hf]
    exact splitSkipEmpty_eq_splitWhitespace _ h

/-- The decode of the file whose ALIAS line separates two words with a tab. -/
theorem loadLib_tabAliasStream_eq (k : Model D E T) (baseName : QString) :
    loadLib k baseName (some tabAliasStream) none =
      Res.ok (some { name := baseName, components :=
        [{ name := "U1".toList, prefix_ := "U".toList, showPadName := true, showPinName := true,
           rect := k.newRect, footPrints := [], aliases := ["A\tB".toList], pins := [] }] },
        none) := by
  rfl

end Alias

/-- C17, the claim as stated fails: the line `ALIAS A<tab>B` adds the one alias `A<tab>B`, where
splitting on whitespace gives the two words `A` and `B`. -/
theorem loadLib_tabAliasStream :
    ∃ c, loadLib kicadModel "lib".toList (some tabAliasStream) none =
        Res.ok (some { name := "lib".toList, components := [c] }, none)
      ∧ c.aliases = ["A\tB".toList]
      ∧ splitWhitespace " A\tB".toList = ["A".toList, "B".toList] :=
  ⟨_, rfl, rfl, by decide⟩

/-- C17 (as amended), checked on the line `ALIAS LM1  LM2`: the two words are added, the empty
fragment between the two blanks is left out. -/
theorem readComponentBody_ALIAS_split_witness :
    (TextStream.readToken aliasLineStream).1 = "ALIAS".toList ++ []
      ∧ readComponentBody kicadModel tildePinComponent false aliasLineStream =
          Step.next { tildePinComponent with aliases := ["LM1".toList, "LM2".toList] }
            false ⟨"DRAW\n".toList, Status.Ok⟩ :=
  ⟨by decide,
    (readComponentBody_ALIAS_split kicadModel tildePinComponent false aliasLineStream []
      (by decide)).1⟩


/-! ## Drawing mode -/

theorem splitWhitespace_nil : splitWhitespace [] = [] := rfl

theorem splitWhitespace_append_space (a : QString) (sp : Char) (b : QString)
    (hsp : isSpace sp = true) :
    splitWhitespace (a ++ sp :: b) = splitWhitespace a ++ splitWhitespace b := by
  unfold splitWhitespace
  rw [splitOnP_append_sep _ _ _ _ hsp, List.filter_append]

theorem splitWhitespace_cons_space (sp : Char) (b : QString) (hsp : isSpace sp = true) :
    splitWhitespace (sp :: b) = splitWhitespace b := by
  have := splitWhitespace_append_space [] sp b hsp
  simpa [splitWhitespace_nil] using this

theorem splitWhitespace_dropWhile (b : QString) :
    splitWhitespace (b.dropWhile isSpace) = splitWhitespace b := by
  induction b with
  | nil => rfl
  | cons a t ih =>
    by_cases h : isSpace a = true
    · rw [List.dropWhile_cons, if_pos h, ih, splitWhitespace_cons_space _ _ h]
    · rw [List.dropWhile_cons, if_neg h]

/-- A text that starts with a word: the word is its first word, and the words of the rest
follow. -/
theorem splitWhitespace_word (a : Char) (t : QString) (ha : isSpace a = false) :
    splitWhitespace (a :: t) =
      (a :: t).takeWhile (fun c => !isSpace c)
        :: splitWhitespace ((a :: t).dropWhile (fun c => !isSpace c)) := by
  have hsplit := List.takeWhile_append_dropWhile (fun c => !isSpace c) (a :: t)
  have htw : ∀ x ∈ (a :: t).takeWhile (fun c => !isSpace c), isSpace x = false := by
    intro x hx
    have := List.mem_takeWhile_imp hx
    simpa using this
  have hne : (a :: t).takeWhile (fun c => !isSpace c) ≠ [] := by
    simp [List.takeWhile_cons, ha]
  have hw : splitWhitespace ((a :: t).takeWhile (fun c => !isSpace c)) =
      [(a :: t).takeWhile (fun c => !isSpace c)] := by
    unfold splitWhitespace
    rw [splitOnP_of_not _ _ htw]
    cases h : (a :: t).takeWhile (fun c => !isSpace c) with
    | nil => exact absurd h hne
    | cons y ys => rfl
  cases hd : (a :: t).dropWhile (fun c => !isSpace c) with
  | nil =>
    rw [hd, List.append_nil] at hsplit
    rw [splitWhitespace_nil]
    conv_lhs => rw [← hsplit]
    exact hw
  | cons sp r =>
    have hsp : isSpace sp = true := by
      have := List.head_dropWhile_not (fun c => !isSpace c) (a :: t) (by rw [hd]; simp)
      simpa [hd] using this
    rw [hd] at hsplit
    conv_lhs => rw [← hsplit]
    rw [splitWhitespace_append_space _ _ _ hsp, hw, splitWhitespace_cons_space _ _ hsp]
    rfl

namespace TextStream

/-- The word read by `>>` is a word of the stream, and the words left are words of the
stream. -/
theorem readToken_words (s : TextStream) :
    ((readToken s).1 ≠ [] → (readToken s).1 ∈ splitWhitespace s.buf)
      ∧ ∀ w ∈ splitWhitespace (readToken s).2.buf, w ∈ splitWhitespace s.buf := by
  have hd := splitWhitespace_dropWhile s.buf
  unfold readToken
  dsimp only
  cases e : s.buf.dropWhile isSpace with
  | nil =>
    dsimp only
    refine ⟨fun h => absurd rfl h, ?_⟩
    intro w hw
    rw [setStatus_buf] at hw
    simp [splitWhitespace_nil] at hw
  | cons a t =>
    dsimp only
    have ha : isSpace a = false := by
      have := List.head_dropWhile_not isSpace s.buf (by rw [e]; simp)
      simpa [e] using this
    have := splitWhitespace_word a t ha
    rw [e] at hd
    rw [← hd, this]
    exact ⟨fun _ => by simp, fun w hw => by simp [hw]⟩

/-- The words left after a line is read are words of the stream. -/
theorem readLine_words (s : TextStream) :
    ∀ w ∈ splitWhitespace (readLine s).2.buf, w ∈ splitWhitespace s.buf := by
  intro w hw
  unfold readLine at hw
  dsimp only at hw
  have hsplit := List.takeWhile_append_dropWhile (fun c => c != '\n') s.buf
  cases hd : s.buf.dropWhile (fun c => c != '\n') with
  | nil =>
    rw [hd] at hw
    simp [splitWhitespace_nil] at hw
  | cons x r =>
    have hx : x = '\n' := by
      have := List.head_dropWhile_not (fun c => c != '\n') s.buf (by rw [hd]; simp)
      simpa [hd] using this
    subst hx
    rw [hd] at hw hsplit
    rw [← hsplit, splitWhitespace_append_space _ _ _ isSpace_lf]
    simp only [List.drop_succ_cons, List.drop_zero] at hw
    exact List.mem_append_right _ hw

end TextStream

section Drawing

variable {D E T : Type}

open TextStream

/-- The `$FPLIST` loop changes the footprints only, and leaves words of the stream. -/
theorem readFootPrints_frame (fuel : Nat) :
    ∀ (c c' : Component D E T) (s s' : TextStream),
      readFootPrints fuel c s = some (c', s') →
        c'.pins = c.pins ∧ c'.rect = c.rect
          ∧ ∀ w ∈ splitWhitespace s'.buf, w ∈ splitWhitespace s.buf := by
  induction fuel with
  | zero => intro c c' s s' h; simp [readFootPrints] at h
  | succ n ih =>
    intro c c' s s' h
    unfold readFootPrints at h
    dsimp only at h
    have t := (readToken_words s).2
    split_ifs at h
    · cases h; exact ⟨rfl, rfl, fun w hw => hw⟩
    · cases h; exact ⟨rfl, rfl, t⟩
    · obtain ⟨h1, h2, h3⟩ := ih _ _ _ _ h
      exact ⟨h1, h2, fun w hw => t w (h3 w hw)⟩

/-- One pass of the loop body of `readComponent` with the drawing flag off: no pin is added and
the rectangle is not set; the flag is on afterwards only if the word read starts with
`DRAW`; the words left are words of the stream. -/
theorem readComponentBody_draw_off (k : Model D E T) (c c' : Component D E T) (d' : Bool)
    (s0 s' : TextStream) (hb : readComponentBody k c false s0 = Step.next c' d' s') :
    c'.pins = c.pins ∧ c'.rect = c.rect
      ∧ (d' = true → "DRAW".toList.isPrefixOf (readToken s0).1 = true)
      ∧ ∀ w ∈ splitWhitespace s'.buf, w ∈ splitWhitespace s0.buf := by
  have hw0 := (readToken_words s0).2
  unfold readComponentBody at hb
  dsimp only at hb
  cases hst : (readToken s0).1 with
  | nil => rw [hst] at hb; cases hb
  | cons ch0 rest =>
    rw [hst] at hb
    obtain ⟨S, hS⟩ : ∃ S, S = (readToken s0).2 := ⟨_, rfl⟩
    rw [← hS] at hb hw0
    have l1 := readLine_words S
    have d1 := (readToken_words S).2
    have d2 := (readToken_words (readToken S).2).2
    have d3 := (readToken_words (readToken (readToken S).2).2).2
    have d4 := (readToken_words (readToken (readToken (readToken S).2).2).2).2
    have d5 := (readToken_words (readToken (readToken (readToken (readToken S).2).2).2).2).2
    have d6 := (readToken_words
      (readToken (readToken (readToken (readToken (readToken S).2).2).2).2).2).2
    have d7 := readLine_words
      (readToken (readToken (readToken (readToken (readToken (readToken S).2).2).2).2).2).2
    have f2 := readFootPrints_frame (S.buf.length + 1) c
    dsimp only at hb
    by_cases h1 : ch0 = '#'
    · rw [if_pos h1] at hb; cases hb
      exact ⟨rfl, rfl, (fun h => by cases h), fun w hw => hw0 w (l1 w hw)⟩
    rw [if_neg h1] at hb
    by_cases h2 : ch0 :: rest = "DEF".toList
    · rw [if_pos h2] at hb; cases hb
      exact ⟨rfl, rfl, (fun h => by cases h),
        fun w hw => hw0 w (d1 w (d2 w (d3 w (d4 w (d5 w (d6 w (d7 w hw)))))))⟩
    rw [if_neg h2] at hb
    by_cases h3 : ch0 = 'F'
    · rw [if_pos h3] at hb; cases hb
      exact ⟨rfl, rfl, (fun h => by cases h), fun w hw => hw0 w (l1 w hw)⟩
    rw [if_neg h3] at hb
    by_cases h4 : ch0 :: rest = "$FPLIST".toList
    · rw [if_pos h4] at hb
      cases hr : readFootPrints (S.buf.length + 1) c S with
      | none => rw [hr] at hb; cases hb
      | some p =>
        obtain ⟨c1, s1⟩ := p
        rw [hr] at hb
        cases hb
        obtain ⟨g1, g2, g3⟩ := f2 _ _ _ hr
        exact ⟨g1, g2, (fun h => by cases h), fun w hw => hw0 w (g3 w hw)⟩
    rw [if_neg h4] at hb
    by_cases h5 : "DRAW".toList.isPrefixOf (ch0 :: rest) = true
    · rw [if_pos h5] at hb; cases hb
      exact ⟨rfl, rfl, fun _ => h5, fun w hw => hw0 w (l1 w hw)⟩
    rw [if_neg h5] at hb
    by_cases h6 : "ALIAS".toList.isPrefixOf (ch0 :: rest) = true
    · rw [if_pos h6] at hb; cases hb
      exact ⟨rfl, rfl, (fun h => by cases h), fun w hw => hw0 w (l1 w hw)⟩
    rw [if_neg h6] at hb
    by_cases h7 : "ENDDRAW".toList.isPrefixOf (ch0 :: rest) = true
    · rw [if_pos h7] at hb; cases hb
      exact ⟨rfl, rfl, (fun h => by cases h), fun w hw => hw0 w (l1 w hw)⟩
    rw [if_neg h7] at hb
    by_cases h8 : "ENDDEF".toList.isPrefixOf (ch0 :: rest) = true
    · rw [if_pos h8] at hb; cases hb
    rw [if_neg h8] at hb
    rw [if_neg (by simp)] at hb
    cases hb
    exact ⟨rfl, rfl, (fun h => by cases h), hw0⟩

/-- The statement `return component` of the ENDDEF branch returns the component as it is. -/
theorem readComponentBody_ret (k : Model D E T) (c c' : Component D E T) (d : Bool)
    (s0 s' : TextStream) (hb : readComponentBody k c d s0 = Step.ret c' s') :
    c' = c ∧ "ENDDEF".toList.isPrefixOf (readToken s0).1 = true := by
  unfold readComponentBody at hb
  dsimp only at hb
  cases hst : (readToken s0).1 with
  | nil => rw [hst] at hb; cases hb
  | cons ch0 rest =>
    rw [hst] at hb
    obtain ⟨S, hS⟩ : ∃ S, S = (readToken s0).2 := ⟨_, rfl⟩
    rw [← hS] at hb
    dsimp only at hb
    by_cases h1 : ch0 = '#'
    · rw [if_pos h1] at hb; cases hb
    rw [if_neg h1] at hb
    by_cases h2 : ch0 :: rest = "DEF".toList
    · rw [if_pos h2] at hb; cases hb
    rw [if_neg h2] at hb
    by_cases h3 : ch0 = 'F'
    · rw [if_pos h3] at hb; cases hb
    rw [if_neg h3] at hb
    by_cases h4 : ch0 :: rest = "$FPLIST".toList
    · rw [if_pos h4] at hb
      cases hr : readFootPrints (S.buf.length + 1) c S with
      | none => rw [hr] at hb; cases hb
      | some p => rw [hr] at hb; cases hb
    rw [if_neg h4] at hb
    by_cases h5 : "DRAW".toList.isPrefixOf (ch0 :: rest) = true
    · rw [if_pos h5] at hb; cases hb
    rw [if_neg h5] at hb
    by_cases h6 : "ALIAS".toList.isPrefixOf (ch0 :: rest) = true
    · rw [if_pos h6] at hb; cases hb
    rw [if_neg h6] at hb
    by_cases h7 : "ENDDRAW".toList.isPrefixOf (ch0 :: rest) = true
    · rw [if_pos h7] at hb; cases hb
    rw [if_neg h7] at hb
    by_cases h8 : "ENDDEF".toList.isPrefixOf (ch0 :: rest) = true
    · rw [if_pos h8] at hb; cases hb; exact ⟨rfl, h8⟩
    rw [if_neg h8] at hb
    by_cases h9 : d = true
    · rw [if_pos h9] at hb
      by_cases h10 : ch0 = 'X'
      · rw [if_pos h10] at hb
        cases hp : readPin k S with
        | mk op s1 =>
          rw [hp] at hb
          cases op <;> cases hb
      rw [if_neg h10] at hb
      by_cases h11 : "S".toList.isPrefixOf (ch0 :: rest) = true
      · rw [if_pos h11] at hb; cases hb
      rw [if_neg h11] at hb; cases hb
    rw [if_neg h9] at hb; cases hb

/-- How one pass of the loop body of `readComponent` changes the drawing flag: a word that
starts with `DRAW` sets it, a word that starts with `ENDDRAW` clears it, any other word
leaves it as it is. -/
theorem readComponentBody_flag (k : Model D E T) (c c' : Component D E T) (d d' : Bool)
    (s0 s' : TextStream) (hb : readComponentBody k c d s0 = Step.next c' d' s') :
    d' = ("DRAW".toList.isPrefixOf (readToken s0).1
          || (d && !"ENDDRAW".toList.isPrefixOf (readToken s0).1)) := by
  unfold readComponentBody at hb
  dsimp only at hb
  cases hst : (readToken s0).1 with
  | nil => rw [hst] at hb; cases hb
  | cons ch0 rest =>
    rw [hst] at hb
    obtain ⟨S, hS⟩ : ∃ S, S = (readToken s0).2 := ⟨_, rfl⟩
    rw [← hS] at hb
    dsimp only at hb
    by_cases h1 : ch0 = '#'
    · rw [if_pos h1] at hb; cases hb
      subst h1
      simp [List.isPrefixOf]
    rw [if_neg h1] at hb
    by_cases h2 : ch0 :: rest = "DEF".toList
    · rw [if_pos h2] at hb; cases hb
      rw [h2]
      simp [List.isPrefixOf]
    rw [if_neg h2] at hb
    by_cases h3 : ch0 = 'F'
    · rw [if_pos h3] at hb; cases hb
      subst h3
      simp [List.isPrefixOf]
    rw [if_neg h3] at hb
    by_cases h4 : ch0 :: rest = "$FPLIST".toList
    · rw [if_pos h4] at hb
      cases hr : readFootPrints (S.buf.length + 1) c S with
      | none => rw [hr] at hb; cases hb
      | some p =>
        rw [hr] at hb; cases hb
        rw [h4]
        simp [List.isPrefixOf]
    rw [if_neg h4] at hb
    by_cases h5 : "DRAW".toList.isPrefixOf (ch0 :: rest) = true
    · rw [if_pos h5] at hb; cases hb
      rw [h5]; rfl
    rw [if_neg h5] at hb
    have h5' : "DRAW".toList.isPrefixOf (ch0 :: rest) = false := Bool.eq_false_iff.mpr h5
    by_cases h6 : "ALIAS".toList.isPrefixOf (ch0 :: rest) = true
    · rw [if_pos h6] at hb; cases hb
      have hA : ch0 = 'A' := by
        simp [List.isPrefixOf] at h6
        exact h6.1.symm
      subst hA
      simp [List.isPrefixOf]
    rw [if_neg h6] at hb
    by_cases h7 : "ENDDRAW".toList.isPrefixOf (ch0 :: rest) = true
    · rw [if_pos h7] at hb; cases hb
      rw [h5', h7]; simp
    rw [if_neg h7] at hb
    have h7' : "ENDDRAW".toList.isPrefixOf (ch0 :: rest) = false := Bool.eq_false_iff.mpr h7
    by_cases h8 : "ENDDEF".toList.isPrefixOf (ch0 :: rest) = true
    · rw [if_pos h8] at hb; cases hb
    rw [if_neg h8] at hb
    rw [h5', h7']
    by_cases h9 : d = true
    · rw [if_pos h9] at hb
      by_cases h10 : ch0 = 'X'
      · rw [if_pos h10] at hb
        cases hp : readPin k S with
        | mk op s1 =>
          rw [hp] at hb
          cases op <;> (cases hb; simp)
      rw [if_neg h10] at hb
      by_cases h11 : "S".toList.isPrefixOf (ch0 :: rest) = true
      · rw [if_pos h11] at hb; cases hb; simp
      rw [if_neg h11] at hb; cases hb; simp
    rw [if_neg h9] at hb; cases hb; simp

/-- On a stream without a word that starts with `DRAW`, the loop of `readComponent` entered with
the drawing flag off adds no pin and does not set the rectangle. -/
theorem readComponentLoop_draw_off (k : Model D E T) (f : Nat) :
    ∀ (c c' : Component D E T) (s s' : TextStream),
      (∀ w ∈ splitWhitespace s.buf, "DRAW".toList.isPrefixOf w = false) →
      readComponentLoop k f c false s = Res.ok (some c', s') →
      c'.pins = c.pins ∧ c'.rect = c.rect := by
  induction f with
  | zero => intro c c' s s' _ h; simp [readComponentLoop] at h
  | succ n ih =>
    intro c c' s s' hw h
    unfold readComponentLoop at h
    cases hb : readComponentBody k c false s with
    | next c1 d1 s1 =>
      rw [hb] at h
      dsimp only at h
      obtain ⟨g1, g2, g3, g4⟩ := readComponentBody_draw_off k c c1 d1 s s1 hb
      have hd1 : d1 = false := by
        cases d1 with
        | false => rfl
        | true =>
          exfalso
          have hp := g3 rfl
          have hne : (readToken s).1 ≠ [] := by
            intro h0; rw [h0] at hp; simp [List.isPrefixOf] at hp
          have := hw _ ((readToken_words s).1 hne)
          rw [hp] at this
          cases this
      subst hd1
      split at h
      · cases h; exact ⟨g1, g2⟩
      · obtain ⟨i1, i2⟩ := ih c1 c' s1 s' (fun w hw' => hw w (g4 w hw')) h
        exact ⟨i1.trans g1, i2.trans g2⟩
    | ret c1 s1 =>
      have hr := (readComponentBody_ret k c c1 false s s1 hb).1
      rw [hb] at h
      cases h
      rw [hr]; exact ⟨rfl, rfl⟩
    | fault => rw [hb] at h; cases h
    | noFuel => rw [hb] at h; cases h

/-- C18. Every call of `readComponent` enters its loop with the drawing flag off. One pass of the
loop body with the flag off adds no pin and leaves the rectangle as it is. A pass sets
the flag when its leading word starts with `DRAW`, clears it when the word starts with
`ENDDRAW`, and leaves it as it is on any other word. The pass that returns is the one
whose leading word starts with `ENDDEF`, and it returns the component as it is. On a
stream without a word that starts with `DRAW`, the component that `readComponent` returns
has no pin and the rectangle of a new component. -/
theorem readComponent_drawing_mode (k : Model D E T) :
    (∀ s, readComponent k s = readComponentFrom k k.newComponent false s)
      ∧ (∀ (c c' : Component D E T) (d' : Bool) (s0 s' : TextStream),
          readComponentBody k c false s0 = Step.next c' d' s' →
            c'.pins = c.pins ∧ c'.rect = c.rect)
      ∧ (∀ (c c' : Component D E T) (d d' : Bool) (s0 s' : TextStream),
          readComponentBody k c d s0 = Step.next c' d' s' →
            d' = ("DRAW".toList.isPrefixOf (readToken s0).1
                  || (d && !"ENDDRAW".toList.isPrefixOf (readToken s0).1)))
      ∧ (∀ (c c' : Component D E T) (d : Bool) (s0 s' : TextStream),
          readComponentBody k c d s0 = Step.ret c' s' →
            c' = c ∧ "ENDDEF".toList.isPrefixOf (readToken s0).1 = true)
      ∧ (∀ (s s' : TextStream) (c' : Component D E T),
          (∀ w ∈ splitWhitespace s.buf, "DRAW".toList.isPrefixOf w = false) →
          readComponent k s = Res.ok (some c', s') → c'.pins = [] ∧ c'.rect = k.newRect) := by
  refine ⟨fun s => rfl, ?_, ?_, ?_, ?_⟩
  · intro c c' d' s0 s' hb
    obtain ⟨g1, g2, _, _⟩ := readComponentBody_draw_off k c c' d' s0 s' hb
    exact ⟨g1, g2⟩
  · intro c c' d d' s0 s' hb
    exact readComponentBody_flag k c c' d d' s0 s' hb
  · intro c c' d s0 s' hb
    exact readComponentBody_ret k c c' d s0 s' hb
  · intro s s' c' hw h
    exact readComponentLoop_draw_off k _ k.newComponent c' s s' hw h

end Drawing


/-! ## Termination and the first character of the leading word -/

section Termination

variable {D E T : Type}

open TextStream

/-- With more fuel than characters the loop of `loadLib` ends. -/
theorem loadLibLoop_ne_outOfFuel (k : Model D E T) (f : Nat) :
    ∀ (l : List (Component D E T)) (s : TextStream), s.buf.length < f →
      loadLibLoop k f l s ≠ Res.outOfFuel := by
  induction f with
  | zero => intro l s h; omega
  | succ n ih =>
    intro l s h
    unfold loadLibLoop
    rcases readComponent_result k s with hr | ⟨c', s', hr, hlt⟩
    · rw [hr]; simp
    · rw [hr]
      dsimp only
      split
      · simp
      · exact ih _ _ (by omega)

/-- The word that starts an iteration is empty only when nothing but whitespace was left, and
then the stream is at its end after the word is read. -/
theorem readToken_nil_atEnd (s : TextStream) (h : (readToken s).1 = []) :
    (readToken s).2.atEnd = true := by
  unfold readToken at h ⊢
  dsimp only at h ⊢
  split
  · simp [TextStream.atEnd, setStatus_buf]
  · rename_i a t e
    exfalso
    rw [e] at h
    have ha : isSpace a = false := by
      have := List.head_dropWhile_not isSpace s.buf (by rw [e]; simp)
      simpa [e] using this
    simp [List.takeWhile_cons, ha] at h

/-- The loop body of `readComponent` stops at `start.at(0)` exactly when the word read is
empty. -/
theorem readComponentBody_fault_iff (k : Model D E T) (c : Component D E T) (d : Bool)
    (s0 : TextStream) :
    readComponentBody k c d s0 = Step.fault ↔ (readToken s0).1 = [] := by
  constructor
  · intro hb
    cases hst : (readToken s0).1 with
    | nil => rfl
    | cons ch0 rest =>
      exfalso
      have hp := readComponentBody_progress k c d s0
      unfold readComponentBody at hb hp
      dsimp only at hb hp
      rw [hst] at hb hp
      obtain ⟨S, hS⟩ : ∃ S, S = (readToken s0).2 := ⟨_, rfl⟩
      rw [← hS] at hb hp
      dsimp only at hb hp
      by_cases h1 : ch0 = '#'
      · rw [if_pos h1] at hb; cases hb
      rw [if_neg h1] at hb hp
      by_cases h2 : ch0 :: rest = "DEF".toList
      · rw [if_pos h2] at hb; cases hb
      rw [if_neg h2] at hb hp
      by_cases h3 : ch0 = 'F'
      · rw [if_pos h3] at hb; cases hb
      rw [if_neg h3] at hb hp
      by_cases h4 : ch0 :: rest = "$FPLIST".toList
      · rw [if_pos h4] at hb hp
        cases hr : readFootPrints (S.buf.length + 1) c S with
        | none => rw [hr] at hp; exact hp.1 rfl
        | some p => rw [hr] at hb; cases hb
      rw [if_neg h4] at hb
      by_cases h5 : "DRAW".toList.isPrefixOf (ch0 :: rest) = true
      · rw [if_pos h5] at hb; cases hb
      rw [if_neg h5] at hb
      by_cases h6 : "ALIAS".toList.isPrefixOf (ch0 :: rest) = true
      · rw [if_pos h6] at hb; cases hb
      rw [if_neg h6] at hb
      by_cases h7 : "ENDDRAW".toList.isPrefixOf (ch0 :: rest) = true
      · rw [if_pos h7] at hb; cases hb
      rw [if_neg h7] at hb
      by_cases h8 : "ENDDEF".toList.isPrefixOf (ch0 :: rest) = true
      · rw [if_pos h8] at hb; cases hb
      rw [if_neg h8] at hb
      by_cases h9 : d = true
      · rw [if_pos h9] at hb
        by_cases h10 : ch0 = 'X'
        · rw [if_pos h10] at hb
          cases hp : readPin k S with
          | mk op s1 =>
            rw [hp] at hb
            cases op <;> cases hb
        rw [if_neg h10] at hb
        by_cases h11 : "S".toList.isPrefixOf (ch0 :: rest) = true
        · rw [if_pos h11] at hb; cases hb
        rw [if_neg h11] at hb; cases hb
      rw [if_neg h9] at hb; cases hb
  · intro h
    unfold readComponentBody
    dsimp only
    rw [h]

/-- On a stream that holds nothing but whitespace, `readComponent` reads an empty word and
indexes it. -/
theorem readComponent_whitespace (k : Model D E T) (s : TextStream)
    (h : s.buf.all isSpace = true) : readComponent k s = Res.indexOutOfRange := by
  have hd : s.buf.dropWhile isSpace = [] := by
    rw [List.dropWhile_eq_nil_iff]
    simpa [List.all_eq_true] using h
  have ht : (readToken s).1 = [] := by
    unfold readToken
    dsimp only
    rw [hd]
  have hb := (readComponentBody_fault_iff k k.newComponent false s).mpr ht
  unfold readComponent
  rw [readComponentLoop_unfold, hb]

/-- C19. The decode of `loadLib` ends on every input: with the fuel it is given the loop of
`loadLib` never runs out of fuel, and more fuel gives the same result. One pass of the
loop body of `readComponent` leaves fewer characters in the stream than it found, whatever
the leading word and whether or not the reads of an S record or of a pin fail, or it
stops at `start.at(0)` with the stream at its end; the `$FPLIST` loop inside it never runs
out of fuel, and a word that it reads from a stream not at its end consumes a character;
one call of `readComponent` leaves fewer characters than it found or stops at
`start.at(0)`. -/
theorem loadLib_terminates (k : Model D E T) (baseName : QString) (file : Option QString)
    (lib : Option (Lib D E T)) :
    loadLib k baseName file lib ≠ Res.outOfFuel
      ∧ (∀ (f : Nat) (l : List (Component D E T)) (s : TextStream), s.buf.length < f →
          loadLibLoop k f l s = loadLibLoop k (s.buf.length + 1) l s
            ∧ loadLibLoop k f l s ≠ Res.outOfFuel)
      ∧ (∀ (c : Component D E T) (d : Bool) (s0 : TextStream),
          readComponentBody k c d s0 ≠ Step.noFuel
            ∧ (∀ s' ∈ (readComponentBody k c d s0).stream?, s'.buf.length < s0.buf.length)
            ∧ (readComponentBody k c d s0 = Step.fault → (readToken s0).2.atEnd = true))
      ∧ (∀ s : TextStream, s.atEnd = false → (readToken s).2.buf.length < s.buf.length)
      ∧ (∀ s : TextStream, readComponent k s = Res.indexOutOfRange
          ∨ ∃ c' s', readComponent k s = Res.ok (some c', s') ∧ s'.buf.length < s.buf.length) := by
  refine ⟨?_, ?_, ?_, ?_, ?_⟩
  · unfold loadLib
    cases file with
    | none => simp
    | some text =>
      dsimp only
      have := loadLibLoop_ne_outOfFuel k ((readLine ⟨text, Status.Ok⟩).2.buf.length + 1) []
        (readLine ⟨text, Status.Ok⟩).2 (Nat.lt_succ_self _)
      cases hl : loadLibLoop k ((readLine ⟨text, Status.Ok⟩).2.buf.length + 1) []
          (readLine ⟨text, Status.Ok⟩).2 with
      | ok p => simp
      | indexOutOfRange => simp
      | outOfFuel => exact absurd hl this
  · intro f l s h
    exact ⟨loadLibLoop_fuel k f _ l s h (Nat.lt_succ_self _), loadLibLoop_ne_outOfFuel k f l s h⟩
  · intro c d s0
    have hp := readComponentBody_progress k c d s0
    exact ⟨hp.1, hp.2, fun hb =>
      readToken_nil_atEnd s0 ((readComponentBody_fault_iff k c d s0).mp hb)⟩
  · intro s hs
    apply readToken_length_lt_of_ne_nil
    intro h0
    simp [TextStream.atEnd, h0] at hs
  · intro s
    exact readComponent_result k s

/-- C20, the failing input: after the line of `ENDDEF` one line feed is left, the stream is not
at its end, `readComponent` is called again, reads an empty word and indexes it. -/
theorem loadLib_blankLineStream (k : Model D E T) (baseName : QString) :
    loadLib k baseName (some blankLineStream) none = Res.indexOutOfRange := by
  rfl

end Termination

end KicadLib
